import Mathlib

/-! # govt: Venti wire codec, client engine, server engine and arena store

A shallow embedding of the Go sources (`vt/vt.go`, `vt/pack.go`,
`vt/vtclnt/clnt.go`, `vt/vtsrv/srv.go`, `vt/vtsrv/examples/vtmm/vtmm.go`).

Conventions of the embedding:

* a byte is `Fin 256`; wider unsigned integers are `Nat` with an explicit
  `% 2^w` wherever the Go code truncates or can wrap;
* a Go slice is `Option (List Byte)`, `none` being the `nil` slice.  Every
  slice expression with an explicit upper bound in the embedded code stays
  within the length of the slice, so capacities are not tracked;
* a Go run-time panic (index or slice out of range) is the outer `none`
  of an `Option`-valued function;
* writes through a slice into its backing array are tracked with a cursor
  (`Cur`): the bytes of the array before the slice start, and the slice.
-/

namespace Vt

/-! ## vt.go: constants and the call record -/

abbrev Byte := Fin 256

/-- Go `[]byte`; `none` is the nil slice. -/
abbrev Slice := Option (List Byte)

/-- Go `len(s)`. -/
def Slice.len : Slice → Nat
  | none => 0
  | some l => l.length

/-- The bytes a slice holds (none for nil). -/
def Slice.bytes : Slice → List Byte
  | none => []
  | some l => l

/-- Go `s[lo:]`: panics when `lo > len(s)`; a nil slice stays nil. -/
def Slice.sliceFrom (s : Slice) (lo : Nat) : Option Slice :=
  if lo ≤ s.len then some (s.map (List.drop lo)) else none

/-- Go `s[0:hi]`: panics when `hi > len(s)`; a nil slice stays nil. -/
def Slice.sliceTo (s : Slice) (hi : Nat) : Option Slice :=
  if hi ≤ s.len then some (s.map (List.take hi)) else none

/-- A Go string is a sequence of bytes. -/
abbrev GoString := List Byte

/-- The bytes of an ASCII literal. -/
def gostr (s : String) : GoString := s.toList.map (fun c => Fin.ofNat c.toNat)

def Rerror : Byte := 1
def Tping : Byte := 2
def Rping : Byte := 3
def Thello : Byte := 4
def Rhello : Byte := 5
def Tgoodbye : Byte := 6
def Tread : Byte := 12
def Rread : Byte := 13
def Twrite : Byte := 14
def Rwrite : Byte := 15
def Tsync : Byte := 16
def Rsync : Byte := 17

def Scoresize : Nat := 20
def Maxblock : Nat := 56 * 1024

def DataBlock : Byte := 0
def DirBlock : Byte := 8
def RBlock : Byte := 16

structure Call where
  Id : Byte := 0
  Tag : Byte := 0
  Ename : GoString := []
  Version : GoString := []
  Uid : GoString := []
  Strength : Byte := 0
  Crypto : Slice := none
  Codec : Slice := none
  Sid : GoString := []
  Rcrypto : Byte := 0
  Rcodec : Byte := 0
  Score : Slice := none
  Btype : Byte := 0
  Count : Nat := 0
  Data : Slice := none
  Pkt : Slice := none
deriving DecidableEq, Repr

structure Error where
  Ename : GoString
deriving DecidableEq, Repr

/-! ## vt.go: reading integers, strings and scores -/

def Gint8 : Slice → Option (Byte × Slice)
  | some (b :: r) => some (b, some r)
  | _ => none

def Gint16 : Slice → Option (Nat × Slice)
  | some (b0 :: b1 :: r) => some (b1.val ||| (b0.val <<< 8), some r)
  | _ => none

def Gint32 : Slice → Option (Nat × Slice)
  | some (b0 :: b1 :: b2 :: b3 :: r) =>
    some (b3.val ||| (b2.val <<< 8) ||| (b1.val <<< 16) ||| (b0.val <<< 24), some r)
  | _ => none

def Gstr (buf : Slice) : Option (GoString × Slice) :=
  if buf = none then some ([], none) else
  match Gint16 buf with
  | none => none
  | some (n, buf) =>
    if n > buf.len then some ([], none)
    else some ((buf.bytes).take n, buf.map (List.drop n))

def Gvar (buf : Slice) : Option (Slice × Slice) :=
  if buf = none then some (none, none) else
  match Gint8 buf with
  | none => none
  | some (n, buf) =>
    if n.val > buf.len then some (none, none)
    else some (buf.map (List.take n.val), buf.map (List.drop n.val))

def Gscore (buf : Slice) : Slice × Slice :=
  if buf.len < Scoresize then (none, none)
  else (buf.map (List.take Scoresize), buf.map (List.drop Scoresize))

/-! ## vt.go: writing integers, strings and scores -/

/-- A slice positioned inside its backing array: `done` are the bytes of the
array before the slice, `rest` is the slice itself. -/
structure Cur where
  done : List Byte
  rest : List Byte
deriving DecidableEq, Repr

/-- The backing array seen through a cursor. -/
def Cur.all (c : Cur) : List Byte := c.done ++ c.rest

/-- Go `buf[n:]` on a cursor: panics when `n > len(buf)`. -/
def Cur.advance (c : Cur) (n : Nat) : Option Cur :=
  if n ≤ c.rest.length then some ⟨c.done ++ c.rest.take n, c.rest.drop n⟩ else none

/-- Go `copy(buf, src)`: overwrites the first `min(len(buf), len(src))` bytes. -/
def Cur.copy (c : Cur) (src : List Byte) : Cur :=
  ⟨c.done, src.take c.rest.length ++ c.rest.drop src.length⟩

def Pint8 (val : Byte) (c : Cur) : Option Cur :=
  match c.rest with
  | _ :: r => some ⟨c.done ++ [val], r⟩
  | [] => none

def Pint16 (val : Nat) (c : Cur) : Option Cur :=
  match c.rest with
  | _ :: _ :: r => some ⟨c.done ++ [Fin.ofNat (val >>> 8), Fin.ofNat val], r⟩
  | _ => none

def Pint32 (val : Nat) (c : Cur) : Option Cur :=
  match c.rest with
  | _ :: _ :: _ :: _ :: r =>
    some ⟨c.done ++ [Fin.ofNat (val >>> 24), Fin.ofNat (val >>> 16),
                     Fin.ofNat (val >>> 8), Fin.ofNat val], r⟩
  | _ => none

def Pstr (val : GoString) (c : Cur) : Option Cur := do
  let n := val.length % 65536
  let c ← Pint16 n c
  (c.copy val).advance n

def Pvar (val : List Byte) (c : Cur) : Option Cur := do
  let n := val.length % 256
  let c ← Pint8 (Fin.ofNat n) c
  (c.copy val).advance n

def Pscore (val : List Byte) (c : Cur) : Option Cur :=
  (c.copy val).advance Scoresize

/-- Method `Call.Clear`. -/
def Call.Clear (c : Call) : Call :=
  { c with Id := 0, Crypto := none, Codec := none, Score := none, Data := none, Pkt := none }

/-! ## pack.go -/

def VtCorruptType : Byte := 0xFF

def Overrtype : Byte := 0
def Ovroottype : Byte := 1
def Ovdirtype : Byte := 2
def Ovptype0 : Byte := 3
def Ovptype1 : Byte := 4
def Ovptype2 : Byte := 5
def Ovptype3 : Byte := 6
def Ovptype4 : Byte := 7
def Ovptype5 : Byte := 8
def Ovptype6 : Byte := 9
def Ovptype7 : Byte := 10
def Ovptype8 : Byte := 11
def Ovptype9 : Byte := 12
def Ovdtype : Byte := 13
def Ovmaxtype : Byte := 14

def todisk : List Byte :=
  [Ovdtype, Ovptype0, Ovptype1, Ovptype2, Ovptype3, Ovptype4, Ovptype5, Ovptype6,
   Ovdirtype, Ovptype0, Ovptype1, Ovptype2, Ovptype3, Ovptype4, Ovptype5, Ovptype6,
   Ovroottype]

def fromdisk : List Byte :=
  [VtCorruptType, RBlock, DirBlock, DirBlock + 1, DirBlock + 2, DirBlock + 3,
   DirBlock + 4, DirBlock + 5, DirBlock + 6, DirBlock + 7,
   VtCorruptType, VtCorruptType, VtCorruptType, DataBlock]

def Epacket : Error := ⟨gostr "invalid packet"⟩
def Eblktype : Error := ⟨gostr "invalid block type"⟩

/-- The table lookup panics when the index equals the table length. -/
def fromDiskType (val : Byte) : Option Byte :=
  if val.val > fromdisk.length then some VtCorruptType else fromdisk[val.val]?

def toDiskType (val : Byte) : Option Byte :=
  if val.val > todisk.length then some VtCorruptType else todisk[val.val]?

/-- Returns the frame size and the slice after the header, or `(-1, nil)`. -/
def PackCall (buf : Cur) (id tag : Byte) (size : Nat) : Option (Int × Option Cur) :=
  let size := size + (2 + 1 + 1)
  if buf.rest.length < size then some (-1, none) else do
    let buf ← Pint16 ((size - 2) % 65536) buf
    let buf ← Pint8 id buf
    let buf ← Pint8 tag buf
    some ((size : Int), some buf)

/-- Each packer returns its int result and the buffer contents afterwards. -/
def PackEmpty (buf : List Byte) (id tag : Byte) : Option (Int × List Byte) := do
  let (sz, b) ← PackCall ⟨[], buf⟩ id tag 0
  match b with
  | none => some (-1, buf)
  | some c => some (sz, c.all)

def PackTping (buf : List Byte) (tag : Byte) : Option (Int × List Byte) :=
  PackEmpty buf Tping tag

def PackThello (buf : List Byte) (tag : Byte) (version uid : GoString) (strength : Byte)
    (crypto codec : List Byte) : Option (Int × List Byte) := do
  let (sz, b) ← PackCall ⟨[], buf⟩ Thello tag
    (7 + version.length + uid.length + crypto.length + codec.length)
  match b with
  | none => some (-1, buf)
  | some c =>
    let c ← Pstr version c
    let c ← Pstr uid c
    let c ← Pint8 strength c
    let c ← Pvar crypto c
    let c ← Pvar codec c
    some (sz, c.all)

def PackTgoodbye (buf : List Byte) (tag : Byte) : Option (Int × List Byte) :=
  PackEmpty buf Tgoodbye tag

def PackTread (buf : List Byte) (tag : Byte) (score : List Byte) (btype : Byte)
    (count : Nat) : Option (Int × List Byte) := do
  let (sz, b) ← PackCall ⟨[], buf⟩ Tread tag (Scoresize + 1 + 1 + 2)
  match b with
  | none => some (-1, buf)
  | some c =>
    let c ← Pscore score c
    let t ← toDiskType btype
    let c ← Pint8 t c
    let c ← Pint8 0 c
    let c ← Pint16 count c
    some (sz, c.all)

def PackTwrite (buf : List Byte) (tag : Byte) (btype : Byte) (data : List Byte) :
    Option (Int × List Byte) := do
  let (sz, b) ← PackCall ⟨[], buf⟩ Twrite tag (1 + 3 + data.length)
  match b with
  | none => some (-1, buf)
  | some c =>
    let t ← toDiskType btype
    let c ← Pint8 t c
    let c ← Pint8 0 c
    let c ← Pint16 0 c
    some (sz, (c.copy data).all)

def PackTsync (buf : List Byte) (tag : Byte) : Option (Int × List Byte) :=
  PackEmpty buf Tsync tag

def PackRerror (buf : List Byte) (tag : Byte) (ename : GoString) :
    Option (Int × List Byte) := do
  let (sz, b) ← PackCall ⟨[], buf⟩ Rerror tag (ename.length + 2)
  match b with
  | none => some (-1, buf)
  | some c =>
    let c ← Pstr ename c
    some (sz, c.all)

def PackRping (buf : List Byte) (tag : Byte) : Option (Int × List Byte) :=
  PackEmpty buf Rping tag

def PackRhello (buf : List Byte) (tag : Byte) (sid : GoString) (rcrypto rcodec : Byte) :
    Option (Int × List Byte) := do
  let (sz, b) ← PackCall ⟨[], buf⟩ Rhello tag (sid.length + 4)
  match b with
  | none => some (-1, buf)
  | some c =>
    let c ← Pstr sid c
    let c ← Pint8 rcrypto c
    let c ← Pint8 rcodec c
    some (sz, c.all)

def PackRread (buf : List Byte) (tag : Byte) (data : List Byte) :
    Option (Int × List Byte) := do
  let (sz, b) ← PackCall ⟨[], buf⟩ Rread tag data.length
  match b with
  | none => some (-1, buf)
  | some c => some (sz, (c.copy data).all)

def PackRwrite (buf : List Byte) (tag : Byte) (score : List Byte) :
    Option (Int × List Byte) := do
  let (sz, b) ← PackCall ⟨[], buf⟩ Rwrite tag Scoresize
  match b with
  | none => some (-1, buf)
  | some c =>
    let c ← Pscore score c
    some (sz, c.all)

def PackRsync (buf : List Byte) (tag : Byte) : Option (Int × List Byte) :=
  PackEmpty buf Rsync tag

/-- The switch of `Pack`: the packer selected by `vc.Id`, if any. -/
def packSwitch (buf : List Byte) (vc : Call) : Option (Int × List Byte) :=
  let tag := vc.Tag
  if vc.Id = Rerror then PackRerror buf tag vc.Ename
  else if vc.Id = Tping then PackTping buf tag
  else if vc.Id = Rping then PackRping buf tag
  else if vc.Id = Thello then
    PackThello buf tag vc.Version vc.Uid vc.Strength vc.Crypto.bytes vc.Codec.bytes
  else if vc.Id = Rhello then PackRhello buf tag vc.Sid vc.Rcrypto vc.Rcodec
  else if vc.Id = Tgoodbye then PackTgoodbye buf tag
  else if vc.Id = Tread then PackTread buf tag vc.Score.bytes vc.Btype vc.Count
  else if vc.Id = Rread then PackRread buf tag vc.Data.bytes
  else if vc.Id = Twrite then PackTwrite buf tag vc.Btype vc.Data.bytes
  else if vc.Id = Rwrite then PackRwrite buf tag vc.Score.bytes
  else if vc.Id = Tsync then PackTsync buf tag
  else if vc.Id = Rsync then PackRsync buf tag
  else some (-1, buf)

/-- Returns the int result, the buffer contents afterwards and the call
(whose `Pkt` views `buf[0:sz]` when `sz > 0`). -/
def Pack (buf : List Byte) (vc : Call) : Option (Int × List Byte × Call) := do
  let (sz, buf) ← packSwitch buf vc
  if sz > 0 then some (sz, buf, { vc with Pkt := some (buf.take sz.toNat) })
  else some (sz, buf, vc)

/-- The per-message part of `Unpack`: decodes the body `buf` into `vc`.  The
result is either an early `return 0, err` or the slice left over. -/
def unpackBody (buf : Slice) (vc : Call) : Option (Call × (Error ⊕ Slice)) :=
  if vc.Id = Rerror then do
    let (s, buf) ← Gstr buf
    some ({ vc with Ename := s }, .inr buf)
  else if vc.Id = Thello then do
    let (v, buf) ← Gstr buf
    let vc := { vc with Version := v }
    let (u, buf) ← Gstr buf
    let vc := { vc with Uid := u }
    if buf = none ∨ buf.len < 1 then some (vc, .inl Epacket) else
    let (s, buf) ← Gint8 buf
    let vc := { vc with Strength := s }
    let (cr, buf) ← Gvar buf
    let vc := { vc with Crypto := cr }
    let (co, buf) ← Gvar buf
    some ({ vc with Codec := co }, .inr buf)
  else if vc.Id = Rhello then do
    let (s, buf) ← Gstr buf
    let vc := { vc with Sid := s }
    if buf = none ∨ buf.len < 2 then some (vc, .inl Epacket) else
    let (a, buf) ← Gint8 buf
    let vc := { vc with Rcrypto := a }
    let (b, buf) ← Gint8 buf
    some ({ vc with Rcodec := b }, .inr buf)
  else if vc.Id = Tread then do
    let (sc, buf) := Gscore buf
    let vc := { vc with Score := sc }
    if buf = none ∨ buf.len < 4 then some (vc, .inl Epacket) else
    let (t, buf) ← Gint8 buf
    let vc := { vc with Btype := t }
    let n ← fromDiskType vc.Btype
    if n.val < 0 then some (vc, .inl Eblktype) else
    let vc := { vc with Btype := n }
    let (_, buf) ← Gint8 buf
    let (cnt, buf) ← Gint16 buf
    some ({ vc with Count := cnt }, .inr buf)
  else if vc.Id = Rread then do
    let vc := { vc with Data := buf }
    let buf ← buf.sliceFrom buf.len
    some (vc, .inr buf)
  else if vc.Id = Twrite then do
    if buf.len < 4 then some (vc, .inl Epacket) else
    let (t, buf) ← Gint8 buf
    let vc := { vc with Btype := t }
    let n ← fromDiskType vc.Btype
    if n.val < 0 then some (vc, .inl Eblktype) else
    let vc := { vc with Btype := n }
    let d ← buf.sliceFrom 3
    let vc := { vc with Data := d }
    let buf ← buf.sliceFrom buf.len
    some (vc, .inr buf)
  else if vc.Id = Rwrite then
    let (sc, buf) := Gscore buf
    some ({ vc with Score := sc }, .inr buf)
  else if vc.Id = Tping ∨ vc.Id = Rping ∨ vc.Id = Tgoodbye ∨ vc.Id = Tsync ∨ vc.Id = Rsync then
    some (vc, .inr buf)
  else some (vc, .inl Epacket)

/-- Returns the byte count, the error and the call as left by the decoder. -/
def Unpack (buf : Slice) (vc : Call) : Option (Nat × Option Error × Call) :=
  if buf.len < 4 then some (0, none, vc) else do
    let vc := { vc with Pkt := buf }
    let (sz, buf) ← Gint16 buf
    if sz > buf.len then some (0, none, vc) else
    let pkt ← vc.Pkt.sliceTo ((sz + 2) % 65536)
    let vc := { vc with Pkt := pkt }
    let buf ← buf.sliceTo sz
    let (id, buf) ← Gint8 buf
    let vc := { vc with Id := id }
    let (tag, buf) ← Gint8 buf
    let vc := { vc with Tag := tag }
    let (vc, r) ← unpackBody buf vc
    match r with
    | .inl e => some (0, some e, vc)
    | .inr buf =>
      if buf = none ∨ buf.len > 0 then some (0, some Epacket, vc)
      else some ((sz + 2) % 65536, none, vc)

/-! ## Wire format of a call, as written by the packers -/

/-- Big-endian 16-bit encoding. -/
def enc16 (n : Nat) : List Byte := [Fin.ofNat (n >>> 8), Fin.ofNat n]

/-- Writing `bs` at a cursor and stepping over it. -/
def Cur.put (c : Cur) (bs : List Byte) : Cur := ⟨c.done ++ bs, c.rest.drop bs.length⟩

/-- A string on the wire: 16-bit length, then the bytes. -/
def encStr (s : GoString) : List Byte := enc16 s.length ++ s

/-- A short byte string on the wire: 8-bit length, then the bytes. -/
def encVar (b : List Byte) : List Byte := Fin.ofNat b.length :: b

/-- The body of the frame of `c`, `t` being the disk type of `c.Btype`. -/
def encBody (c : Call) (t : Byte) : List Byte :=
  if c.Id = Rerror then encStr c.Ename
  else if c.Id = Thello then
    encStr c.Version ++ encStr c.Uid ++ [c.Strength] ++ encVar c.Crypto.bytes
      ++ encVar c.Codec.bytes
  else if c.Id = Rhello then encStr c.Sid ++ [c.Rcrypto, c.Rcodec]
  else if c.Id = Tread then c.Score.bytes ++ [t, 0] ++ enc16 c.Count
  else if c.Id = Rread then c.Data.bytes
  else if c.Id = Twrite then [t, 0, 0, 0] ++ c.Data.bytes
  else if c.Id = Rwrite then c.Score.bytes
  else []

/-- Length of the frame of `c`: four header bytes and the body. -/
def frameLen (c : Call) : Nat := 4 + (encBody c 0).length

/-- The frame of `c`: `size[2] id[1] tag[1] body`. -/
def encFrame (c : Call) (t : Byte) : List Byte :=
  enc16 (frameLen c - 2) ++ [c.Id, c.Tag] ++ encBody c t

/-- The twelve message kinds of the catalogue. -/
def Catalogued (id : Byte) : Prop :=
  id = Rerror ∨ id = Tping ∨ id = Rping ∨ id = Thello ∨ id = Rhello ∨ id = Tgoodbye ∨
  id = Tread ∨ id = Rread ∨ id = Twrite ∨ id = Rwrite ∨ id = Tsync ∨ id = Rsync

instance (id : Byte) : Decidable (Catalogued id) := by
  unfold Catalogued; infer_instance

/-- A valid in-memory block type: a family (`DataBlock`, `DirBlock`, `RBlock`)
plus a sub-level 0..7. -/
def ValidBtype (b : Byte) : Prop := b.val < RBlock.val + 8

instance (b : Byte) : Decidable (ValidBtype b) := by
  unfold ValidBtype; infer_instance

/-- The block types the two translation tables map back to themselves. -/
def StableBtype (b : Byte) : Prop :=
  b = DataBlock ∨ (DirBlock.val ≤ b.val ∧ b.val ≤ DirBlock.val + 7) ∨ b = RBlock

instance (b : Byte) : Decidable (StableBtype b) := by
  unfold StableBtype; infer_instance

/-- Fields that fit the wire format, for all fields of the call. -/
structure FitsWire (c : Call) : Prop where
  ename : c.Ename.length ≤ 65535
  version : c.Version.length ≤ 65535
  uid : c.Uid.length ≤ 65535
  sid : c.Sid.length ≤ 65535
  crypto : c.Crypto.len ≤ 255
  codec : c.Codec.len ≤ 255
  score : c.Score.len = Scoresize
  count : c.Count < 65536
  btype : ValidBtype c.Btype

/-- Fields that fit the wire format, asked only of the fields the kind uses. -/
structure FitsKind (c : Call) : Prop where
  crypto : c.Id = Thello → c.Crypto.len ≤ 255
  codec : c.Id = Thello → c.Codec.len ≤ 255
  score : c.Id = Tread ∨ c.Id = Rwrite → c.Score.len = Scoresize
  count : c.Id = Tread → c.Count < 65536
  btype : c.Id = Tread ∨ c.Id = Twrite → StableBtype c.Btype

/-- The fields that have to fit their place in the frame for the packers to
write it whole: the one-byte length of crypto and codec, the 20 bytes of the
score. -/
structure FitsPack (c : Call) : Prop where
  crypto : c.Id = Thello → c.Crypto.len ≤ 255
  codec : c.Id = Thello → c.Codec.len ≤ 255
  score : c.Id = Tread ∨ c.Id = Rwrite → c.Score.len = Scoresize

/-- Agreement of two calls on `Id`, `Tag` and the fields the kind uses; byte
slices are compared by content. -/
def SameFields (c d : Call) : Prop :=
  c.Id = d.Id ∧ c.Tag = d.Tag ∧
  (c.Id = Rerror → c.Ename = d.Ename) ∧
  (c.Id = Thello → c.Version = d.Version ∧ c.Uid = d.Uid ∧ c.Strength = d.Strength ∧
    c.Crypto.bytes = d.Crypto.bytes ∧ c.Codec.bytes = d.Codec.bytes) ∧
  (c.Id = Rhello → c.Sid = d.Sid ∧ c.Rcrypto = d.Rcrypto ∧ c.Rcodec = d.Rcodec) ∧
  (c.Id = Tread → c.Score.bytes = d.Score.bytes ∧ c.Btype = d.Btype ∧ c.Count = d.Count) ∧
  (c.Id = Rread → c.Data.bytes = d.Data.bytes) ∧
  (c.Id = Twrite → c.Btype = d.Btype ∧ c.Data.bytes = d.Data.bytes) ∧
  (c.Id = Rwrite → c.Score.bytes = d.Score.bytes)

instance (c d : Call) : Decidable (SameFields c d) := by
  unfold SameFields; infer_instance

/-- Packing `c` into `buf` and unpacking `buf[0:n]` into `c0`: `Pack` returns
`n > 0`, `Unpack` succeeds, returns `n` and agrees with `c`. -/
def RoundTrip (buf : List Byte) (c c0 : Call) : Prop :=
  match Pack buf c with
  | some (n, out, _) =>
    0 < n ∧
    (match Unpack (some (out.take n.toNat)) c0 with
     | some (m, none, d) => (m : Int) = n ∧ SameFields c d
     | _ => False)
  | none => False

instance (buf : List Byte) (c c0 : Call) : Decidable (RoundTrip buf c c0) := by
  unfold RoundTrip
  split
  · rename_i n out _ _
    cases h : Unpack (some (out.take n.toNat)) c0 with
    | none => simp only []; infer_instance
    | some r =>
      obtain ⟨m, e, d⟩ := r
      cases e <;> simp only [] <;> infer_instance
  · infer_instance

/-- A Tread with the block type `DataBlock + 1`. -/
def treadData1 : Call :=
  { Id := Tread, Tag := 7, Score := some (List.replicate 20 9), Btype := DataBlock + 1,
    Count := 513 }

/-- A Tread with the block type `DirBlock + 3`. -/
def treadDir3 : Call :=
  { Id := Tread, Tag := 7, Score := some (List.replicate 20 9), Btype := DirBlock + 3,
    Count := 513 }

/-- A complete Tread frame (zero score, count 0) carrying the wire type `w`. -/
def treadFrame (w : Byte) : List Byte :=
  [0, 26, Tread, 0] ++ List.replicate 20 0 ++ [w, 0, 0, 0]

/-- A complete Twrite frame (no data) carrying the wire type `w`. -/
def twriteFrame (w : Byte) : List Byte := [0, 6, Twrite, 0, w, 0, 0, 0]

/-- What a caller of `Unpack` observes: the count, the error, the block type. -/
def unpackBtype (buf : List Byte) : Option (Nat × Option Error × Byte) :=
  (Unpack (some buf) {}).map (fun r => (r.1, r.2.1, r.2.2.Btype))

/-- The size of the body each packer asks `PackCall` for (the argument `size`
at its call site); the other kinds have an empty body. -/
def bodySize (c : Call) : Nat :=
  if c.Id = Rerror then c.Ename.length + 2
  else if c.Id = Thello then
    7 + c.Version.length + c.Uid.length + c.Crypto.bytes.length + c.Codec.bytes.length
  else if c.Id = Rhello then c.Sid.length + 4
  else if c.Id = Tread then Scoresize + 1 + 1 + 2
  else if c.Id = Rread then c.Data.bytes.length
  else if c.Id = Twrite then 1 + 3 + c.Data.bytes.length
  else if c.Id = Rwrite then Scoresize
  else 0

/-- A Thello whose crypto has 256 bytes. -/
def thelloBig : Call := { Id := Thello, Tag := 1, Crypto := some (List.replicate 256 7) }


/-- What `Pack` leaves in a zero-filled buffer of 267 bytes for `thelloBig`:
the header, empty version and uid, strength 0, a crypto length of 0, a codec
length of 0, then 255 of the crypto bytes and one byte of the buffer. -/
def packedBig : List Byte :=
  [1, 9, Thello, 1, 0, 0, 0, 0, 0, 0, 0] ++ List.replicate 255 7 ++ [0]

/-- A Thello frame of a call with the version "02" and the uid "u", followed
inside the frame by the two bytes 7, 7. -/
def thelloTrailing : Call := { Id := Thello, Tag := 3, Version := gostr "02", Uid := gostr "u" }

/-- The data of an Rread frame that fills the largest size field with
room for two more bytes: 65532 zero bytes. -/
def wrapData : List Byte := List.replicate 65532 0

/-- An Rread frame of 65536 bytes: the size field 0xfffe, the id, the tag 0
and `wrapData`. -/
def wrapFrame : List Byte := 255 :: 254 :: Rread :: 0 :: wrapData

/-! ## vt.go: the banner

The functions of the Go package `strings` that `CheckBanner` calls are given
for a separator of one byte, which is how `CheckBanner` calls them. -/

def Banner : GoString := gostr "venti-02-govt\n"

/-- Go `strings.HasPrefix`. -/
def HasPrefix (s pre : GoString) : Bool :=
  decide (s.length ≥ pre.length) && (s.take pre.length == pre)

/-- Go `strings.Index` for a separator of one byte: the offset of the first
occurrence, `none` standing for -1. -/
def Index : GoString → Byte → Option Nat
  | [], _ => none
  | b :: r, sep => if b = sep then some 0 else (Index r sep).map (fun m => m + 1)

/-- The loop of `strings.SplitN`: at most `k` cuts, at the first occurrences of
the separator; the last piece is the unsplit rest. -/
def SplitN.loop (sep : Byte) : Nat → GoString → List GoString
  | 0, s => [s]
  | k + 1, s =>
    match Index s sep with
    | none => [s]
    | some m => s.take m :: SplitN.loop sep k (s.drop (m + 1))

/-- Go `strings.SplitN` for a separator of one byte: nil for `n = 0`, at most
`n` pieces for `n > 0`, all pieces for `n < 0`. -/
def SplitN (s : GoString) (sep : Byte) (n : Int) : List GoString :=
  if n = 0 then [] else
  let n : Nat := if n < 0 then s.count sep + 1 else n.toNat
  SplitN.loop sep (n - 1) s

def CheckBanner (banner : GoString) : Bool :=
  if ¬ HasPrefix banner (gostr "venti-") then false else
  let ds := SplitN banner 45 3
  if ds.length < 3 ∨ ds.getD 0 [] ≠ gostr "venti" then false else
  let vs := SplitN (ds.getD 1 []) 58 (-1)
  vs.any (fun v => v == gostr "02")

/-- The banners the specification accepts: the string begins with "venti-",
it splits on "-" into at least three fields, and one of the elements of the
second field, split on ":", is "02". -/
def BannerAccepted (s : GoString) : Prop :=
  gostr "venti-" <+: s ∧ 3 ≤ (s.splitOn 45).length ∧
  gostr "02" ∈ ((s.splitOn 45).getD 1 []).splitOn 58

/-- An Rerror reply, as an envelope holds it before it is recycled. -/
def staleCall : Call :=
  { Id := Rerror, Tag := 5, Ename := gostr "not found", Strength := 1, Btype := DirBlock,
    Count := 9 }

/-! ## vt.go: the 48-bit and 64-bit integers -/

def Gint48 : Slice → Option (Nat × Slice)
  | some (b0 :: b1 :: b2 :: b3 :: b4 :: b5 :: r) =>
    some (b5.val ||| (b4.val <<< 8) ||| (b3.val <<< 16) ||| b2.val <<< 24 ||| (b1.val <<< 32)
      ||| (b0.val <<< 40), some r)
  | _ => none

def Gint64 : Slice → Option (Nat × Slice)
  | some (b0 :: b1 :: b2 :: b3 :: b4 :: b5 :: b6 :: b7 :: r) =>
    some (b7.val ||| (b6.val <<< 8) ||| (b5.val <<< 16) ||| (b4.val <<< 24) ||| (b3.val <<< 32)
      ||| (b2.val <<< 40) ||| (b1.val <<< 48) ||| (b0.val <<< 56), some r)
  | _ => none

def Pint48 (val : Nat) (c : Cur) : Option Cur :=
  match c.rest with
  | _ :: _ :: _ :: _ :: _ :: _ :: r =>
    some ⟨c.done ++ [Fin.ofNat (val >>> 40), Fin.ofNat (val >>> 32), Fin.ofNat (val >>> 24),
                     Fin.ofNat (val >>> 16), Fin.ofNat (val >>> 8), Fin.ofNat val], r⟩
  | _ => none

def Pint64 (val : Nat) (c : Cur) : Option Cur :=
  match c.rest with
  | _ :: _ :: _ :: _ :: _ :: _ :: _ :: _ :: r =>
    some ⟨c.done ++ [Fin.ofNat (val >>> 56), Fin.ofNat (val >>> 48), Fin.ofNat (val >>> 40),
                     Fin.ofNat (val >>> 32), Fin.ofNat (val >>> 24), Fin.ofNat (val >>> 16),
                     Fin.ofNat (val >>> 8), Fin.ofNat val], r⟩
  | _ => none

/-- Network byte order: the `k` low-order bytes of `v`, the most significant
one first. -/
def netBytes : Nat → Nat → List Byte
  | 0, _ => []
  | k + 1, v => Fin.ofNat (v / 256 ^ k) :: netBytes k v


/-- The slice a writer was given at the cursor `c`, as it reads once the
write has left the cursor `c2`. -/
def Cur.after (c c2 : Cur) : Slice := some (c2.all.drop c.done.length)

/-- A cursor on a zero-filled buffer of 32 bytes, two bytes in. -/
def cur30 : Cur := ⟨[1, 2], List.replicate 30 0⟩

/-! ## vt.go: Zeroscore; fmt.go: Score.String -/

def Zeroscore : Slice :=
  some [0xda, 0x39, 0xa3, 0xee, 0x5e, 0x6b, 0x4b, 0x0d, 0x32, 0x55,
        0xbf, 0xef, 0x95, 0x60, 0x18, 0x90, 0xaf, 0xd8, 0x07, 0x09]

/-- The ASCII digit of a value below 16 in base 16, lowercase. -/
def hexDigit (n : Nat) : Byte := if n < 10 then Fin.ofNat (48 + n) else Fin.ofNat (87 + n)

/-- Go `fmt.Sprintf("%x", b)` for a byte `b`: the value in base 16 with
lowercase digits and without leading zeros. -/
def fmtHex (b : Byte) : GoString :=
  if b.val < 16 then [hexDigit b.val] else [hexDigit (b.val / 16), hexDigit (b.val % 16)]

/-- The loop of `Score.String`, `n` iterations from index `i`; `s[i]` panics
past the end of the score. -/
def Score.String.loop (s : List Byte) : Nat → Nat → GoString → Option GoString
  | 0, _, ret => some ret
  | n + 1, i, ret =>
    match s[i]? with
    | none => none
    | some b => Score.String.loop s n (i + 1) (ret ++ fmtHex b)

/-- Method `Score.String`. -/
def Score.String (s : Slice) : Option GoString := Score.String.loop s.bytes Scoresize 0 []

/-- The score 01 23 00 ... 00. -/
def scoreA : List Byte := 0x01 :: 0x23 :: List.replicate 18 0

/-- The score 12 03 00 ... 00. -/
def scoreB : List Byte := 0x12 :: 0x03 :: List.replicate 18 0

end Vt

/-! ## vtclnt/clnt.go: the client engine

Envelopes live in a heap addressed by `Ptr`; the `next`/`prev` fields hold
addresses, `none` being the nil pointer.  A send on a channel is logged in
`sent` (the `Done` channels) or queued (`reqout`, `reqchan`).  A loop that
follows `next` pointers takes a fuel argument and yields `none` when the fuel
runs out, as it does on a run-time panic. -/

namespace Vtclnt
open Vt

abbrev Ptr := Nat

structure Req where
  Tc : Call := {}
  Rc : Call := {}
  Err : Option Error := none
  /-- The completion channel, by its identity; `none` is nil. -/
  Done : Option Nat := none
  tag : Byte := 0
  next : Option Ptr := none
  prev : Option Ptr := none
deriving DecidableEq, Repr

structure Clnt where
  heap : Ptr → Req
  /-- Next unused address, for `new(Req)`. -/
  fresh : Ptr := 0
  /-- Modelled from the spec: the tag pool (`pool`, `getId`, `putId` are not
  among the sources), as the list of ids in use. -/
  tagpool : List Nat := []
  reqout : List Ptr := []
  done : List Bool := []
  reqfirst : Option Ptr := none
  reqlast : Option Ptr := none
  err : Option Error := none
  reqchan : List Ptr := []
  /-- Sends on `Done` channels: the channel and the envelope sent. -/
  sent : List (Nat × Ptr) := []
  /-- Whether `conn.Close()` was called. -/
  connClosed : Bool := false

/-- Modelled from the spec: `getId` of the tag pool, which is not among the
sources: "Acquire returns an unused integer in `[0, max]`", blocking (`none`)
when all are in use; the least unused id is taken. -/
def getId (maxid : Nat) (used : List Nat) : Option Nat :=
  (List.range (maxid + 1)).find? (fun i => decide (i ∉ used))

/-- Modelled from the spec: `putId` of the tag pool, which is not among the
sources: "released ids are immediately reusable". -/
def putId (used : List Nat) (id : Nat) : List Nat := used.filter (fun i => decide (i ≠ id))

def Clnt.setReq (s : Clnt) (r : Ptr) (q : Req) : Clnt :=
  { s with heap := Function.update s.heap r q }

def Rpcnb (s : Clnt) (r : Ptr) : Clnt × Option Error :=
  if s.err ≠ none then (s, s.err) else
  let s := match s.reqlast with
    | some l => s.setReq l { s.heap l with next := some r }
    | none => { s with reqfirst := some r }
  let s := s.setReq r { s.heap r with prev := s.reqlast }
  let s := { s with reqlast := some r }
  ({ s with reqout := s.reqout ++ [r] }, none)

/-- The scan `for req = clnt.reqfirst; req != nil; req = req.next` of `recv`
up to its `break`: the first envelope with the tag, or nil. -/
def findReq (heap : Ptr → Req) (tag : Byte) : Nat → Option Ptr → Option (Option Ptr)
  | _, none => some none
  | 0, some _ => none
  | n + 1, some r =>
    if (heap r).tag = tag then some (some r) else findReq heap tag n (heap r).next

/-- The unlinking of `req` inside the scan of `recv`. -/
def unlink (s : Clnt) (r : Ptr) : Clnt :=
  let s := match (s.heap r).prev with
    | some p => s.setReq p { s.heap p with next := (s.heap r).next }
    | none => { s with reqfirst := (s.heap r).next }
  match (s.heap r).next with
  | some n => s.setReq n { s.heap n with prev := (s.heap r).prev }
  | none => { s with reqlast := (s.heap r).prev }

/-- Lines 149-166 of `recv`: find the envelope of the reply and unlink it. -/
def matchReq (fuel : Nat) (s : Clnt) (tag : Byte) : Option (Clnt × Option Ptr) :=
  match findReq s.heap tag fuel s.reqfirst with
  | none => none
  | some none => some (s, none)
  | some (some r) => some (unlink s r, some r)

def ReqFree (s : Clnt) (r : Ptr) : Clnt :=
  let q := s.heap r
  let s := s.setReq r { q with Tc := q.Tc.Clear, Rc := q.Rc.Clear, Err := none, Done := none,
                               next := none, prev := none }
  if s.reqchan.length < 16 then { s with reqchan := s.reqchan ++ [r] }
  else { s with tagpool := putId s.tagpool q.tag.val }

def ReqAlloc (s : Clnt) : Option (Clnt × Ptr) :=
  match s.reqchan with
  | r :: rest => some ({ s with reqchan := rest }, r)
  | [] =>
    match getId 255 s.tagpool with
    | none => none
    | some id =>
      let r := s.fresh
      some ({ (s.setReq r { tag := Fin.ofNat id }) with
                fresh := r + 1, tagpool := id :: s.tagpool }, r)

/-- Lines 191-199 of `recv`: the call/reply pairing rule on an envelope. -/
def pairReply (q : Req) : Req :=
  if q.Tc.Id ≠ q.Rc.Id - 1 then
    if q.Rc.Id ≠ Rerror then { q with Err := some ⟨gostr "invalid response"⟩ }
    else if q.Err ≠ none then { q with Err := some ⟨q.Rc.Ename⟩ }
    else q
  else q

/-- How one pass of the inner loop of `recv` ends once a whole frame is there. -/
inductive Step where
  /-- `goto closed` with the error. -/
  | closed (s : Clnt) (err : Option Error)
  /-- The reply was delivered; `csz` bytes are consumed. -/
  | next (s : Clnt) (csz : Nat)

/-- Lines 147-208 of `recv`: match, decode, pair and complete one reply. -/
def recvReply (fuel : Nat) (s : Clnt) (buf : List Byte) : Option Step := do
  let b3 ← Slice.sliceFrom (some buf) 3
  let (tag, _) ← Gint8 b3
  let (s, req) ← matchReq fuel s tag
  match req with
  | none => some (.closed { s with connClosed := true } (some ⟨gostr "unexpected response"⟩))
  | some r =>
    let (csz, err, rc) ← Unpack (some buf) (s.heap r).Rc
    let s := s.setReq r { s.heap r with Rc := rc }
    if err ≠ none then some (.closed { s with connClosed := true } err) else
    let s := s.setReq r (pairReply (s.heap r))
    let s := match (s.heap r).Done with
      | some ch => { s with sent := s.sent ++ [(ch, r)] }
      | none => ReqFree s r
    some (.next s csz)

/-- The loop `for ; r != nil; r = r.next` after the label `closed`. -/
def failAll (err : Option Error) : Nat → Clnt → Option Ptr → Option Clnt
  | _, s, none => some s
  | 0, _, some _ => none
  | n + 1, s, some r =>
    let s := s.setReq r { s.heap r with Err := err }
    let s := match (s.heap r).Done with
      | some ch => { s with sent := s.sent ++ [(ch, r)] }
      | none => s
    failAll err n s (s.heap r).next

/-- Lines 212-231 of `recv`, from the label `closed` to the end of the loop
over the pending envelopes (the list of clients and the statistics follow). -/
def teardown (fuel : Nat) (s : Clnt) (err : Option Error) : Option Clnt :=
  let s := { s with done := s.done ++ [true] }
  let s := if s.err ≠ none then { s with err := err } else s
  let r := s.reqfirst
  let s := { s with reqfirst := none, reqlast := none }
  failAll err fuel s r

/-- The loop of `Sync` over the pending list: every pending Twrite reports on
`done`; returns the number of completions to wait for. -/
def markWrites (done : Nat) : Nat → Clnt → Option Ptr → Nat → Option (Clnt × Nat)
  | _, s, none, n => some (s, n)
  | 0, _, some _, _ => none
  | k + 1, s, some r, n =>
    if (s.heap r).Tc.Id = Twrite then
      markWrites done k (s.setReq r { s.heap r with Done := some done }) (s.heap r).next (n + 1)
    else markWrites done k s (s.heap r).next n

/-- The loop `for n > 0` of `Sync`: `arrivals` are the envelopes received on
`done`, as they are when received; with too few of them the loop blocks. -/
def syncWait (err : Option Error) : Nat → List Req → Option (Option Error)
  | 0, _ => some err
  | _ + 1, [] => none
  | n + 1, req :: rest =>
    syncWait (if req.Err ≠ none ∧ err ≠ none then req.Err else err) n rest

/-- `Sync`, with the new channel `done`.  The assignment `tc.Id = vt.Tsync`
goes to the local copy `tc := req.Tc` of the call and leaves the envelope as it
is. -/
def Sync (fuel : Nat) (s : Clnt) (done : Nat) (arrivals : List Req) :
    Option (Clnt × Option Error) := do
  let (s, r) ← ReqAlloc s
  let s := s.setReq r { s.heap r with Done := some done }
  let (s, err) := Rpcnb s r
  if err ≠ none then some (ReqFree s r, err) else
  let (s, n) ← markWrites done fuel s s.reqfirst 1
  let e ← syncWait err n arrivals
  some (s, e)

/-- The pending list holds the envelopes `xs`, in order: a doubly linked
segment from `first` (whose `prev` is `prev`) to `last` (whose `next` is `nxt`). -/
def Seg (heap : Ptr → Req) :
    Option Ptr → Option Ptr → List Ptr → Option Ptr → Option Ptr → Prop
  | prev, first, [], last, nxt => first = nxt ∧ last = prev
  | prev, first, x :: xs, last, nxt =>
    first = some x ∧ (heap x).prev = prev ∧ Seg heap (some x) (heap x).next xs last nxt

/-- The pending list of the client is `xs`: head and tail pointers and the
links of the envelopes agree. -/
def Pending (s : Clnt) (xs : List Ptr) : Prop :=
  Seg s.heap none s.reqfirst xs s.reqlast none

/-- The tags of the envelopes `xs`. -/
def tagsOf (s : Clnt) (xs : List Ptr) : List Byte := xs.map (fun x => (s.heap x).tag)

/-- A client with no pending request; envelope `p` has the tag `p + 5` and
reports on channel 0. -/
def clnt0 : Clnt := { heap := fun p => { tag := Fin.ofNat (p + 5), Done := some 0 } }

/-- A client with no pending request; envelope `p` holds a Tping, has the tag
`p + 5` and reports on channel 0. -/
def clntPings : Clnt :=
  { heap := fun p => { tag := Fin.ofNat (p + 5), Tc := { Id := Tping }, Done := some 0 } }

/-- The client after `Rpcnb` of the envelopes 0, 1 and 2 of `clntPings`. -/
def clnt3 : Clnt := (Rpcnb (Rpcnb (Rpcnb clntPings 0).1 1).1 2).1

/-- The terminal error of a connection closed by the peer. -/
def eEOF : Error := ⟨gostr "EOF"⟩

/-- An envelope for a Tread whose reply is an Rerror, with an empty error slot. -/
def reqNotFound : Req :=
  { Tc := { Id := Tread }, Rc := { Id := Rerror, Ename := gostr "not found" }, Err := none }

/-- A completed envelope that carries an error. -/
def reqFailed : Req := { Err := some ⟨gostr "arena full"⟩ }

/-- What the caller of `teardown` can observe afterwards: the head of the
pending list, the error of envelope 0, the terminal error of the connection,
and what a later `Rpcnb` of envelope 3 returns and links. -/
def afterTeardown (s : Clnt) : Option Ptr × Option Error × Option Error × Option Error × Option Ptr :=
  (s.reqfirst, (s.heap 0).Err, s.err, (Rpcnb s 3).2, (Rpcnb s 3).1.reqfirst)

/-! ### The inner loop of `recv` and the loop of `send` -/

/-- How one test of the inner loop `for pos > 4` of `recv` ends. -/
inductive Pass where
  /-- The loop ends (its condition is false, or `break`): back to `conn.Read`,
  with the buffer, which may have been replaced by a new one. -/
  | read (buf : List Byte)
  /-- `goto closed` with the error. -/
  | closed (s : Clnt) (err : Option Error)
  /-- A reply was delivered; the loop goes on with `buf[csz:]` and `pos - csz`. -/
  | next (s : Clnt) (buf : List Byte) (pos : Int)

/-- The new buffer of lines 138-140: `Maxblock * 8` zero bytes with `buf[0:pos]`
copied to its start. -/
def regrow (buf : List Byte) (pos : Int) : Option (List Byte) :=
  if 0 ≤ pos ∧ pos ≤ buf.length then
    some (((buf.take pos.toNat).take (Maxblock * 8))
      ++ List.replicate (Maxblock * 8 - pos.toNat) 0)
  else none

/-- One test of the inner loop of `recv` (lines 127-209) on the buffer `buf` of
which the first `pos` bytes have been received; `id` is `clnt.Id`. -/
def recvPass (fuel : Nat) (id : GoString) (s : Clnt) (buf : List Byte) (pos : Int) :
    Option Pass :=
  if ¬ pos > 4 then some (.read buf) else do
  let (sz, _) ← Gint16 (some buf)
  let sz := (sz + 2) % 65536
  if sz > Maxblock then
    some (.closed { s with connClosed := true }
      (some ⟨gostr "bad client connection: " ++ id⟩))
  else if pos < (sz : Int) then
    if buf.length < sz then do
      let b ← regrow buf pos
      some (.read b)
    else some (.read buf)
  else
    match ← recvReply fuel s buf with
    | .closed s err => some (.closed s err)
    | .next s csz => do
      let rest ← Slice.sliceFrom (some buf) csz
      some (.next s rest.bytes (pos - csz))

/-- One pass of the loop `for req != nil` of `send` (lines 262-289) on the
envelope `r` received from `reqout`, with the buffer and `pos`: the client, the
buffer and `pos` afterwards, the next envelope (nil when `reqout` has none
waiting), and whether the loop was left by `break`. -/
def sendPass (s : Clnt) (buf : List Byte) (pos : Nat) (r : Ptr) :
    Option (Clnt × List Byte × Nat × Option Ptr × Bool) := do
  let q := s.heap r
  let s := s.setReq r { q with Tc := { q.Tc with Tag := q.tag } }
  let b ← Slice.sliceFrom (some buf) pos
  let (n, out, tc) ← Pack b.bytes (s.heap r).Tc
  let s := s.setReq r { s.heap r with Tc := tc }
  let buf := buf.take pos ++ out
  if n < 0 then some (s, buf, pos, some r, true) else
  let pos := pos + n.toNat
  let s := ReqFree s r
  match s.reqout with
  | [] => some (s, buf, pos, none, false)
  | r2 :: rest => some ({ s with reqout := rest }, buf, pos, some r2, false)

/-- The receive from `reqout` at the head of the loop of `send`. -/
def takeReqout (s : Clnt) : Option (Clnt × Ptr) :=
  match s.reqout with
  | [] => none
  | r :: rest => some ({ s with reqout := rest }, r)

/-- A new client: no envelope, no tag in use. -/
def clntNew : Clnt := { heap := fun _ => {} }

/-- A client with one pending Tping: envelope 0, tag 5, reporting on channel 0. -/
def clntPing : Clnt :=
  (Rpcnb { heap := fun _ => { tag := 5, Tc := { Id := Tping }, Done := some 0 } } 0).1

/-- What is observed of a pass of `recv`: whether it ended the loop, failed the
connection or delivered a reply; then the sends on the `Done` channels, whether
the connection was closed, the head of the pending list, and the error and the
`Id` of the reply of envelope 0. -/
def Pass.observe : Pass → String × List (Nat × Ptr) × Bool × Option Ptr × Option Error × Byte
  | .read _ => ("read", [], false, none, none, 0)
  | .closed s _ => ("closed", s.sent, s.connClosed, s.reqfirst, (s.heap 0).Err, (s.heap 0).Rc.Id)
  | .next s _ _ => ("next", s.sent, s.connClosed, s.reqfirst, (s.heap 0).Err, (s.heap 0).Rc.Id)


/-- The receive buffer of a new client (`Maxblock * 8` zero bytes) after a
read of the five bytes ff fe 0d 05 00: a size field of 65534, the id Rread and
the tag 5. -/
def oversized : List Byte := 255 :: 254 :: Rread :: 5 :: List.replicate (Maxblock * 8 - 4) 0

/-- The receive buffer of a new client after a read of the four bytes
00 02 03 05: a complete Rping frame with the tag 5. -/
def pingReply : List Byte := 0 :: 2 :: Rping :: 5 :: List.replicate (Maxblock * 8 - 4) 0

/-- The client after `ReqAlloc` on a new client, the caller setting the call
(a Tping) and the completion channel of the envelope, `Rpcnb`, the receive
from `reqout` in `send`, and one pass of the loop of `send` with the buffer
`buf` and `pos = 0`. -/
def sentPing (buf : List Byte) : Option Clnt := do
  let (s, r) ← ReqAlloc clntNew
  let s := s.setReq r { s.heap r with Tc := { Id := Tping }, Done := some 0 }
  let (s, _) := Rpcnb s r
  let (s, r) ← takeReqout s
  let (s, _) ← sendPass s buf 0 r
  some s

/-- What is observed of the client after the pass of `send`: the head of the
pending list, the reuse pool `reqchan`, the tags in use, the completion channel
of envelope 0, and the envelope the next `ReqAlloc` returns. -/
def Clnt.observe (s : Clnt) : Option Ptr × List Ptr × List Nat × Option Nat × Option Ptr :=
  (s.reqfirst, s.reqchan, s.tagpool, (s.heap 0).Done, (ReqAlloc s).map (fun x => x.2))

end Vtclnt

/-! ## vtsrv/srv.go: request processing on the server

A handler is user code holding the `*Req`.  Through the exported interface it
can change the two calls of the request and call `Respond` (the helpers
`RespondError`, `RespondPing`, `RespondHello`, ... are an assignment to `Rc`
followed by `Respond`); the field `status` of the connection is not exported.
A handler is therefore given as the list of such actions it performs on a
request.  The sends on `conn.reqout` and the handlers invoked are logged. -/

namespace Vtsrv
open Vt

def Cnew : Nat := 0
def Chello : Nat := 1

structure Req where
  Tc : Call := {}
  Rc : Call := {}
deriving DecidableEq, Repr

/-- What a handler does with the request it holds. -/
inductive Act where
  | setTc (f : Call → Call)
  | setRc (f : Call → Call)
  | respond

/-- The handler interfaces `PingOp`, `HelloOp`, `ReadOp`, `WriteOp`, `SyncOp`. -/
inductive Op where
  | Ping | Hello | Read | Write | Sync
deriving DecidableEq, Repr

/-- The interface `ReqOps`: `ReqRespond` is called by `Respond` on the request
before the reply is queued, and may change it. -/
structure ReqOps where
  ReqProcess : Req → List Act
  ReqRespond : Req → Req

/-- The value `srv.ops`: which of the interfaces it implements, and how. -/
structure Ops where
  Ping : Option (Req → List Act) := none
  Hello : Option (Req → List Act) := none
  Read : Option (Req → List Act) := none
  Write : Option (Req → List Act) := none
  Sync : Option (Req → List Act) := none
  ReqOps : Option ReqOps := none

structure Conn where
  status : Nat := Cnew
  /-- The requests sent on `conn.reqout`, as they were when sent. -/
  reqout : List Req := []
  /-- The handlers invoked. -/
  invoked : List Op := []
deriving DecidableEq, Repr

def Respond (ops : Ops) (c : Conn) (r : Req) : Conn × Req :=
  let r := match ops.ReqOps with
    | some o => o.ReqRespond r
    | none => r
  let c := if r.Rc.Id = Rhello then { c with status := Chello } else c
  ({ c with reqout := c.reqout ++ [r] }, r)

def RespondError (ops : Ops) (c : Conn) (r : Req) (ename : GoString) : Conn × Req :=
  Respond ops c { r with Rc := { r.Rc with Id := Rerror, Ename := ename } }

def RespondPing (ops : Ops) (c : Conn) (r : Req) : Conn × Req :=
  Respond ops c { r with Rc := { r.Rc with Id := Rping } }

def RespondSync (ops : Ops) (c : Conn) (r : Req) : Conn × Req :=
  Respond ops c { r with Rc := { r.Rc with Id := Rsync } }

/-- Running the actions of a handler. -/
def run (ops : Ops) : List Act → Conn × Req → Conn × Req
  | [], s => s
  | .setTc f :: rest, (c, r) => run ops rest (c, { r with Tc := f r.Tc })
  | .setRc f :: rest, (c, r) => run ops rest (c, { r with Rc := f r.Rc })
  | .respond :: rest, (c, r) => run ops rest (Respond ops c r)

/-- Calling the handler `h` of the interface `op`. -/
def invoke (ops : Ops) (op : Op) (h : Req → List Act) (c : Conn) (r : Req) : Conn × Req :=
  run ops (h r) ({ c with invoked := c.invoked ++ [op] }, r)

def Process (ops : Ops) (c : Conn) (r : Req) : Conn × Req :=
  if c.status = Cnew ∧ r.Tc.Id ≠ Thello then
    RespondError ops c r (gostr "expecting hello message")
  else if r.Tc.Id = Tping then
    match ops.Ping with
    | some h => invoke ops .Ping h c r
    | none => RespondPing ops c r
  else if r.Tc.Id = Thello then
    match ops.Hello with
    | some h => invoke ops .Hello h c r
    | none => RespondError ops c r (gostr "unsupported operation")
  else if r.Tc.Id = Tgoodbye then
    ({ c with status := Cnew }, r)
  else if r.Tc.Id = Tread then
    match ops.Read with
    | some h => invoke ops .Read h c r
    | none => RespondError ops c r (gostr "unsupported operation")
  else if r.Tc.Id = Twrite then
    match ops.Write with
    | some h => invoke ops .Write h c r
    | none => RespondError ops c r (gostr "unsupported operation")
  else if r.Tc.Id = Tsync then
    match ops.Sync with
    | some h => invoke ops .Sync h c r
    | none => RespondSync ops c r
  else RespondError ops c r (gostr "unknown message type")

/-- The reply of the pre-hello gate to the request `r`. -/
def helloExpected (r : Req) : Req :=
  { r with Rc := { r.Rc with Id := Rerror, Ename := gostr "expecting hello message" } }

/-- A handler set whose `ReqRespond` turns every reply into an Rhello. -/
def rewritingOps : Ops :=
  { ReqOps := some { ReqProcess := fun _ => [],
                     ReqRespond := fun q => { q with Rc := { q.Rc with Id := Rhello } } } }

/-- A handler set with a Ping and a Hello handler (the latter replies Rhello). -/
def helloOps : Ops :=
  { Ping := some (fun _ => [.setRc (fun c => { c with Id := Rping }), .respond]),
    Hello := some (fun _ => [.setRc (fun c => { c with Id := Rhello, Sid := gostr "anonymous" }),
                             .respond]) }

/-- A Tping request. -/
def reqPing : Req := { Tc := { Id := Tping, Tag := 1 } }

/-- A Tgoodbye request. -/
def reqGoodbye : Req := { Tc := { Id := Tgoodbye, Tag := 2 } }

/-! ### The receive loop -/

/-- How one test of the inner loop `for pos > 2` of `Conn.recv` ends. -/
inductive Pass where
  /-- The loop ends (its condition is false, or `break`): back to `conn.Read`. -/
  | read
  /-- `goto resize`. -/
  | resize
  /-- `goto closed`. -/
  | closed
  /-- A request with the call `tc` goes to `go req.process()`; the loop goes on
  with `buf[csize:]` and `pos - csize`. -/
  | dispatched (tc : Call) (buf : List Byte) (pos : Int)
deriving DecidableEq, Repr

/-- One test of the inner loop of `Conn.recv` on the buffer `buf` of which the
first `pos` bytes have been received; `tc0` is the `Tc` of the request that
`ReqAlloc` returns. -/
def recvPass (tc0 : Call) (buf : List Byte) (pos : Int) : Option Pass :=
  if ¬ pos > 2 then some .read else do
  let (sz, _) ← Gint16 (some buf)
  if sz > Maxblock then some .closed else
  if pos < (sz : Int) then
    if buf.length < sz then some .resize else some .read
  else
    let (csize, err, tc) ← Unpack (some buf) tc0
    if err ≠ none then some .closed else
    let rest ← Slice.sliceFrom (some buf) csize
    some (.dispatched tc rest.bytes (pos - csize))

/-- The receive buffer of a new connection (`8 * 8 * Maxblock` zero bytes)
after a read of the three bytes 00 02 02, the start of a Tping frame. -/
def partialTping : List Byte := 0 :: 2 :: Tping :: 0 :: List.replicate (8 * 8 * Maxblock - 4) 0

end Vtsrv

/-! ## vtsrv/examples/vtmm/vtmm.go: the arena

The mapped chunks are lists of bytes; a `[]byte` that views a mapped chunk is
a `View` (chunk, offset, length).  `uint64` arithmetic is `Nat` arithmetic
reduced modulo `2^64`.  The hash `crypto/sha1` of the Go library is a
parameter `H` of the functions that use it; `sha1` below is that function. -/

namespace Vtmm
open Vt

def Magic : Nat := 0x28b4
def HeaderSize : Nat := 8

/-- Truncation to `uint64`. -/
def u64 (n : Nat) : Nat := n % 2 ^ 64

/-- Subtraction of `uint64` values. -/
def sub64 (a b : Nat) : Nat := (a + 2 ^ 64 - b % 2 ^ 64) % 2 ^ 64

/-- The value `^uint64(0)` that marks "no last block". -/
def noLast : Nat := 2 ^ 64 - 1

structure File where
  size : Nat
  synctip : Nat
  tip : Nat
  lastip : Nat
  chunksz : Nat
  chunks : List (List Byte)
deriving DecidableEq, Repr

/-- A byte slice inside a mapped chunk. -/
structure View where
  chunk : Nat
  off : Nat
  len : Nat
deriving DecidableEq, Repr

/-- The bytes a view shows in the current state of the mapping. -/
def View.bytes (f : File) (v : View) : List Byte :=
  ((f.chunks.getD v.chunk []).drop v.off).take v.len

/-- The map `htbl` from score to block; a key that is absent reads as nil
(`none`), and the blocks stored by `Write` and `buildHash` are never nil. -/
abbrev Htbl := List (List Byte × View)

/-- Go `htbl[k]`. -/
def Htbl.get (h : Htbl) (k : List Byte) : Option View :=
  (h.find? (fun e => decide (e.1 = k))).map (fun e => e.2)

/-- Go `htbl[k] = v`. -/
def Htbl.set (h : Htbl) (k : List Byte) (v : View) : Htbl :=
  (k, v) :: h.filter (fun e => decide (e.1 ≠ k))

structure Vtmap where
  f : File
  htbl : Htbl := []
deriving DecidableEq, Repr

/-- `NewFile` on a file with the given contents (opening and mapping the
file succeed): chunk `i` maps the bytes from `i * chunksz` on. -/
def NewFile (contents : List Byte) : File :=
  let size := u64 contents.length
  let chunksz := 1 * 1024 * 1024 * 1024
  { size := size, chunksz := chunksz,
    chunks := (List.range (size / chunksz + 1)).map
      (fun i => (contents.drop (i * chunksz)).take chunksz),
    tip := 0, synctip := 0, lastip := noLast }

/-- The contents of the file behind the mapping. -/
def File.contents (f : File) : List Byte := f.chunks.flatten

/-- What `ReadBlock` returns: `nil, nil` at the end of the arena, an error, or
a block. -/
inductive Block where
  | eof
  | err (e : Error)
  | blk (v : View)
deriving DecidableEq, Repr

def ReadBlock (f : File) : Option (File × Block) :=
  if f.chunksz = 0 then none else do
  let idx := f.tip / f.chunksz
  let off := f.tip % f.chunksz
  let buf ← f.chunks[idx]?
  let b ← Slice.sliceFrom (some buf) off
  let (m, p) ← Gint16 b
  let (sz, p) ← Gint16 p
  let (next, p) ← Gint32 p
  if m ≠ Magic then
    if m = 0 ∧ sz = 0 then some (f, .eof)
    else some (f, .err ⟨gostr "magic not found"⟩)
  else
    let f := { f with lastip := f.tip }
    let f := { f with tip := u64 (f.tip + next) }
    let _ ← p.sliceTo sz
    some (f, .blk ⟨idx, off + HeaderSize, sz⟩)

/-- A cursor on the chunk `idx` at offset `off` (Go `f.chunks[idx][off:]`). -/
def File.cursor (f : File) (idx off : Nat) : Option Cur := do
  let buf ← f.chunks[idx]?
  if off ≤ buf.length then some ⟨buf.take off, buf.drop off⟩ else none

/-- The first part of `WriteBlock`: the chunk and offset to write at, after
moving to the next chunk when the block does not fit the current one. -/
def WriteBlock.place (f : File) (blksz : Nat) : Option (File × (Error ⊕ (Nat × Nat))) :=
  if f.chunksz = 0 then none else do
  let idx := f.tip / f.chunksz
  let off := f.tip % f.chunksz
  let buf ← f.chunks[idx]?
  if off + blksz ≥ buf.length then
    let idx := idx + 1
    if idx ≥ f.chunks.length then some (f, .inl ⟨gostr "arena full"⟩) else
    let off := 0
    let buf ← f.chunks[idx]?
    let f := { f with tip := u64 (idx * f.chunksz) }
    if off + blksz ≥ buf.length then some (f, .inl ⟨gostr "arena full"⟩) else
    if f.lastip ≠ noLast then do
      let c ← f.cursor (f.lastip / f.chunksz) (f.lastip % f.chunksz + 4)
      let c ← Pint16 (sub64 f.tip f.lastip % 65536) c
      let f := { f with chunks := f.chunks.set (f.lastip / f.chunksz) c.all }
      some ({ f with synctip := f.lastip }, .inr (idx, off))
    else some (f, .inr (idx, off))
  else some (f, .inr (idx, off))

/-- `WriteBlock` with the value `align` of the flag `-align`. -/
def WriteBlock (align : Int) (f : File) (data : List Byte) : Option (File × (Error ⊕ View)) := do
  let blksz := HeaderSize + data.length
  let (f, r) ← WriteBlock.place f blksz
  match r with
  | .inl e => some (f, .inl e)
  | .inr (idx, off) =>
    let nextoff := u64 (f.tip + blksz)
    let nextoff :=
      if align > 0 then u64 (nextoff + sub64 align.toNat (nextoff % align.toNat)) else nextoff
    let c ← f.cursor idx off
    let c ← Pint16 Magic c
    let c ← Pint16 (data.length % 65536) c
    let c ← Pint32 (sub64 nextoff f.tip % 2 ^ 32) c
    let c := c.copy data
    let f := { f with chunks := f.chunks.set idx c.all }
    let f := { f with lastip := f.tip }
    let f := { f with tip := nextoff }
    if data.length ≤ c.rest.length then some (f, .inr ⟨idx, off + HeaderSize, data.length⟩)
    else none

/-- `buildHash`: the scan of the arena at startup; the fuel bounds the number
of `ReadBlock` calls. -/
def buildHash (H : List Byte → List Byte) : Nat → Vtmap → Option (Vtmap × Option Error)
  | 0, _ => none
  | n + 1, srv =>
    match ReadBlock srv.f with
    | none => none
    | some (f, .err e) => some ({ srv with f := f }, some e)
    | some (f, .eof) => some ({ srv with f := { f with synctip := f.tip } }, none)
    | some (f, .blk v) =>
      buildHash H n { f := f, htbl := srv.htbl.set (H (v.bytes f)) v }

/-- `init` on a file with the given contents: `NewFile`, then `buildHash`. -/
def recover (H : List Byte → List Byte) (fuel : Nat) (contents : List Byte) :
    Option (Vtmap × Option Error) :=
  buildHash H fuel { f := NewFile contents }

/-- The handler `Write` on the data of a Twrite; returns the reply call. -/
def Write (H : List Byte → List Byte) (align : Int) (srv : Vtmap) (data : List Byte) :
    Option (Vtmap × Call) :=
  let score := H data
  if srv.htbl.get score = none then
    match WriteBlock align srv.f data with
    | none => none
    | some (f, .inl e) => some ({ srv with f := f }, { Id := Rerror, Ename := e.Ename })
    | some (f, .inr block) =>
      some ({ f := f, htbl := srv.htbl.set score block }, { Id := Rwrite, Score := some score })
  else some (srv, { Id := Rwrite, Score := some score })

/-- A sequence of `Write` requests, with their replies. -/
def serve (H : List Byte → List Byte) (align : Int) :
    Vtmap → List (List Byte) → Option (Vtmap × List Call)
  | srv, [] => some (srv, [])
  | srv, p :: ps =>
    match Write H align srv p with
    | none => none
    | some (srv, r) =>
      match serve H align srv ps with
      | none => none
      | some (srv, rs) => some (srv, r :: rs)

/-! ### crypto/sha1 (FIPS 180-4) -/

def rotl32 (x n : Nat) : Nat := ((x <<< n) ||| (x >>> (32 - n))) % 2 ^ 32

/-- Big-endian bytes of a value, `w` of them. -/
def beBytes : Nat → Nat → List Byte
  | 0, _ => []
  | w + 1, x => Fin.ofNat (x >>> (8 * w)) :: beBytes w x

/-- Big-endian value of bytes. -/
def beNat (bs : List Byte) : Nat := bs.foldl (fun acc b => acc * 256 + b.val) 0

def sha1Pad (msg : List Byte) : List Byte :=
  msg ++ [0x80] ++ List.replicate ((119 - msg.length % 64) % 64) 0 ++ beBytes 8 (8 * msg.length)

/-- The message schedule: `n` more words after the ones in `w`. -/
def sha1Sched : Nat → List Nat → List Nat
  | 0, w => w
  | n + 1, w =>
    let i := w.length
    sha1Sched n (w ++ [rotl32 (w.getD (i - 3) 0 ^^^ w.getD (i - 8) 0 ^^^ w.getD (i - 14) 0
      ^^^ w.getD (i - 16) 0) 1])

structure Sha1State where
  a : Nat
  b : Nat
  c : Nat
  d : Nat
  e : Nat
deriving DecidableEq, Repr

def sha1Round (i : Nat) (wi : Nat) (s : Sha1State) : Sha1State :=
  let fk : Nat × Nat :=
    if i < 20 then ((s.b &&& s.c) ||| ((s.b ^^^ 0xFFFFFFFF) &&& s.d), 0x5A827999)
    else if i < 40 then (s.b ^^^ s.c ^^^ s.d, 0x6ED9EBA1)
    else if i < 60 then ((s.b &&& s.c) ||| (s.b &&& s.d) ||| (s.c &&& s.d), 0x8F1BBCDC)
    else (s.b ^^^ s.c ^^^ s.d, 0xCA62C1D6)
  { a := (rotl32 s.a 5 + fk.1 + s.e + fk.2 + wi) % 2 ^ 32,
    b := s.a, c := rotl32 s.b 30, d := s.c, e := s.d }

def sha1Rounds : Nat → List Nat → Sha1State → Sha1State
  | _, [], s => s
  | i, wi :: ws, s => sha1Rounds (i + 1) ws (sha1Round i wi s)

/-- The words of a block of 64 bytes. -/
def sha1Words : Nat → List Byte → List Nat
  | 0, _ => []
  | n + 1, bs => beNat (bs.take 4) :: sha1Words n (bs.drop 4)

def sha1Block (h : Sha1State) (block : List Byte) : Sha1State :=
  let s := sha1Rounds 0 (sha1Sched 64 (sha1Words 16 block)) h
  { a := (h.a + s.a) % 2 ^ 32, b := (h.b + s.b) % 2 ^ 32, c := (h.c + s.c) % 2 ^ 32,
    d := (h.d + s.d) % 2 ^ 32, e := (h.e + s.e) % 2 ^ 32 }

def sha1Blocks : Nat → Sha1State → List Byte → Sha1State
  | 0, h, _ => h
  | n + 1, h, bs => sha1Blocks n (sha1Block h (bs.take 64)) (bs.drop 64)

def sha1 (msg : List Byte) : List Byte :=
  let m := sha1Pad msg
  let h := sha1Blocks (m.length / 64)
    ⟨0x67452301, 0xEFCDAB89, 0x98BADCFE, 0x10325476, 0xC3D2E1F0⟩ m
  beBytes 4 h.a ++ beBytes 4 h.b ++ beBytes 4 h.c ++ beBytes 4 h.d ++ beBytes 4 h.e

/-! ### The layout of the log, as `WriteBlock` writes it -/

/-- Big-endian 32-bit encoding. -/
def enc32 (n : Nat) : List Byte :=
  [Fin.ofNat (n >>> 24), Fin.ofNat (n >>> 16), Fin.ofNat (n >>> 8), Fin.ofNat n]

/-- The alignment padding after a record that ends at offset `n`. -/
def padOf (align : Int) (n : Nat) : Nat :=
  if align > 0 then align.toNat - n % align.toNat else 0

/-- The distance from a record at `tip` to the next one. -/
def recLen (align : Int) (tip : Nat) (p : List Byte) : Nat :=
  HeaderSize + p.length + padOf align (tip + (HeaderSize + p.length))

/-- The header `magic[2] size[2] next[4]` of the record of `p` at `tip`. -/
def header (align : Int) (tip : Nat) (p : List Byte) : List Byte :=
  enc16 Magic ++ enc16 (p.length % 65536) ++ enc32 (recLen align tip p % 2 ^ 32)

/-- The bytes of the log holding the records of `qs` from offset `tip` on
(the padding reads zero). -/
def layout (align : Int) : Nat → List (List Byte) → List Byte
  | _, [] => []
  | tip, q :: qs =>
    header align tip q ++ q ++ List.replicate (padOf align (tip + (HeaderSize + q.length))) 0
      ++ layout align (tip + recLen align tip q) qs

/-- The index the startup scan builds from the records of `qs` at `tip`. -/
def scanIndex (H : List Byte → List Byte) (align : Int) : Nat → List (List Byte) → Htbl → Htbl
  | _, [], h => h
  | tip, q :: qs, h =>
    scanIndex H align (tip + recLen align tip q) qs
      (h.set (H q) ⟨0, tip + HeaderSize, q.length⟩)

/-- A file of one chunk with the contents `c`. -/
def OneChunk (f : File) (c : List Byte) : Prop :=
  f.chunksz = 2 ^ 30 ∧ f.chunks = [c]

/-- A server with an empty index on a zero-filled arena of `size` bytes. -/
def freshMap (size : Nat) : Vtmap := { f := NewFile (List.replicate size 0) }

/-- The payload "hello". -/
def hello : List Byte := gostr "hello"

/-- The server after the first `Write` of "hello" on an arena of 60 bytes, and
the reply. -/
def helloWritten : Vtmap × Call := (Write sha1 0 (freshMap 60) hello).getD (freshMap 60, {})

/-- A payload of 65536 zero bytes. -/
def bigPayload : List Byte := List.replicate 65536 0

/-- The payload "abc". -/
def abc : List Byte := gostr "abc"

/-- The server and the replies after the writes of "hello", "abc" and "hello"
again on an arena of 60 bytes with 4-byte alignment. -/
def served : Vtmap × List Call :=
  (serve sha1 4 (freshMap 60) [hello, abc, hello]).getD (freshMap 60, [])

/-- The server has written the records of `qs` into a zero-filled arena of
`size` bytes, and its index holds their scores. -/
def Written (H : List Byte → List Byte) (align : Int) (size : Nat) (srv : Vtmap)
    (qs : List (List Byte)) : Prop :=
  OneChunk srv.f (layout align 0 qs ++ List.replicate (size - (layout align 0 qs).length) 0) ∧
  srv.f.tip = (layout align 0 qs).length ∧ srv.f.tip ≤ size ∧
  (∀ k, srv.htbl.get k ≠ none ↔ ∃ q ∈ qs, k = H q)

/-- Conversion of a `uint64` to `int` (64 bits, two's complement). -/
def i64 (n : Nat) : Int :=
  if n % 2 ^ 64 < 2 ^ 63 then (n % 2 ^ 64 : Nat) else (n % 2 ^ 64 : Nat) - 2 ^ 64

/-- Conversion of an `int` to `uint64`. -/
def u64i (n : Int) : Nat := (n % 2 ^ 64).toNat

/-- The error `Sync` returns: "invalid sync range", or the errno of `msync`. -/
inductive SyncErr where
  | invalidRange
  | errno (e : Nat)
deriving DecidableEq, Repr

/-- The loop of `Sync` over the chunks of the range.  The system call is the
parameter `msync`: `msync idx off n` is the errno (0 for success) of the call
for the `n` bytes from offset `off` of chunk `idx`.  The fuel bounds the
number of iterations. -/
def File.Sync.loop (msync : Nat → Nat → Int → Nat) (f : File) :
    Nat → Nat → Nat → Nat → Option (Option SyncErr)
  | 0, _, _, _ => none
  | fuel + 1, idx, off, count =>
    if count > 0 then
      if idx > f.chunks.length then some (some .invalidRange) else do
      let buf ← f.chunks[idx]?
      let n : Int := (buf.length : Int) - (off : Int)
      let n : Int := if u64i n > count then i64 count else n
      if ¬ off < buf.length then none else
      if ¬ (0 ≤ (off : Int) + n - 1 ∧ (off : Int) + n - 1 < buf.length) then none else
      let e1 := msync idx off n
      if e1 ≠ 0 then some (some (.errno e1)) else
      File.Sync.loop msync f fuel (idx + 1) 0 (sub64 count (u64i n))
    else some none

/-- Method `File.Sync`: returns the file and the error. -/
def File.Sync (msync : Nat → Nat → Int → Nat) (f : File) : Option (File × Option SyncErr) :=
  let offset := f.synctip
  let count := sub64 f.tip f.synctip
  let f := { f with synctip := f.tip }
  if f.chunksz = 0 then none else
  match File.Sync.loop msync f (count + 1) (offset / f.chunksz) (offset % f.chunksz) count with
  | none => none
  | some e => some (f, e)

/-- An `msync` that fails with EIO. -/
def msyncEIO : Nat → Nat → Int → Nat := fun _ _ _ => 5

/-- An `msync` that succeeds. -/
def msyncOk : Nat → Nat → Int → Nat := fun _ _ _ => 0

/-- The offset invariant of the arena: `0 ≤ synctip ≤ tip ≤ size`. -/
def OffsetsOk (f : File) : Prop := 0 ≤ f.synctip ∧ f.synctip ≤ f.tip ∧ f.tip ≤ f.size

instance (f : File) : Decidable (OffsetsOk f) := by
  unfold OffsetsOk; infer_instance

/-- The payload "hello world". -/
def helloWorld : List Byte := gostr "hello world"

/-- The file and the result after a `WriteBlock` of "hello world" with the
alignment 16 on a zero-filled arena of 20 bytes. -/
def alignedWrite : File × (Error ⊕ View) :=
  (WriteBlock 16 (NewFile (List.replicate 20 0)) helloWorld).getD (NewFile [], .inl ⟨[]⟩)

/-- The header at offset 0 of an arena, read the way `ReadBlock` reads it:
magic, size and next. -/
def headerAt0 (contents : List Byte) : Option (Nat × Nat × Nat) := do
  let (m, p) ← Gint16 (some contents)
  let (sz, p) ← Gint16 p
  let (next, _) ← Gint32 p
  some (m, sz, next)

/-- An arena of 20 bytes that begins with the bytes "garbage!". -/
def badArena : List Byte := gostr "garbage!" ++ List.replicate 12 0

/-- The `next` field of the record at offset `at0` of the arena (bytes 4..7 of
its header), read the way `ReadBlock` reads it. -/
def nextField (f : File) (at0 : Nat) : Option Nat :=
  if f.chunksz = 0 then none else do
  let buf ← f.chunks[at0 / f.chunksz]?
  let b ← Slice.sliceFrom (some buf) (at0 % f.chunksz + 4)
  let (next, _) ← Gint32 b
  some next

/-- The bytes of two records at the start of an arena: the payload "abcd" at
offset 0 (next = 12) and the header of a payload of `2^30 - 32` bytes at
offset 12 (next = `2^30 - 24`). -/
def head20 : List Byte :=
  enc16 Magic ++ enc16 4 ++ enc32 12 ++ gostr "abcd"
    ++ (enc16 Magic ++ enc16 ((2 ^ 30 - 32) % 65536) ++ enc32 (2 ^ 30 - 24))

/-- The first chunk of an arena of `2^30 + 64` bytes after the writes of the
payload "abcd" and of a payload of `2^30 - 32` zero bytes into the zero-filled
arena: the records end at `2^30 - 12`. -/
def chunk0 : List Byte := head20 ++ List.replicate (2 ^ 30 - 20) 0

/-- The arena of `2^30 + 64` bytes (two chunks) with those two records, not
yet flushed: tip = `2^30 - 12`, lastip = 12, synctip = 0. -/
def twoRecords : File :=
  { size := 2 ^ 30 + 64, synctip := 0, tip := 2 ^ 30 - 12, lastip := 12, chunksz := 2 ^ 30,
    chunks := [chunk0, List.replicate 64 0] }

/-- The arena `twoRecords` after a flush: synctip = tip = `2^30 - 12`. -/
def flushedRecords : File := { twoRecords with synctip := 2 ^ 30 - 12 }

/-- The server after the `Write` of "hello" on a zero-filled arena of 20 bytes,
and the reply. -/
def tightWritten : Vtmap × Call := (Write sha1 0 (freshMap 20) hello).getD (freshMap 20, {})

/-- The file after the first `ReadBlock` of the startup scan of the bytes of
that arena. -/
def tightScanned : File × Block :=
  (ReadBlock (NewFile tightWritten.1.f.contents)).getD (NewFile [], .eof)

/-- The server after the `Write` of "hello" on a zero-filled arena of 21 bytes,
and the reply. -/
def roomyWritten : Vtmap × Call := (Write sha1 0 (freshMap 21) hello).getD (freshMap 21, {})

end Vtmm

/-! # Theorems -/

namespace Vt

/-! ## Wire codec -/

theorem byte_val_ofNat (n : Nat) : (Fin.ofNat n : Byte).val = n % 256 := rfl

theorem or_shift8 (a b : Nat) (hb : b < 256) : b ||| (a <<< 8) = a * 256 + b := by
  rw [Nat.shiftLeft_eq, Nat.lor_comm]
  have h := Nat.mul_add_lt_is_or (i := 8) (b := b) (by simpa using hb) a
  rw [← Nat.mul_comm] at h
  simpa [Nat.mul_comm] using h.symm

theorem Gint16_cons (b0 b1 : Byte) (r : List Byte) :
    Gint16 (some (b0 :: b1 :: r)) = some (b0.val * 256 + b1.val, some r) := by
  simp [Gint16, or_shift8 b0.val b1.val b1.isLt]

theorem Gint16_enc16 (n : Nat) (hn : n < 65536) (r : List Byte) :
    Gint16 (some (enc16 n ++ r)) = some (n, some r) := by
  simp only [enc16, List.cons_append, List.nil_append, Gint16_cons, byte_val_ofNat,
    Nat.shiftRight_eq_div_pow]
  congr 2
  omega

theorem Cur.put_put (c : Cur) (a b : List Byte) : (c.put a).put b = c.put (a ++ b) := by
  simp [Cur.put, List.drop_drop, Nat.add_comm]

theorem Cur.put_rest_length (c : Cur) (a : List Byte) :
    (c.put a).rest.length = c.rest.length - a.length := by
  simp [Cur.put]

theorem Pint8_put (v : Byte) (c : Cur) (h : 1 ≤ c.rest.length) :
    Pint8 v c = some (c.put [v]) := by
  obtain ⟨d, r⟩ := c
  cases r with
  | nil => simp at h
  | cons a r => simp [Pint8, Cur.put]

theorem Pint16_put (v : Nat) (c : Cur) (h : 2 ≤ c.rest.length) :
    Pint16 v c = some (c.put (enc16 v)) := by
  obtain ⟨d, r⟩ := c
  match r, h with
  | a :: b :: r, _ => simp [Pint16, Cur.put, enc16]

theorem copy_advance (c : Cur) (val : List Byte) (n : Nat) (hn : n = val.length)
    (h : n ≤ c.rest.length) : (c.copy val).advance n = some (c.put val) := by
  subst hn
  obtain ⟨d, r⟩ := c
  simp only [Cur.copy, Cur.advance, Cur.put]
  simp only [List.length_append, List.length_take, List.length_drop]
  rw [if_pos (by simp at h; omega)]
  simp only [Option.some.injEq, Cur.mk.injEq]
  simp at h
  rw [List.take_of_length_le (l := val) h]
  simp

theorem copy_all (c : Cur) (val : List Byte) (h : val.length ≤ c.rest.length) :
    (c.copy val).all = (c.put val).all := by
  obtain ⟨d, r⟩ := c
  simp at h
  simp [Cur.copy, Cur.all, Cur.put, List.take_of_length_le h]

theorem Pstr_put (val : GoString) (c : Cur) (hv : val.length < 65536)
    (h : 2 + val.length ≤ c.rest.length) :
    Pstr val c = some (c.put (encStr val)) := by
  simp only [Pstr, Nat.mod_eq_of_lt hv, encStr]
  rw [Pint16_put _ _ (by omega)]
  simp only [Option.bind_eq_bind, Option.some_bind]
  rw [copy_advance _ _ _ rfl (by rw [Cur.put_rest_length]; simp [enc16]; omega), Cur.put_put]

theorem Pvar_put (val : List Byte) (c : Cur) (hv : val.length < 256)
    (h : 1 + val.length ≤ c.rest.length) :
    Pvar val c = some (c.put (encVar val)) := by
  simp only [Pvar, Nat.mod_eq_of_lt hv, encVar]
  rw [Pint8_put _ _ (by omega)]
  simp only [Option.bind_eq_bind, Option.some_bind]
  rw [copy_advance _ _ _ rfl (by rw [Cur.put_rest_length]; simp; omega), Cur.put_put]
  simp

theorem Pscore_put (val : List Byte) (c : Cur) (hv : val.length = Scoresize)
    (h : Scoresize ≤ c.rest.length) : Pscore val c = some (c.put val) := by
  simp only [Pscore]
  exact copy_advance _ _ _ hv.symm h

theorem PackCall_put (buf : List Byte) (id tag : Byte) (size : Nat)
    (h : size + 4 ≤ buf.length) (hs : size + 2 < 65536) :
    PackCall ⟨[], buf⟩ id tag size
      = some (((size + 4 : Nat) : Int),
          some ((⟨[], buf⟩ : Cur).put (enc16 (size + 2) ++ [id, tag]))) := by
  simp only [PackCall]
  rw [if_neg (by simp; omega)]
  have e : (size + (2 + 1 + 1) - 2) % 65536 = size + 2 := by omega
  rw [e, Pint16_put _ _ (by simp; omega)]
  simp only [Option.bind_eq_bind, Option.some_bind]
  rw [Pint8_put _ _ (by rw [Cur.put_rest_length]; simp [enc16]; omega)]
  simp only [Option.some_bind]
  rw [Pint8_put _ _ (by simp only [Cur.put_rest_length]; simp [enc16]; omega)]
  simp [Cur.put_put]

theorem enc16_length (n : Nat) : (enc16 n).length = 2 := rfl
theorem encStr_length (s : GoString) : (encStr s).length = 2 + s.length := by
  simp [encStr, enc16]; omega
theorem encVar_length (s : List Byte) : (encVar s).length = 1 + s.length := by
  simp [encVar]; omega

theorem put_all_nil (buf bs : List Byte) :
    ((⟨[], buf⟩ : Cur).put bs).all = bs ++ buf.drop bs.length := by
  simp [Cur.put, Cur.all]



theorem PackEmpty_eq (buf : List Byte) (id tag : Byte) (h : 4 ≤ buf.length) :
    PackEmpty buf id tag = some (4, enc16 2 ++ [id, tag] ++ buf.drop 4) := by
  simp only [PackEmpty]
  rw [PackCall_put _ _ _ _ (by omega) (by omega)]
  simp [put_all_nil, enc16]

/-- The packers write the frame of the call at the start of the buffer. -/
theorem packSwitch_frame (buf : List Byte) (c : Call) (t : Byte)
    (hid : Catalogued c.Id) (hfit : FitsPack c)
    (ht : c.Id = Tread ∨ c.Id = Twrite → toDiskType c.Btype = some t)
    (hlen : frameLen c ≤ buf.length) (hmax : frameLen c ≤ 65535) :
    packSwitch buf c = some ((frameLen c : Int), encFrame c t ++ buf.drop (frameLen c)) := by
  rcases hid with h | h | h | h | h | h | h | h | h | h | h | h
  · -- Rerror
    have hl : frameLen c = c.Ename.length + 2 + 4 := by
      simp [frameLen, encBody, h, encStr_length]; omega
    simp only [packSwitch, h, if_true, PackRerror]
    rw [PackCall_put _ _ _ _ (by omega) (by omega)]
    simp only [Option.bind_eq_bind, Option.some_bind]
    rw [Pstr_put _ _ (by omega) (by simp only [Cur.put_rest_length]; simp [enc16]; omega)]
    simp only [Option.some_bind, Cur.put_put, put_all_nil]
    simp [encFrame, encBody, h, hl, encStr_length, enc16_length]
    congr 1; omega
  · -- Tping
    have hl : frameLen c = 4 := by
      simp [frameLen, encBody, h, Rerror, Tping, Rping, Thello, Rhello, Tgoodbye, Tread, Rread, Twrite, Rwrite, Tsync, Rsync]
    have e : packSwitch buf c = PackEmpty buf Tping c.Tag := by
      simp [packSwitch, h, Rerror, Tping, Rping, Thello, Rhello, Tgoodbye, Tread, Rread, Twrite, Rwrite, Tsync, Rsync, PackTping]
    rw [e, PackEmpty_eq _ _ _ (by omega)]
    simp [encFrame, encBody, h, hl, Rerror, Tping, Rping, Thello, Rhello, Tgoodbye, Tread, Rread, Twrite, Rwrite, Tsync, Rsync]
  · -- Rping
    have hl : frameLen c = 4 := by
      simp [frameLen, encBody, h, Rerror, Tping, Rping, Thello, Rhello, Tgoodbye, Tread, Rread, Twrite, Rwrite, Tsync, Rsync]
    have e : packSwitch buf c = PackEmpty buf Rping c.Tag := by
      simp [packSwitch, h, Rerror, Tping, Rping, Thello, Rhello, Tgoodbye, Tread, Rread, Twrite, Rwrite, Tsync, Rsync, PackRping]
    rw [e, PackEmpty_eq _ _ _ (by omega)]
    simp [encFrame, encBody, h, hl, Rerror, Tping, Rping, Thello, Rhello, Tgoodbye, Tread, Rread, Twrite, Rwrite, Tsync, Rsync]
  · -- Thello
    have hc := hfit.crypto h
    have hd := hfit.codec h
    have hcb : c.Crypto.bytes.length = c.Crypto.len := by cases c.Crypto <;> rfl
    have hdb : c.Codec.bytes.length = c.Codec.len := by cases c.Codec <;> rfl
    have hl : frameLen c = 7 + c.Version.length + c.Uid.length + c.Crypto.bytes.length
        + c.Codec.bytes.length + 4 := by
      simp [frameLen, encBody, h, Rerror, Tping, Rping, Thello, Rhello, Tgoodbye, Tread, Rread, Twrite, Rwrite, Tsync, Rsync, encStr_length, encVar_length]; omega
    have e : packSwitch buf c = PackThello buf c.Tag c.Version c.Uid c.Strength
        c.Crypto.bytes c.Codec.bytes := by
      simp [packSwitch, h, Rerror, Tping, Rping, Thello, Rhello, Tgoodbye, Tread, Rread, Twrite, Rwrite, Tsync, Rsync]
    rw [e]
    simp only [PackThello]
    rw [PackCall_put _ _ _ _ (by omega) (by omega)]
    simp only [Option.bind_eq_bind, Option.some_bind]
    rw [Pstr_put _ _ (by omega) (by simp only [Cur.put_rest_length]; simp [enc16]; omega)]
    simp only [Option.some_bind, Cur.put_put]
    rw [Pstr_put _ _ (by omega)
      (by simp only [Cur.put_rest_length]; simp [enc16, encStr_length]; omega)]
    simp only [Option.some_bind, Cur.put_put]
    rw [Pint8_put _ _
      (by simp only [Cur.put_rest_length]; simp [enc16, encStr_length]; omega)]
    simp only [Option.some_bind, Cur.put_put]
    rw [Pvar_put _ _ (by omega)
      (by simp only [Cur.put_rest_length]; simp [enc16, encStr_length]; omega)]
    simp only [Option.some_bind, Cur.put_put]
    rw [Pvar_put _ _ (by omega)
      (by simp only [Cur.put_rest_length]; simp [enc16, encStr_length, encVar_length]; omega)]
    simp only [Option.some_bind, Cur.put_put, put_all_nil]
    simp [encFrame, encBody, h, hl, Rerror, Tping, Rping, Thello, Rhello, Tgoodbye, Tread, Rread, Twrite, Rwrite, Tsync, Rsync, encStr_length, encVar_length, enc16_length]
    congr 1; omega
  · -- Rhello
    have hl : frameLen c = c.Sid.length + 4 + 4 := by
      simp [frameLen, encBody, h, Rerror, Tping, Rping, Thello, Rhello, Tgoodbye, Tread, Rread, Twrite, Rwrite, Tsync, Rsync, encStr_length]; omega
    have e : packSwitch buf c = PackRhello buf c.Tag c.Sid c.Rcrypto c.Rcodec := by
      simp [packSwitch, h, Rerror, Tping, Rping, Thello, Rhello, Tgoodbye, Tread, Rread, Twrite, Rwrite, Tsync, Rsync]
    rw [e]
    simp only [PackRhello]
    rw [PackCall_put _ _ _ _ (by omega) (by omega)]
    simp only [Option.bind_eq_bind, Option.some_bind]
    rw [Pstr_put _ _ (by omega) (by simp only [Cur.put_rest_length]; simp [enc16]; omega)]
    simp only [Option.some_bind, Cur.put_put]
    rw [Pint8_put _ _
      (by simp only [Cur.put_rest_length]; simp [enc16, encStr_length]; omega)]
    simp only [Option.some_bind, Cur.put_put]
    rw [Pint8_put _ _
      (by simp only [Cur.put_rest_length]; simp [enc16, encStr_length]; omega)]
    simp only [Option.some_bind, Cur.put_put, put_all_nil]
    simp [encFrame, encBody, h, hl, Rerror, Tping, Rping, Thello, Rhello, Tgoodbye, Tread, Rread, Twrite, Rwrite, Tsync, Rsync, encStr_length, enc16_length]
    congr 1; omega
  · -- Tgoodbye
    have hl : frameLen c = 4 := by
      simp [frameLen, encBody, h, Rerror, Tping, Rping, Thello, Rhello, Tgoodbye, Tread, Rread, Twrite, Rwrite, Tsync, Rsync]
    have e : packSwitch buf c = PackEmpty buf Tgoodbye c.Tag := by
      simp [packSwitch, h, Rerror, Tping, Rping, Thello, Rhello, Tgoodbye, Tread, Rread, Twrite, Rwrite, Tsync, Rsync, PackTgoodbye]
    rw [e, PackEmpty_eq _ _ _ (by omega)]
    simp [encFrame, encBody, h, hl, Rerror, Tping, Rping, Thello, Rhello, Tgoodbye, Tread, Rread, Twrite, Rwrite, Tsync, Rsync]
  · -- Tread
    have hs := hfit.score (Or.inl h)
    have hsb : c.Score.bytes.length = Scoresize := by
      rw [← hs]; cases c.Score <;> rfl
    have hl : frameLen c = Scoresize + 1 + 1 + 2 + 4 := by
      simp [frameLen, encBody, h, Rerror, Tping, Rping, Thello, Rhello, Tgoodbye, Tread, Rread, Twrite, Rwrite, Tsync, Rsync, hsb, enc16_length]; omega
    have e : packSwitch buf c = PackTread buf c.Tag c.Score.bytes c.Btype c.Count := by
      simp [packSwitch, h, Rerror, Tping, Rping, Thello, Rhello, Tgoodbye, Tread, Rread, Twrite, Rwrite, Tsync, Rsync]
    rw [e]
    simp only [PackTread]
    rw [PackCall_put _ _ _ _ (by omega) (by simp [Scoresize])]
    simp only [Option.bind_eq_bind, Option.some_bind]
    rw [Pscore_put _ _ hsb
      (by simp only [Cur.put_rest_length]; simp [enc16, Scoresize] at *; omega)]
    simp only [Option.some_bind, Cur.put_put, ht (Or.inl h)]
    rw [Pint8_put _ _
      (by simp only [Cur.put_rest_length]; simp [enc16, Scoresize] at *; omega)]
    simp only [Option.some_bind, Cur.put_put]
    rw [Pint8_put _ _
      (by simp only [Cur.put_rest_length]; simp [enc16, Scoresize] at *; omega)]
    simp only [Option.some_bind, Cur.put_put]
    rw [Pint16_put _ _
      (by simp only [Cur.put_rest_length]; simp [enc16, Scoresize] at *; omega)]
    simp only [Option.some_bind, Cur.put_put, put_all_nil]
    simp [encFrame, encBody, h, hl, Rerror, Tping, Rping, Thello, Rhello, Tgoodbye, Tread, Rread, Twrite, Rwrite, Tsync, Rsync, hsb, enc16_length]
    simp [Scoresize]
  · -- Rread
    have hl : frameLen c = c.Data.bytes.length + 4 := by
      simp [frameLen, encBody, h, Rerror, Tping, Rping, Thello, Rhello, Tgoodbye, Tread, Rread, Twrite, Rwrite, Tsync, Rsync]; omega
    have e : packSwitch buf c = PackRread buf c.Tag c.Data.bytes := by
      simp [packSwitch, h, Rerror, Tping, Rping, Thello, Rhello, Tgoodbye, Tread, Rread, Twrite, Rwrite, Tsync, Rsync]
    rw [e]
    simp only [PackRread]
    rw [PackCall_put _ _ _ _ (by omega) (by omega)]
    simp only [Option.bind_eq_bind, Option.some_bind]
    rw [copy_all _ _ (by simp only [Cur.put_rest_length]; simp [enc16]; omega)]
    simp only [Cur.put_put, put_all_nil]
    simp [encFrame, encBody, h, hl, Rerror, Tping, Rping, Thello, Rhello, Tgoodbye, Tread, Rread, Twrite, Rwrite, Tsync, Rsync, enc16_length]
    congr 1; omega
  · -- Twrite
    have hl : frameLen c = 1 + 3 + c.Data.bytes.length + 4 := by
      simp [frameLen, encBody, h, Rerror, Tping, Rping, Thello, Rhello, Tgoodbye, Tread, Rread, Twrite, Rwrite, Tsync, Rsync]; omega
    have e : packSwitch buf c = PackTwrite buf c.Tag c.Btype c.Data.bytes := by
      simp [packSwitch, h, Rerror, Tping, Rping, Thello, Rhello, Tgoodbye, Tread, Rread, Twrite, Rwrite, Tsync, Rsync]
    rw [e]
    simp only [PackTwrite]
    rw [PackCall_put _ _ _ _ (by omega) (by omega)]
    simp only [Option.bind_eq_bind, Option.some_bind, ht (Or.inr h)]
    rw [Pint8_put _ _ (by simp only [Cur.put_rest_length]; simp [enc16]; omega)]
    simp only [Option.some_bind, Cur.put_put]
    rw [Pint8_put _ _ (by simp only [Cur.put_rest_length]; simp [enc16]; omega)]
    simp only [Option.some_bind, Cur.put_put]
    rw [Pint16_put _ _ (by simp only [Cur.put_rest_length]; simp [enc16]; omega)]
    simp only [Option.some_bind, Cur.put_put]
    rw [copy_all _ _ (by simp only [Cur.put_rest_length]; simp [enc16]; omega)]
    simp only [Cur.put_put, put_all_nil]
    simp [encFrame, encBody, h, hl, Rerror, Tping, Rping, Thello, Rhello, Tgoodbye, Tread, Rread, Twrite, Rwrite, Tsync, Rsync, enc16_length]
    simp only [enc16]
    simp
    refine ⟨rfl, ?_⟩
    congr 1; omega
  · -- Rwrite
    have hs := hfit.score (Or.inr h)
    have hsb : c.Score.bytes.length = Scoresize := by
      rw [← hs]; cases c.Score <;> rfl
    have hl : frameLen c = Scoresize + 4 := by
      simp [frameLen, encBody, h, Rerror, Tping, Rping, Thello, Rhello, Tgoodbye, Tread, Rread, Twrite, Rwrite, Tsync, Rsync, hsb]; omega
    have e : packSwitch buf c = PackRwrite buf c.Tag c.Score.bytes := by
      simp [packSwitch, h, Rerror, Tping, Rping, Thello, Rhello, Tgoodbye, Tread, Rread, Twrite, Rwrite, Tsync, Rsync]
    rw [e]
    simp only [PackRwrite]
    rw [PackCall_put _ _ _ _ (by omega) (by simp [Scoresize])]
    simp only [Option.bind_eq_bind, Option.some_bind]
    rw [Pscore_put _ _ hsb
      (by simp only [Cur.put_rest_length]; simp [enc16, Scoresize] at *; omega)]
    simp only [Option.some_bind, Cur.put_put, put_all_nil]
    simp [encFrame, encBody, h, hl, Rerror, Tping, Rping, Thello, Rhello, Tgoodbye, Tread, Rread, Twrite, Rwrite, Tsync, Rsync, hsb, enc16_length]
    simp [Scoresize]
  · -- Tsync
    have hl : frameLen c = 4 := by
      simp [frameLen, encBody, h, Rerror, Tping, Rping, Thello, Rhello, Tgoodbye, Tread, Rread, Twrite, Rwrite, Tsync, Rsync]
    have e : packSwitch buf c = PackEmpty buf Tsync c.Tag := by
      simp [packSwitch, h, Rerror, Tping, Rping, Thello, Rhello, Tgoodbye, Tread, Rread, Twrite, Rwrite, Tsync, Rsync, PackTsync]
    rw [e, PackEmpty_eq _ _ _ (by omega)]
    simp [encFrame, encBody, h, hl, Rerror, Tping, Rping, Thello, Rhello, Tgoodbye, Tread, Rread, Twrite, Rwrite, Tsync, Rsync]
  · -- Rsync
    have hl : frameLen c = 4 := by
      simp [frameLen, encBody, h, Rerror, Tping, Rping, Thello, Rhello, Tgoodbye, Tread, Rread, Twrite, Rwrite, Tsync, Rsync]
    have e : packSwitch buf c = PackEmpty buf Rsync c.Tag := by
      simp [packSwitch, h, Rerror, Tping, Rping, Thello, Rhello, Tgoodbye, Tread, Rread, Twrite, Rwrite, Tsync, Rsync, PackRsync]
    rw [e, PackEmpty_eq _ _ _ (by omega)]
    simp [encFrame, encBody, h, hl, Rerror, Tping, Rping, Thello, Rhello, Tgoodbye, Tread, Rread, Twrite, Rwrite, Tsync, Rsync]

theorem packSwitch_eq (buf : List Byte) (c : Call) (t : Byte)
    (hid : Catalogued c.Id) (hfit : FitsKind c)
    (ht : c.Id = Tread ∨ c.Id = Twrite → toDiskType c.Btype = some t)
    (hlen : frameLen c ≤ buf.length) (hmax : frameLen c ≤ 65535) :
    packSwitch buf c = some ((frameLen c : Int), encFrame c t ++ buf.drop (frameLen c)) :=
  packSwitch_frame buf c t hid ⟨hfit.crypto, hfit.codec, hfit.score⟩ ht hlen hmax

theorem Gstr_encStr (s : GoString) (r : List Byte) (hs : s.length < 65536) :
    Gstr (some (encStr s ++ r)) = some (s, some r) := by
  simp only [Gstr, encStr, List.append_assoc]
  rw [Gint16_enc16 _ hs]
  simp [Slice.len, Slice.bytes]

theorem Gvar_encVar (s : List Byte) (r : List Byte) (hs : s.length < 256) :
    Gvar (some (encVar s ++ r)) = some (some s, some r) := by
  have e : (Fin.ofNat s.length : Byte).val = s.length := by
    rw [byte_val_ofNat]; omega
  simp only [Gvar, encVar, List.cons_append, Gint8, e]
  rw [if_neg (Option.some_ne_none _),
    if_neg (by simp only [Slice.len, List.length_append]; omega)]
  simp only [Option.map_some', List.take_left, List.drop_left]

theorem Gscore_append (s r : List Byte) (hs : s.length = Scoresize) :
    Gscore (some (s ++ r)) = (some s, some r) := by
  simp only [Gscore, Slice.len, List.length_append]
  rw [if_neg (by omega)]
  simp only [Option.map_some', ← hs, List.take_left, List.drop_left]

theorem frame_len (id tag : Byte) (body : List Byte) (n : Nat) :
    (enc16 n ++ [id, tag] ++ body).length = body.length + 4 := by
  simp [enc16]

/-- The framing part of `Unpack` on a frame whose size field is exact. -/
theorem Unpack_frame (id tag : Byte) (body : List Byte) (c0 : Call)
    (hb : body.length + 4 ≤ 65535) :
    Unpack (some (enc16 (body.length + 2) ++ [id, tag] ++ body)) c0 =
      (unpackBody (some body)
        { c0 with Pkt := some (enc16 (body.length + 2) ++ [id, tag] ++ body),
                  Id := id, Tag := tag }).bind
        (fun x => match x.2 with
          | .inl e => some (0, some e, x.1)
          | .inr rest =>
            if rest = none ∨ rest.len > 0 then some (0, some Epacket, x.1)
            else some (body.length + 4, none, x.1)) := by
  have e : (body.length + 2 + 2) % 65536 = body.length + 4 := by omega
  unfold Unpack
  rw [if_neg (by simp only [Slice.len, frame_len]; omega)]
  rw [List.append_assoc, Gint16_enc16 _ (by omega)]
  simp only [Option.bind_eq_bind, Option.some_bind]
  rw [if_neg (by simp [Slice.len])]
  simp only [Slice.sliceTo, e]
  rw [if_pos (by simp [Slice.len, enc16]), if_pos (by simp [Slice.len])]
  simp only [Option.some_bind, Option.map_some']
  rw [List.take_of_length_le (by simp [enc16]),
      List.take_of_length_le (by simp [enc16])]
  simp only [List.cons_append, List.nil_append, Gint8, Option.some_bind]

theorem bytes_length (s : Slice) : s.bytes.length = s.len := by cases s <;> rfl

/-- Decoding the body written for `c` consumes it and recovers the fields. -/
theorem unpackBody_enc (c c1 : Call) (t : Byte) (hid : Catalogued c.Id) (hfit : FitsKind c)
    (ht : c.Id = Tread ∨ c.Id = Twrite → fromDiskType t = some c.Btype)
    (hmax : frameLen c ≤ 65535) (h1 : c1.Id = c.Id) (h2 : c1.Tag = c.Tag) :
    ∃ d, unpackBody (some (encBody c t)) c1 = some (d, .inr (some [])) ∧ SameFields c d := by
  rcases hid with h | h | h | h | h | h | h | h | h | h | h | h
  · -- Rerror
    have hl : frameLen c = c.Ename.length + 2 + 4 := by
      simp [frameLen, encBody, h, encStr_length]; omega
    refine ⟨{ c1 with Ename := c.Ename }, ?_, ?_⟩
    · have := Gstr_encStr c.Ename [] (by omega)
      simp only [List.append_nil] at this
      simp [unpackBody, encBody, h1, h, this]
    · simp [SameFields, h1, h2, h, Rerror, Tping, Rping, Thello, Rhello, Tgoodbye, Tread, Rread, Twrite, Rwrite, Tsync, Rsync]
  · -- Tping
    refine ⟨c1, ?_, ?_⟩
    · simp [unpackBody, encBody, h1, h, Rerror, Tping, Rping, Thello, Rhello, Tgoodbye, Tread, Rread, Twrite, Rwrite, Tsync, Rsync]
    · simp [SameFields, h1, h2, h, Rerror, Tping, Rping, Thello, Rhello, Tgoodbye, Tread, Rread, Twrite, Rwrite, Tsync, Rsync]
  · -- Rping
    refine ⟨c1, ?_, ?_⟩
    · simp [unpackBody, encBody, h1, h, Rerror, Tping, Rping, Thello, Rhello, Tgoodbye, Tread, Rread, Twrite, Rwrite, Tsync, Rsync]
    · simp [SameFields, h1, h2, h, Rerror, Tping, Rping, Thello, Rhello, Tgoodbye, Tread, Rread, Twrite, Rwrite, Tsync, Rsync]
  · -- Thello
    have hc := hfit.crypto h
    have hd := hfit.codec h
    have hl : frameLen c = 7 + c.Version.length + c.Uid.length + c.Crypto.bytes.length
        + c.Codec.bytes.length + 4 := by
      simp [frameLen, encBody, h, Rerror, Tping, Rping, Thello, Rhello, Tgoodbye, Tread, Rread, Twrite, Rwrite, Tsync, Rsync, encStr_length, encVar_length]; omega
    refine ⟨{ c1 with Version := c.Version, Uid := c.Uid, Strength := c.Strength,
                      Crypto := some c.Crypto.bytes, Codec := some c.Codec.bytes }, ?_, ?_⟩
    · have e : encBody c t = encStr c.Version ++ (encStr c.Uid ++ (c.Strength ::
          (encVar c.Crypto.bytes ++ encVar c.Codec.bytes))) := by
        simp [encBody, h, Rerror, Tping, Rping, Thello, Rhello, Tgoodbye, Tread, Rread, Twrite, Rwrite, Tsync, Rsync]
      have g1 := Gstr_encStr c.Version (encStr c.Uid ++ (c.Strength ::
          (encVar c.Crypto.bytes ++ encVar c.Codec.bytes))) (by omega)
      have g2 := Gstr_encStr c.Uid (c.Strength ::
          (encVar c.Crypto.bytes ++ encVar c.Codec.bytes)) (by omega)
      have g3 := Gvar_encVar c.Crypto.bytes (encVar c.Codec.bytes)
        (by rw [bytes_length]; omega)
      have g4 := Gvar_encVar c.Codec.bytes [] (by rw [bytes_length]; omega)
      rw [List.append_nil] at g4
      have hId : c1.Id = Thello := by rw [h1, h]
      simp only [unpackBody, hId, e]
      simp [Rerror, Tping, Rping, Thello, Rhello, Tgoodbye, Tread, Rread, Twrite, Rwrite, Tsync, Rsync, g1, g2, g3, g4, Gint8, Slice.len]
    · simp [SameFields, h1, h2, h, Rerror, Tping, Rping, Thello, Rhello, Tgoodbye, Tread, Rread, Twrite, Rwrite, Tsync, Rsync, Slice.bytes]
  · -- Rhello
    have hl : frameLen c = c.Sid.length + 4 + 4 := by
      simp [frameLen, encBody, h, Rerror, Tping, Rping, Thello, Rhello, Tgoodbye, Tread, Rread, Twrite, Rwrite, Tsync, Rsync, encStr_length]; omega
    refine ⟨{ c1 with Sid := c.Sid, Rcrypto := c.Rcrypto, Rcodec := c.Rcodec }, ?_, ?_⟩
    · have e : encBody c t = encStr c.Sid ++ [c.Rcrypto, c.Rcodec] := by
        simp [encBody, h, Rerror, Tping, Rping, Thello, Rhello, Tgoodbye, Tread, Rread, Twrite, Rwrite, Tsync, Rsync]
      have g1 := Gstr_encStr c.Sid [c.Rcrypto, c.Rcodec] (by omega)
      have hId : c1.Id = Rhello := by rw [h1, h]
      simp only [unpackBody, hId, e]
      simp [Rerror, Tping, Rping, Thello, Rhello, Tgoodbye, Tread, Rread, Twrite, Rwrite, Tsync, Rsync, g1, Gint8, Slice.len]
    · simp [SameFields, h1, h2, h, Rerror, Tping, Rping, Thello, Rhello, Tgoodbye, Tread, Rread, Twrite, Rwrite, Tsync, Rsync]
  · -- Tgoodbye
    refine ⟨c1, ?_, ?_⟩
    · simp [unpackBody, encBody, h1, h, Rerror, Tping, Rping, Thello, Rhello, Tgoodbye, Tread, Rread, Twrite, Rwrite, Tsync, Rsync]
    · simp [SameFields, h1, h2, h, Rerror, Tping, Rping, Thello, Rhello, Tgoodbye, Tread, Rread, Twrite, Rwrite, Tsync, Rsync]
  · -- Tread
    have hs := hfit.score (Or.inl h)
    have hsb : c.Score.bytes.length = Scoresize := by rw [bytes_length]; exact hs
    have hcnt := hfit.count h
    refine ⟨{ c1 with Score := some c.Score.bytes, Btype := c.Btype, Count := c.Count },
      ?_, ?_⟩
    · have e : encBody c t = c.Score.bytes ++ (t :: 0 :: enc16 c.Count) := by
        simp [encBody, h, Rerror, Tping, Rping, Thello, Rhello, Tgoodbye, Tread, Rread, Twrite, Rwrite, Tsync, Rsync]
      have g1 := Gscore_append c.Score.bytes (t :: 0 :: enc16 c.Count) hsb
      have g2 := Gint16_enc16 c.Count hcnt []
      rw [List.append_nil] at g2
      have hId : c1.Id = Tread := by rw [h1, h]
      simp only [unpackBody, hId, e]
      simp [Rerror, Tping, Rping, Thello, Rhello, Tgoodbye, Tread, Rread, Twrite, Rwrite, Tsync, Rsync, g1, g2, Gint8, Slice.len, ht (Or.inl h), enc16_length]
    · simp [SameFields, h1, h2, h, Rerror, Tping, Rping, Thello, Rhello, Tgoodbye, Tread, Rread, Twrite, Rwrite, Tsync, Rsync, Slice.bytes]
  · -- Rread
    refine ⟨{ c1 with Data := some c.Data.bytes }, ?_, ?_⟩
    · have hId : c1.Id = Rread := by rw [h1, h]
      simp [unpackBody, encBody, hId, h, Rerror, Tping, Rping, Thello, Rhello, Tgoodbye, Tread, Rread, Twrite, Rwrite, Tsync, Rsync, Slice.sliceFrom, Slice.len]
    · simp [SameFields, h1, h2, h, Rerror, Tping, Rping, Thello, Rhello, Tgoodbye, Tread, Rread, Twrite, Rwrite, Tsync, Rsync, Slice.bytes]
  · -- Twrite
    refine ⟨{ c1 with Btype := c.Btype, Data := some c.Data.bytes }, ?_, ?_⟩
    · have e : encBody c t = t :: 0 :: 0 :: 0 :: c.Data.bytes := by
        simp [encBody, h, Rerror, Tping, Rping, Thello, Rhello, Tgoodbye, Tread, Rread, Twrite, Rwrite, Tsync, Rsync]
      have hId : c1.Id = Twrite := by rw [h1, h]
      simp only [unpackBody, hId, e]
      simp [Rerror, Tping, Rping, Thello, Rhello, Tgoodbye, Tread, Rread, Twrite, Rwrite, Tsync, Rsync, Slice.sliceFrom, Slice.len, Gint8, ht (Or.inr h)]
    · simp [SameFields, h1, h2, h, Rerror, Tping, Rping, Thello, Rhello, Tgoodbye, Tread, Rread, Twrite, Rwrite, Tsync, Rsync, Slice.bytes]
  · -- Rwrite
    have hs := hfit.score (Or.inr h)
    have hsb : c.Score.bytes.length = Scoresize := by rw [bytes_length]; exact hs
    refine ⟨{ c1 with Score := some c.Score.bytes }, ?_, ?_⟩
    · have g1 := Gscore_append c.Score.bytes [] hsb
      rw [List.append_nil] at g1
      have hId : c1.Id = Rwrite := by rw [h1, h]
      simp only [unpackBody, hId]
      simp [Rerror, Tping, Rping, Thello, Rhello, Tgoodbye, Tread, Rread, Twrite, Rwrite, Tsync, Rsync, g1, encBody, h]
    · simp [SameFields, h1, h2, h, Rerror, Tping, Rping, Thello, Rhello, Tgoodbye, Tread, Rread, Twrite, Rwrite, Tsync, Rsync, Slice.bytes]
  · -- Tsync
    refine ⟨c1, ?_, ?_⟩
    · simp [unpackBody, encBody, h1, h, Rerror, Tping, Rping, Thello, Rhello, Tgoodbye, Tread, Rread, Twrite, Rwrite, Tsync, Rsync]
    · simp [SameFields, h1, h2, h, Rerror, Tping, Rping, Thello, Rhello, Tgoodbye, Tread, Rread, Twrite, Rwrite, Tsync, Rsync]
  · -- Rsync
    refine ⟨c1, ?_, ?_⟩
    · simp [unpackBody, encBody, h1, h, Rerror, Tping, Rping, Thello, Rhello, Tgoodbye, Tread, Rread, Twrite, Rwrite, Tsync, Rsync]
    · simp [SameFields, h1, h2, h, Rerror, Tping, Rping, Thello, Rhello, Tgoodbye, Tread, Rread, Twrite, Rwrite, Tsync, Rsync]

theorem encBody_length (c : Call) (t : Byte) : (encBody c t).length = frameLen c - 4 := by
  simp only [frameLen, encBody]
  split_ifs <;> simp

theorem encFrame_length (c : Call) (t : Byte) : (encFrame c t).length = frameLen c := by
  simp only [encFrame, List.length_append, enc16_length, encBody_length]
  simp [frameLen]

theorem stable_btype_tables (b : Byte) (h : StableBtype b) :
    ∃ t, toDiskType b = some t ∧ fromDiskType t = some b := by
  obtain ⟨v, hv⟩ := b
  rcases h with h | ⟨h1, h2⟩ | h
  · rw [h]; exact ⟨Ovdtype, by decide, by decide⟩
  · simp only [DirBlock] at h1 h2
    have h1' : 8 ≤ v := h1
    have h2' : v ≤ 15 := h2
    interval_cases v
    · exact ⟨Ovdirtype, rfl, rfl⟩
    · exact ⟨Ovptype0, rfl, rfl⟩
    · exact ⟨Ovptype1, rfl, rfl⟩
    · exact ⟨Ovptype2, rfl, rfl⟩
    · exact ⟨Ovptype3, rfl, rfl⟩
    · exact ⟨Ovptype4, rfl, rfl⟩
    · exact ⟨Ovptype5, rfl, rfl⟩
    · exact ⟨Ovptype6, rfl, rfl⟩
  · rw [h]; exact ⟨Ovroottype, by decide, by decide⟩

/-- C1 (amended): for every call with a catalogued id whose frame is at most
65535 bytes long, whose crypto and codec are at most 255 bytes, whose score is
20 bytes and whose count is a 16-bit value (for the kinds that use them), and
whose block type (Tread, Twrite) is `DataBlock`, `DirBlock + 0..7` or `RBlock`,
and for every buffer at least as long as the frame, `Pack` returns `n > 0` and
`Unpack` of `buf[0:n]` into any call succeeds, returns `n` and agrees with the
packed call on `Id`, `Tag` and every field of that kind. -/
theorem pack_unpack_round_trip (c c0 : Call) (buf : List Byte)
    (hid : Catalogued c.Id) (hfit : FitsKind c)
    (hmax : frameLen c ≤ 65535) (hlen : frameLen c ≤ buf.length) :
    RoundTrip buf c c0 := by
  obtain ⟨t, ht1, ht2⟩ : ∃ t, (c.Id = Tread ∨ c.Id = Twrite → toDiskType c.Btype = some t) ∧
      (c.Id = Tread ∨ c.Id = Twrite → fromDiskType t = some c.Btype) := by
    by_cases hk : c.Id = Tread ∨ c.Id = Twrite
    · obtain ⟨t, h1, h2⟩ := stable_btype_tables c.Btype (hfit.btype hk)
      exact ⟨t, fun _ => h1, fun _ => h2⟩
    · exact ⟨0, fun h => absurd h hk, fun h => absurd h hk⟩
  have hp := packSwitch_eq buf c t hid hfit ht1 hlen hmax
  have h4 : 4 ≤ frameLen c := by simp [frameLen]
  have hframe : encFrame c t = enc16 ((encBody c t).length + 2) ++ [c.Id, c.Tag] ++ encBody c t := by
    simp only [encFrame, encBody_length]
    congr 3; omega
  have hu := Unpack_frame c.Id c.Tag (encBody c t) c0 (by rw [encBody_length]; omega)
  obtain ⟨d, hd, hsame⟩ := unpackBody_enc c
    { c0 with Pkt := some (enc16 ((encBody c t).length + 2) ++ [c.Id, c.Tag] ++ encBody c t),
              Id := c.Id, Tag := c.Tag } t hid hfit ht2 hmax rfl rfl
  rw [hd] at hu
  simp only [Option.some_bind] at hu
  rw [← hframe] at hu
  have hpos : (0 : Int) < (frameLen c : Int) := by omega
  have htake : (encFrame c t ++ buf.drop (frameLen c)).take (frameLen c) = encFrame c t := by
    rw [← encFrame_length c t, List.take_left]
  unfold RoundTrip
  simp only [Pack, hp, Option.bind_eq_bind, Option.some_bind, if_pos hpos, Int.toNat_ofNat,
    htake, hu]
  simp [hsame, hpos, encBody_length, Slice.len]
  omega

/-- C1, witness: a Tread of a `DirBlock + 3` block round-trips. -/
theorem pack_unpack_round_trip_witness :
    Catalogued treadDir3.Id ∧ FitsKind treadDir3 ∧ frameLen treadDir3 ≤ 65535 ∧
    frameLen treadDir3 ≤ (List.replicate 28 (0 : Byte)).length ∧
    RoundTrip (List.replicate 28 0) treadDir3 {} :=
  ⟨by decide, ⟨by decide, by decide, by decide, by decide, by decide⟩, by decide, by decide,
   pack_unpack_round_trip treadDir3 {} (List.replicate 28 0) (by decide)
     ⟨by decide, by decide, by decide, by decide, by decide⟩ (by decide) (by decide)⟩

/-- C1, as stated, fails: a Tread whose block type is the valid in-memory type
`DataBlock + 1` fits the wire format and the buffer, yet it does not round-trip
(`todisk` sends it to the pointer type that `fromdisk` reads as `DirBlock + 1`). -/
theorem pack_unpack_round_trip_fails_on_DataBlock_sublevel :
    Catalogued treadData1.Id ∧ FitsWire treadData1 ∧
    frameLen treadData1 ≤ (List.replicate 28 (0 : Byte)).length ∧
    ¬ RoundTrip (List.replicate 28 0) treadData1 {} :=
  ⟨by decide, ⟨by decide, by decide, by decide, by decide, by decide, by decide, by decide,
    by decide, by decide⟩, by decide, by decide⟩

theorem bind_ne_blk {α : Type} (x : Option α) (f : α → Option (Call × (Error ⊕ Slice)))
    (c2 : Call) (h : ∀ a, f a ≠ some (c2, .inl Eblktype)) :
    x.bind f ≠ some (c2, .inl Eblktype) := by
  cases x with
  | none => simp
  | some a => simpa using h a

theorem ite_ne_blk (p : Prop) [Decidable p] (x y : Option (Call × (Error ⊕ Slice)))
    (c2 : Call) (hx : p → x ≠ some (c2, .inl Eblktype))
    (hy : ¬ p → y ≠ some (c2, .inl Eblktype)) :
    (if p then x else y) ≠ some (c2, .inl Eblktype) := by
  split_ifs with h
  · exact hx h
  · exact hy h

/-- The `n < 0` test on the unsigned table entry never fires: the body decoder
never returns `Eblktype`. -/
theorem unpackBody_ne_Eblktype (b : Slice) (c c2 : Call) :
    unpackBody b c ≠ some (c2, .inl Eblktype) := by
  have hne : Epacket ≠ Eblktype := by decide
  unfold unpackBody
  simp only [Option.bind_eq_bind]
  repeat' first
    | (apply ite_ne_blk <;> intro _)
    | (apply bind_ne_blk; intro _)
  all_goals
    intro h
    first
      | exact hne (Sum.inl.inj (Prod.mk.inj (Option.some.inj h)).2)
      | exact Sum.noConfusion (Prod.mk.inj (Option.some.inj h)).2
      | exact absurd (by assumption) (Nat.not_lt_zero _)

/-- No buffer makes `Unpack` return `Eblktype`. -/
theorem Unpack_never_Eblktype (buf : Slice) (vc d : Call) (n : Nat) :
    Unpack buf vc ≠ some (n, some Eblktype, d) := by
  have hne : Epacket ≠ Eblktype := by decide
  intro h
  unfold Unpack at h
  split_ifs at h with h1
  · simp at h
  · simp only [Option.bind_eq_bind, Option.bind_eq_some] at h
    obtain ⟨⟨sz, b1⟩, _, h⟩ := h
    split_ifs at h with h2
    · simp at h
    · simp only [Option.bind_eq_some] at h
      obtain ⟨_, _, _, _, ⟨_, _⟩, _, ⟨_, _⟩, _, ⟨c3, r⟩, hb, h⟩ := h
      cases r with
      | inl e =>
        simp only [Option.some.injEq, Prod.mk.injEq] at h
        obtain ⟨_, he, _⟩ := h
        subst he
        exact unpackBody_ne_Eblktype _ _ _ hb
      | inr rest =>
        simp only at h
        split_ifs at h
        · simp only [Option.some.injEq, Prod.mk.injEq] at h
          exact hne h.2.1
        · simp at h

/-- C5, on the code: a Tread frame with the unmapped wire type 0 and a Twrite
frame with the unmapped wire type 10 are accepted without error, with
`Btype = VtCorruptType`; a Tread frame with the wire type 14 makes the table
lookup of `fromDiskType` run off the end of `fromdisk`. -/
theorem Unpack_accepts_unmapped_wire_type :
    unpackBtype (treadFrame 0) = some (28, none, VtCorruptType) ∧
    unpackBtype (twriteFrame 10) = some (8, none, VtCorruptType) ∧
    unpackBtype (treadFrame 14) = none := by
  decide

/-- C6, on the code: `Unpack` indexes out of range on a frame whose size field
is 0 or 1, on an Rerror or Rhello frame with an empty body, on a Thello frame
whose body stops inside a string prefix, and on a Thello frame that ends after
the strength byte. -/
theorem Unpack_out_of_range :
    Unpack (some [0, 0, 0, 0]) {} = none ∧
    Unpack (some [0, 1, Tping, 0]) {} = none ∧
    Unpack (some [0, 2, Rerror, 0]) {} = none ∧
    Unpack (some [0, 2, Rhello, 0]) {} = none ∧
    Unpack (some [0, 3, Thello, 0, 0]) {} = none ∧
    Unpack (some [0, 7, Thello, 0, 0, 0, 0, 0, 0]) {} = none :=
  ⟨rfl, rfl, rfl, rfl, rfl, rfl⟩


theorem bind_all {α β : Type} (P : β → Prop) (x : Option α) (f : α → Option β)
    (h : ∀ a, ∀ y, f a = some y → P y) : ∀ y, x.bind f = some y → P y := by
  intro y hy
  cases x with
  | none => simp at hy
  | some a => exact h a y (by simpa using hy)

theorem ite_all {β : Type} (P : β → Prop) (p : Prop) [Decidable p] (x z : Option β)
    (hx : p → ∀ y, x = some y → P y) (hz : ¬ p → ∀ y, z = some y → P y) :
    ∀ y, (if p then x else z) = some y → P y := by
  intro y hy
  split_ifs at hy with h
  · exact hx h y hy
  · exact hz h y hy

/-- The body decoder leaves `Id` and `Tag` as the framing part set them. -/
theorem unpackBody_id_tag (b : Slice) (c : Call) :
    ∀ y, unpackBody b c = some y → y.1.Id = c.Id ∧ y.1.Tag = c.Tag := by
  unfold unpackBody
  simp only [Option.bind_eq_bind]
  repeat' first
    | (apply ite_all <;> intro _)
    | (apply bind_all; intro _)
  all_goals
    intro y hy
    rw [← Option.some.inj hy]
    exact ⟨rfl, rfl⟩

/-- A decoded reply carries the tag byte of its frame. -/
theorem Unpack_tag (b0 b1 b2 b3 : Byte) (rest : List Byte) (c rc : Call) (csz : Nat)
    (hsz : b0.val * 256 + b1.val ≤ rest.length + 2)
    (hu : Unpack (some (b0 :: b1 :: b2 :: b3 :: rest)) c = some (csz, none, rc)) :
    rc.Tag = b3 := by
  unfold Unpack at hu
  rw [if_neg (by simp [Slice.len])] at hu
  simp only [Gint16_cons, Option.bind_eq_bind, Option.some_bind] at hu
  rw [if_neg (by simp [Slice.len]; omega)] at hu
  simp only [Option.bind_eq_some] at hu
  obtain ⟨pkt, _, bb, hbb, ⟨id, r1⟩, h1, ⟨tag, r2⟩, h2, ⟨c3, r⟩, hb, hfin⟩ := hu
  have htag : tag = b3 := by
    simp only [Slice.sliceTo] at hbb
    split_ifs at hbb
    simp only [Option.map_some', Option.some.injEq] at hbb
    subst hbb
    generalize hn : b0.val * 256 + b1.val = n at *
    match n with
    | 0 => simp [Gint8] at h1
    | 1 =>
      simp [Gint8] at h1
      obtain ⟨_, h1⟩ := h1
      subst h1
      simp [Gint8] at h2
    | k + 2 =>
      simp [Gint8] at h1
      obtain ⟨_, h1⟩ := h1
      subst h1
      simp [Gint8] at h2
      exact h2.1.symm
  have hk := (unpackBody_id_tag _ _ _ hb).2
  simp only at hk
  cases r with
  | inl e => simp at hfin
  | inr rest2 =>
    simp only at hfin
    split_ifs at hfin
    all_goals
      have h3 := (Prod.mk.inj (Prod.mk.inj (Option.some.inj hfin)).2).2
      rw [← h3, hk, htag]

/-! ## Pack: short buffers and the frame written -/

theorem PackCall_short (buf : List Byte) (id tag : Byte) (size : Nat)
    (h : buf.length < size + 4) : PackCall ⟨[], buf⟩ id tag size = some (-1, none) := by
  simp only [PackCall]
  rw [if_pos (by simpa using h)]

theorem PackEmpty_short (buf : List Byte) (id tag : Byte) (h : buf.length < 4) :
    PackEmpty buf id tag = some (-1, buf) := by
  simp only [PackEmpty]
  rw [PackCall_short _ _ _ _ (by omega)]
  rfl

theorem packSwitch_short (c : Call) (buf : List Byte) (hid : Catalogued c.Id)
    (hshort : buf.length < 4 + bodySize c) : packSwitch buf c = some (-1, buf) := by
  rcases hid with h | h | h | h | h | h | h | h | h | h | h | h <;>
    simp only [bodySize, h, Rerror, Tping, Rping, Thello, Rhello, Tgoodbye, Tread, Rread, Twrite,
      Rwrite, Tsync, Rsync, if_true, if_false, Fin.isValue, Fin.reduceEq] at hshort <;>
    simp only [packSwitch, h, Rerror, Tping, Rping, Thello, Rhello, Tgoodbye, Tread, Rread,
      Twrite, Rwrite, Tsync, Rsync, if_true, if_false, Fin.isValue, Fin.reduceEq, PackRerror,
      PackTping, PackRping, PackThello, PackRhello, PackTgoodbye, PackTread, PackRread,
      PackTwrite, PackRwrite, PackTsync, PackRsync]
  all_goals first
    | (rw [PackEmpty_short _ _ _ (by omega)])
    | (rw [PackCall_short _ _ _ _ (by (try simp only [Scoresize] at hshort ⊢); omega)]; rfl)

/-- C13: for every call with a catalogued id and every buffer shorter than the
frame of the call (4 header bytes and the body size its packer computes),
`Pack` returns -1 and leaves the buffer and the call, with its `Pkt`, as they
were. -/
theorem Pack_short_buffer (c : Call) (buf : List Byte) (hid : Catalogued c.Id)
    (hshort : buf.length < 4 + bodySize c) : Pack buf c = some (-1, buf, c) := by
  simp only [Pack, packSwitch_short c buf hid hshort, Option.bind_eq_bind, Option.some_bind]
  rfl

/-- C13, witness: a Tread (frame of 28 bytes) and a buffer of 27 bytes. -/
theorem Pack_short_buffer_witness :
    Catalogued treadDir3.Id ∧ (List.replicate 27 (0 : Byte)).length < 4 + bodySize treadDir3 ∧
    Pack (List.replicate 27 0) treadDir3 = some (-1, List.replicate 27 0, treadDir3) :=
  ⟨by decide, by decide, Pack_short_buffer treadDir3 (List.replicate 27 0) (by decide) (by decide)⟩

/-- The body size the packers compute is the length of the encoded body when
the score has its 20 bytes. -/
theorem frameLen_bodySize (c : Call)
    (hs : c.Id = Tread ∨ c.Id = Rwrite → c.Score.len = Scoresize) :
    frameLen c = 4 + bodySize c := by
  unfold frameLen bodySize encBody
  split_ifs with h1 h2 h3 h4 h5 h6 h7 <;>
    simp only [encStr_length, encVar_length, List.length_append, List.length_cons,
      List.length_nil, enc16_length, bytes_length] <;> try omega
  · rw [hs (Or.inl h4)]
  · rw [hs (Or.inr h7)]

/-- C14 (amended): for every call with a catalogued id whose frame does not
exceed Maxblock, whose crypto and codec (Thello) have at most 255 bytes, whose
score (Tread, Rwrite) has 20 bytes and whose block type (Tread, Twrite) has the
disk type `t`, and for every buffer at least as long as the frame, `Pack`
returns `n`, 4 plus the length of the encoded body; the first `n` bytes of the
buffer are `n - 2` in big-endian, the Id, the Tag and the body fields in the
order of the catalogue, the bytes after them are untouched, and the `Pkt` of
the call is `buf[0:n]`. -/
theorem Pack_writes_frame (c : Call) (buf : List Byte) (t : Byte)
    (hid : Catalogued c.Id) (hfit : FitsPack c)
    (ht : c.Id = Tread ∨ c.Id = Twrite → toDiskType c.Btype = some t)
    (hmax : frameLen c ≤ Maxblock) (hlen : frameLen c ≤ buf.length) :
    frameLen c = 4 + (encBody c t).length ∧
    ∃ out, Pack buf c
        = some ((frameLen c : Int), out, { c with Pkt := some (out.take (frameLen c)) }) ∧
      out.take (frameLen c) = enc16 (frameLen c - 2) ++ [c.Id, c.Tag] ++ encBody c t ∧
      out.drop (frameLen c) = buf.drop (frameLen c) := by
  have h4 : 4 ≤ frameLen c := by simp [frameLen]
  have hp := packSwitch_frame buf c t hid hfit ht hlen (by simp only [Maxblock] at hmax; omega)
  have hpos : (0 : Int) < (frameLen c : Int) := by omega
  have htake : (encFrame c t ++ buf.drop (frameLen c)).take (frameLen c) = encFrame c t := by
    rw [← encFrame_length c t, List.take_left]
  have hdrop : (encFrame c t ++ buf.drop (frameLen c)).drop (frameLen c)
      = buf.drop (frameLen c) := by
    have h := List.drop_left (encFrame c t) (buf.drop (frameLen c))
    rwa [encFrame_length] at h
  refine ⟨by rw [encBody_length]; omega, encFrame c t ++ buf.drop (frameLen c), ?_, ?_, ?_⟩
  · simp only [Pack, hp, Option.bind_eq_bind, Option.some_bind, if_pos hpos, Int.toNat_ofNat]
  · rw [htake]
    rfl
  · exact hdrop

/-- C14, witness: a Tread of a `DirBlock + 3` block packed into 30 bytes. -/
theorem Pack_writes_frame_witness :
    Catalogued treadDir3.Id ∧ FitsPack treadDir3 ∧ toDiskType treadDir3.Btype = some Ovptype2 ∧
    frameLen treadDir3 ≤ Maxblock ∧ frameLen treadDir3 ≤ (List.replicate 30 (0 : Byte)).length ∧
    frameLen treadDir3 = 4 + (encBody treadDir3 Ovptype2).length ∧
    ∃ out, Pack (List.replicate 30 0) treadDir3
        = some ((frameLen treadDir3 : Int), out,
            { treadDir3 with Pkt := some (out.take (frameLen treadDir3)) }) ∧
      out.take (frameLen treadDir3)
        = enc16 (frameLen treadDir3 - 2) ++ [treadDir3.Id, treadDir3.Tag]
            ++ encBody treadDir3 Ovptype2 ∧
      out.drop (frameLen treadDir3) = (List.replicate 30 (0 : Byte)).drop (frameLen treadDir3) :=
  ⟨by decide, ⟨by decide, by decide, by decide⟩, rfl, by decide, by decide,
   Pack_writes_frame treadDir3 (List.replicate 30 0) Ovptype2 (by decide)
     ⟨by decide, by decide, by decide⟩ (fun _ => rfl) (by decide) (by decide)⟩

set_option maxRecDepth 20000

/-- C14, counterexample: a Thello with a crypto of 256 bytes has a frame of 267
bytes; `Pack` into a zero-filled buffer of 267 bytes returns 267, and the
bytes it leaves are not the frame of the call: the crypto length reads 0, the
codec length overwrites the first crypto byte and the last byte of the frame is
not written. -/
theorem Pack_truncates_long_crypto :
    Catalogued thelloBig.Id ∧ frameLen thelloBig = 267 ∧ frameLen thelloBig ≤ Maxblock ∧
    Pack (List.replicate 267 0) thelloBig
      = some (267, packedBig, { thelloBig with Pkt := some packedBig }) ∧
    packedBig ≠ enc16 (frameLen thelloBig - 2) ++ [thelloBig.Id, thelloBig.Tag]
      ++ encBody thelloBig 0 :=
  ⟨by decide, by decide, by decide, by rfl, by decide⟩

/-! ## Unpack: trailing bytes and the byte count -/

theorem toDiskType_fromDiskType (b t : Byte) (h : toDiskType b = some t) :
    ∃ n, fromDiskType t = some n := by
  unfold toDiskType at h
  split_ifs at h with hb
  · simp only [Option.some.injEq] at h
    subst h
    exact ⟨VtCorruptType, rfl⟩
  · obtain ⟨v, hv⟩ := b
    simp only [todisk, List.length_cons, List.length_nil] at hb
    simp only [not_lt] at hb
    have hv2 : v ≤ 17 := by omega
    interval_cases v <;> first
      | (simp only [todisk] at h; cases h; exact ⟨_, rfl⟩)
      | (simp [todisk] at h)

/-- The framing part of `Unpack` on a frame with any size field. -/
theorem Unpack_framed (id tag : Byte) (body : List Byte) (c0 : Call)
    (hb : body.length + 2 ≤ 65535) :
    Unpack (some (enc16 (body.length + 2) ++ [id, tag] ++ body)) c0 =
      (unpackBody (some body)
        { c0 with Pkt := some ((enc16 (body.length + 2) ++ [id, tag] ++ body).take
                    ((body.length + 4) % 65536)),
                  Id := id, Tag := tag }).bind
        (fun x => match x.2 with
          | .inl e => some (0, some e, x.1)
          | .inr rest =>
            if rest = none ∨ rest.len > 0 then some (0, some Epacket, x.1)
            else some ((body.length + 4) % 65536, none, x.1)) := by
  have hm : (body.length + 4) % 65536 ≤ body.length + 4 := Nat.mod_le _ _
  unfold Unpack
  rw [if_neg (by simp only [Slice.len, frame_len]; omega)]
  rw [List.append_assoc, Gint16_enc16 _ (by omega)]
  simp only [Option.bind_eq_bind, Option.some_bind]
  rw [if_neg (by simp [Slice.len])]
  simp only [Slice.sliceTo]
  rw [if_pos (by simp [Slice.len, enc16]; omega), if_pos (by simp [Slice.len])]
  simp only [Option.some_bind, Option.map_some']
  rw [List.take_of_length_le (by simp : ([id, tag] ++ body).length ≤ body.length + 2)]
  have e : body.length + 2 + 2 = body.length + 4 := by omega
  simp only [List.cons_append, List.nil_append, Gint8, Option.some_bind, e]
  try rfl

/-- Decoding the body written for `c`, followed by the bytes `r`, leaves `r`
over, for the kinds whose body does not end with the data. -/
theorem unpackBody_enc_rest (c c1 : Call) (t : Byte) (r : List Byte) (hid : Catalogued c.Id)
    (hk : c.Id ≠ Rread ∧ c.Id ≠ Twrite) (hfit : FitsPack c)
    (ht : c.Id = Tread → ∃ n, fromDiskType t = some n)
    (hmax : frameLen c ≤ 65537) (h1 : c1.Id = c.Id) :
    ∃ d, unpackBody (some (encBody c t ++ r)) c1 = some (d, .inr (some r)) := by
  rcases hid with h | h | h | h | h | h | h | h | h | h | h | h
  · -- Rerror
    have hl : frameLen c = c.Ename.length + 2 + 4 := by
      simp [frameLen, encBody, h, encStr_length]; omega
    refine ⟨{ c1 with Ename := c.Ename }, ?_⟩
    have := Gstr_encStr c.Ename r (by omega)
    simp [unpackBody, encBody, h1, h, this]
  · -- Tping
    exact ⟨c1, by simp [unpackBody, encBody, h1, h, Rerror, Tping, Rping, Thello, Rhello,
      Tgoodbye, Tread, Rread, Twrite, Rwrite, Tsync, Rsync]⟩
  · -- Rping
    exact ⟨c1, by simp [unpackBody, encBody, h1, h, Rerror, Tping, Rping, Thello, Rhello,
      Tgoodbye, Tread, Rread, Twrite, Rwrite, Tsync, Rsync]⟩
  · -- Thello
    have hc := hfit.crypto h
    have hd := hfit.codec h
    have hl : frameLen c = 7 + c.Version.length + c.Uid.length + c.Crypto.bytes.length
        + c.Codec.bytes.length + 4 := by
      simp [frameLen, encBody, h, Rerror, Tping, Rping, Thello, Rhello, Tgoodbye, Tread, Rread,
        Twrite, Rwrite, Tsync, Rsync, encStr_length, encVar_length]; omega
    refine ⟨{ c1 with Version := c.Version, Uid := c.Uid, Strength := c.Strength,
                      Crypto := some c.Crypto.bytes, Codec := some c.Codec.bytes }, ?_⟩
    have e : encBody c t ++ r = encStr c.Version ++ (encStr c.Uid ++ (c.Strength ::
        (encVar c.Crypto.bytes ++ (encVar c.Codec.bytes ++ r)))) := by
      simp [encBody, h, Rerror, Tping, Rping, Thello, Rhello, Tgoodbye, Tread, Rread, Twrite,
        Rwrite, Tsync, Rsync]
    have g1 := Gstr_encStr c.Version (encStr c.Uid ++ (c.Strength ::
        (encVar c.Crypto.bytes ++ (encVar c.Codec.bytes ++ r)))) (by omega)
    have g2 := Gstr_encStr c.Uid (c.Strength ::
        (encVar c.Crypto.bytes ++ (encVar c.Codec.bytes ++ r))) (by omega)
    have g3 := Gvar_encVar c.Crypto.bytes (encVar c.Codec.bytes ++ r)
      (by rw [bytes_length]; omega)
    have g4 := Gvar_encVar c.Codec.bytes r (by rw [bytes_length]; omega)
    have hId : c1.Id = Thello := by rw [h1, h]
    simp only [unpackBody, hId, e]
    simp [Rerror, Tping, Rping, Thello, Rhello, Tgoodbye, Tread, Rread, Twrite, Rwrite, Tsync,
      Rsync, g1, g2, g3, g4, Gint8, Slice.len]
  · -- Rhello
    have hl : frameLen c = c.Sid.length + 4 + 4 := by
      simp [frameLen, encBody, h, Rerror, Tping, Rping, Thello, Rhello, Tgoodbye, Tread, Rread,
        Twrite, Rwrite, Tsync, Rsync, encStr_length]; omega
    refine ⟨{ c1 with Sid := c.Sid, Rcrypto := c.Rcrypto, Rcodec := c.Rcodec }, ?_⟩
    have e : encBody c t ++ r = encStr c.Sid ++ (c.Rcrypto :: c.Rcodec :: r) := by
      simp [encBody, h, Rerror, Tping, Rping, Thello, Rhello, Tgoodbye, Tread, Rread, Twrite,
        Rwrite, Tsync, Rsync]
    have g1 := Gstr_encStr c.Sid (c.Rcrypto :: c.Rcodec :: r) (by omega)
    have hId : c1.Id = Rhello := by rw [h1, h]
    simp only [unpackBody, hId, e]
    simp [Rerror, Tping, Rping, Thello, Rhello, Tgoodbye, Tread, Rread, Twrite, Rwrite, Tsync,
      Rsync, g1, Gint8, Slice.len]
  · -- Tgoodbye
    exact ⟨c1, by simp [unpackBody, encBody, h1, h, Rerror, Tping, Rping, Thello, Rhello,
      Tgoodbye, Tread, Rread, Twrite, Rwrite, Tsync, Rsync]⟩
  · -- Tread
    have hs := hfit.score (Or.inl h)
    have hsb : c.Score.bytes.length = Scoresize := by rw [bytes_length]; exact hs
    obtain ⟨n, hn⟩ := ht h
    have e : encBody c t ++ r = c.Score.bytes
        ++ (t :: 0 :: Fin.ofNat (c.Count >>> 8) :: Fin.ofNat c.Count :: r) := by
      simp [encBody, h, Rerror, Tping, Rping, Thello, Rhello, Tgoodbye, Tread, Rread, Twrite,
        Rwrite, Tsync, Rsync, enc16]
    have g1 := Gscore_append c.Score.bytes
      (t :: 0 :: Fin.ofNat (c.Count >>> 8) :: Fin.ofNat c.Count :: r) hsb
    have hId : c1.Id = Tread := by rw [h1, h]
    refine ⟨{ c1 with Score := some c.Score.bytes, Btype := n,
                      Count := (Fin.ofNat c.Count : Byte).val
                        ||| ((Fin.ofNat (c.Count >>> 8) : Byte).val <<< 8) }, ?_⟩
    simp only [unpackBody, hId, e]
    simp [Rerror, Tping, Rping, Thello, Rhello, Tgoodbye, Tread, Rread, Twrite, Rwrite, Tsync,
      Rsync, g1, Gint8, Gint16, Slice.len, hn, enc16]
  · exact absurd h hk.1
  · exact absurd h hk.2
  · -- Rwrite
    have hs := hfit.score (Or.inr h)
    have hsb : c.Score.bytes.length = Scoresize := by rw [bytes_length]; exact hs
    refine ⟨{ c1 with Score := some c.Score.bytes }, ?_⟩
    have g1 := Gscore_append c.Score.bytes r hsb
    have hId : c1.Id = Rwrite := by rw [h1, h]
    simp only [unpackBody, hId]
    simp [Rerror, Tping, Rping, Thello, Rhello, Tgoodbye, Tread, Rread, Twrite, Rwrite, Tsync,
      Rsync, g1, encBody, h]
  · -- Tsync
    exact ⟨c1, by simp [unpackBody, encBody, h1, h, Rerror, Tping, Rping, Thello, Rhello,
      Tgoodbye, Tread, Rread, Twrite, Rwrite, Tsync, Rsync]⟩
  · -- Rsync
    exact ⟨c1, by simp [unpackBody, encBody, h1, h, Rerror, Tping, Rping, Thello, Rhello,
      Tgoodbye, Tread, Rread, Twrite, Rwrite, Tsync, Rsync]⟩

/-- C12: for every call of a catalogued kind other than Rread and Twrite whose
fields fit the frame (crypto and codec of at most 255 bytes, a score of 20
bytes, a block type with a disk type), and for every non-empty sequence of
extra bytes such that the size field can count the body and the extra bytes,
`Unpack` of the frame of the call extended by the extra bytes, with the size
field counting them, returns 0 and the error `Epacket`. -/
theorem Unpack_rejects_trailing_bytes (c c0 : Call) (t : Byte) (extra : List Byte)
    (hid : Catalogued c.Id) (hk : c.Id ≠ Rread ∧ c.Id ≠ Twrite) (hfit : FitsPack c)
    (ht : c.Id = Tread → toDiskType c.Btype = some t)
    (hextra : extra ≠ [])
    (hsize : frameLen c - 2 + extra.length ≤ 65535) :
    ∃ d, Unpack (some (enc16 (frameLen c - 2 + extra.length) ++ [c.Id, c.Tag]
        ++ (encBody c t ++ extra))) c0 = some (0, some Epacket, d) := by
  have h4 : 4 ≤ frameLen c := by simp [frameLen]
  have hbl : (encBody c t ++ extra).length + 2 = frameLen c - 2 + extra.length := by
    rw [List.length_append, encBody_length]; omega
  have hu := Unpack_framed c.Id c.Tag (encBody c t ++ extra) c0 (by omega)
  rw [hbl] at hu
  obtain ⟨d, hd⟩ := unpackBody_enc_rest c
    { c0 with Pkt := some ((enc16 (frameLen c - 2 + extra.length) ++ [c.Id, c.Tag]
                ++ (encBody c t ++ extra)).take (((encBody c t ++ extra).length + 4) % 65536)),
              Id := c.Id, Tag := c.Tag } t extra hid hk hfit
    (fun h => toDiskType_fromDiskType _ _ (ht h)) (by omega) rfl
  rw [hd] at hu
  have hpos : 0 < extra.length := List.length_pos.2 hextra
  refine ⟨d, ?_⟩
  rw [hu]
  simp only [Option.some_bind]
  rw [if_pos (Or.inr (by simpa [Slice.len] using hpos))]

/-- C12, witness: a Thello frame followed inside the frame by two extra bytes. -/
theorem Unpack_rejects_trailing_bytes_witness :
    Catalogued thelloTrailing.Id ∧ (thelloTrailing.Id ≠ Rread ∧ thelloTrailing.Id ≠ Twrite) ∧
    FitsPack thelloTrailing ∧ ([7, 7] : List Byte) ≠ [] ∧
    frameLen thelloTrailing - 2 + ([7, 7] : List Byte).length ≤ 65535 ∧
    ∃ d, Unpack (some (enc16 (frameLen thelloTrailing - 2 + ([7, 7] : List Byte).length)
        ++ [thelloTrailing.Id, thelloTrailing.Tag] ++ (encBody thelloTrailing 0 ++ [7, 7]))) {}
      = some (0, some Epacket, d) :=
  ⟨by decide, by decide, ⟨by decide, by decide, by decide⟩, by decide, by decide,
   Unpack_rejects_trailing_bytes thelloTrailing {} 0 [7, 7] (by decide) (by decide)
     ⟨by decide, by decide, by decide⟩ (fun h => absurd h (by decide)) (by decide) (by decide)⟩

/-- On an Rread frame of 65536 bytes (size field 65534) `Unpack` succeeds and
returns the count 0 with an empty `Pkt`. -/
theorem Unpack_wraps (tag : Byte) (data : List Byte) (c0 : Call) (hd : data.length = 65532) :
    Unpack (some (255 :: 254 :: Rread :: tag :: data)) c0
      = some (0, none, { c0 with Pkt := some [], Id := Rread, Tag := tag, Data := some data }) := by
  have hsz : (254 : Byte).val ||| ((255 : Byte).val <<< 8) = 65534 := by decide
  unfold Unpack
  rw [if_neg (by simp only [Slice.len, List.length_cons, hd]; omega)]
  simp only [Gint16, hsz, Option.bind_eq_bind, Option.some_bind]
  rw [if_neg (by simp only [Slice.len, List.length_cons, hd]; omega)]
  simp only [Slice.sliceTo]
  rw [if_pos (by simp only [Slice.len, List.length_cons, hd]; omega),
    if_pos (by simp only [Slice.len, List.length_cons, hd]; omega)]
  simp only [Option.some_bind, Option.map_some']
  rw [List.take_of_length_le (by simp only [List.length_cons, hd]; omega :
    (Rread :: tag :: data).length ≤ 65534)]
  have e0 : (65534 + 2) % 65536 = 0 := by decide
  simp only [e0, List.take_zero, Gint8, Option.some_bind]
  simp [unpackBody, Rerror, Thello, Rhello, Tread, Rread, Slice.sliceFrom, Slice.len]

/-- The body decoder leaves `Pkt` as the framing part set it. -/
theorem unpackBody_pkt (b : Slice) (c : Call) :
    ∀ y, unpackBody b c = some y → y.1.Pkt = c.Pkt := by
  unfold unpackBody
  simp only [Option.bind_eq_bind]
  repeat' first
    | (apply ite_all <;> intro _)
    | (apply bind_all; intro _)
  all_goals
    intro y hy
    rw [← Option.some.inj hy]

/-- On a complete frame whose size field is at most 65533, a successful
`Unpack` returns the length of the frame and sets `Pkt` to the frame. -/
theorem Unpack_count (b0 b1 : Byte) (rest : List Byte) (c d : Call) (n : Nat)
    (hlen : 2 ≤ rest.length) (hfull : b0.val * 256 + b1.val ≤ rest.length)
    (hsmall : b0.val * 256 + b1.val ≤ 65533)
    (hu : Unpack (some (b0 :: b1 :: rest)) c = some (n, none, d)) :
    n = b0.val * 256 + b1.val + 2 ∧
    d.Pkt = some ((b0 :: b1 :: rest).take (b0.val * 256 + b1.val + 2)) := by
  unfold Unpack at hu
  rw [if_neg (by simp only [Slice.len, List.length_cons]; omega)] at hu
  simp only [Gint16_cons, Option.bind_eq_bind, Option.some_bind] at hu
  rw [if_neg (by simp only [Slice.len]; omega)] at hu
  have e : (b0.val * 256 + b1.val + 2) % 65536 = b0.val * 256 + b1.val + 2 :=
    Nat.mod_eq_of_lt (by omega)
  rw [e] at hu
  simp only [Option.bind_eq_some] at hu
  obtain ⟨pkt, hpkt, bb, hbb, ⟨id, r1⟩, h1, ⟨tag, r2⟩, h2, ⟨c3, r⟩, hb, hfin⟩ := hu
  have hp : pkt = some ((b0 :: b1 :: rest).take (b0.val * 256 + b1.val + 2)) := by
    simp only [Slice.sliceTo] at hpkt
    split_ifs at hpkt
    simp only [Option.map_some', Option.some.injEq] at hpkt
    exact hpkt.symm
  have hk := unpackBody_pkt _ _ _ hb
  simp only at hk
  cases r with
  | inl e => simp at hfin
  | inr rest2 =>
    simp only at hfin
    split_ifs at hfin
    · simp at hfin
    · have h3 := Prod.mk.inj (Option.some.inj hfin)
      refine ⟨h3.1.symm, ?_⟩
      rw [← (Prod.mk.inj h3.2).2, hk, hp]

theorem wrap_length (tag : Byte) (data : List Byte) (hd : data.length = 65532) :
    (255 :: 254 :: Rread :: tag :: data).length = 65536 := by
  simp only [List.length_cons, hd]

/-- C15, on the code: on a buffer that holds a complete Rread frame of 65536
bytes (size field 65534) `Unpack` returns no error, the count 0 instead of
65536, and a `Pkt` of no bytes instead of the 65536 bytes of the frame. -/
theorem Unpack_count_wraps :
    wrapFrame.length = 65536 ∧
    Unpack (some wrapFrame) {}
      = some (0, none, { Id := Rread, Tag := 0, Data := some wrapData, Pkt := some [] }) :=
  ⟨wrap_length 0 wrapData (List.length_replicate _ _), Unpack_wraps 0 wrapData {} (List.length_replicate _ _)⟩

/-! ## The banner -/

theorem splitOn_Index (sep : Byte) (s : GoString) :
    s.splitOn sep = match Index s sep with
      | none => [s]
      | some m => s.take m :: (s.drop (m + 1)).splitOn sep := by
  induction s with
  | nil => rfl
  | cons b r ih =>
    simp only [List.splitOn, List.splitOnP_cons, Index] at ih ⊢
    by_cases hb : b = sep
    · simp [hb]
    · have hb2 : (b == sep) = false := by simpa using hb
      rw [if_neg (by simp [hb2]), if_neg hb, ih]
      cases Index r sep with
      | none => simp [List.modifyHead]
      | some m => simp [List.modifyHead]

theorem Index_none_count (sep : Byte) (s : GoString) (h : Index s sep = none) :
    s.count sep = 0 := by
  induction s with
  | nil => rfl
  | cons b r ih =>
    simp only [Index] at h
    split_ifs at h with hb
    simp only [Option.map_eq_none'] at h
    rw [List.count_cons, ih h]
    simp [hb]

theorem Index_some_count (sep : Byte) (s : GoString) (m : Nat) (h : Index s sep = some m) :
    s.count sep = (s.drop (m + 1)).count sep + 1 := by
  induction s generalizing m with
  | nil => simp [Index] at h
  | cons b r ih =>
    simp only [Index] at h
    split_ifs at h with hb
    · simp only [Option.some.injEq] at h
      subst h
      simp [List.count_cons, hb]
    · simp only [Option.map_eq_some'] at h
      obtain ⟨k, hk, rfl⟩ := h
      rw [List.count_cons, ih k hk]
      simp [hb]

/-- With as many cuts as there are separators the loop splits at all of them. -/
theorem loop_eq_splitOn (sep : Byte) (k : Nat) :
    ∀ s : GoString, s.count sep ≤ k → SplitN.loop sep k s = s.splitOn sep := by
  induction k with
  | zero =>
    intro s hs
    rw [splitOn_Index]
    cases h : Index s sep with
    | none => rfl
    | some m => have := Index_some_count sep s m h; omega
  | succ k ih =>
    intro s hs
    rw [splitOn_Index, SplitN.loop]
    cases h : Index s sep with
    | none => rfl
    | some m =>
      have := Index_some_count sep s m h
      simp only
      rw [ih _ (by omega)]

theorem SplitN_all (sep : Byte) (s : GoString) : SplitN s sep (-1) = s.splitOn sep := by
  simp only [SplitN]
  rw [if_neg (by decide), if_pos (by decide)]
  exact loop_eq_splitOn sep _ s (by omega)

theorem HasPrefix_iff (s pre : GoString) : HasPrefix s pre = true ↔ pre <+: s := by
  simp only [HasPrefix, Bool.and_eq_true, decide_eq_true_eq, beq_iff_eq]
  constructor
  · rintro ⟨_, h⟩
    exact List.prefix_iff_eq_take.2 h.symm
  · intro h
    exact ⟨h.length_le, (List.prefix_iff_eq_take.1 h).symm⟩

/-- The first two pieces of `SplitN(s, sep, 3)` are the first two fields of
`s`, and there are three pieces exactly when there are at least three
fields. -/
theorem SplitN_three (sep : Byte) (s : GoString) :
    (SplitN s sep 3).getD 0 [] = (s.splitOn sep).getD 0 [] ∧
    (SplitN s sep 3).getD 1 [] = (s.splitOn sep).getD 1 [] ∧
    ((SplitN s sep 3).length < 3 ↔ (s.splitOn sep).length < 3) := by
  have e : SplitN s sep 3 = SplitN.loop sep 2 s := by
    simp only [SplitN]
    rw [if_neg (by decide), if_neg (by decide)]
    rfl
  rw [e, splitOn_Index, SplitN.loop]
  cases Index s sep with
  | none => simp
  | some m =>
    simp only
    rw [splitOn_Index, SplitN.loop]
    cases Index (s.drop (m + 1)) sep with
    | none => simp
    | some m2 =>
      have hne := List.splitOnP_ne_nil (fun x => x == sep) ((s.drop (m + 1)).drop (m2 + 1))
      have hl : 0 < (List.splitOn sep ((s.drop (m + 1)).drop (m2 + 1))).length :=
        List.length_pos.2 hne
      simp only [SplitN.loop, List.getD_cons_zero, List.getD_cons_succ, List.length_cons,
        List.length_nil, true_and]
      omega

theorem splitOn_venti (t : GoString) :
    ((gostr "venti-" ++ t).splitOn 45).getD 0 [] = gostr "venti" := by
  have hg : gostr "venti-" = [118, 101, 110, 116, 105, 45] := by decide
  have hi : Index (gostr "venti-" ++ t) 45 = some 5 := by
    rw [hg]
    simp [Index]
  have hv : gostr "venti" = [118, 101, 110, 116, 105] := by decide
  rw [splitOn_Index, hi, hg, hv]
  simp

/-- C16: `CheckBanner` accepts exactly the strings that begin with "venti-",
split on "-" into at least three fields and have "02" among the elements of
the second field split on ":".  It accepts "venti-02-foo\n", "venti-01:02-x\n"
and the banner of the library, and rejects "venti-03-x\n", "venti-\n" and
"venti-02\n"; a string that does not begin with "venti-" is not among the
accepted ones. -/
theorem CheckBanner_spec :
    (∀ s : GoString, CheckBanner s = true ↔ BannerAccepted s) ∧
    CheckBanner (gostr "venti-02-foo\n") = true ∧
    CheckBanner (gostr "venti-01:02-x\n") = true ∧
    CheckBanner Banner = true ∧
    CheckBanner (gostr "venti-03-x\n") = false ∧
    CheckBanner (gostr "venti-\n") = false ∧
    CheckBanner (gostr "venti-02\n") = false ∧
    (∀ s : GoString, CheckBanner s = (HasPrefix s (gostr "venti-") && CheckBanner s)) := by
  refine ⟨?_, by decide, by decide, by decide, by decide, by decide, by decide, ?_⟩
  · intro s
    obtain ⟨h0, h1, h3⟩ := SplitN_three 45 s
    unfold CheckBanner BannerAccepted
    by_cases hp : HasPrefix s (gostr "venti-") = true
    · have hpre := (HasPrefix_iff _ _).1 hp
      have hv : (SplitN s 45 3).getD 0 [] = gostr "venti" := by
        obtain ⟨t, rfl⟩ := hpre
        rw [h0, splitOn_venti]
      simp only [hp, not_true_eq_false, if_false, hv, ne_eq, not_true_eq_false, or_false,
        hpre, true_and]
      by_cases hl : (SplitN s 45 3).length < 3
      · rw [if_pos hl]
        have := h3.1 hl
        constructor
        · intro h; exact absurd h (by decide)
        · intro h; omega
      · rw [if_neg hl]
        have hl2 : 3 ≤ (s.splitOn 45).length := by
          by_contra hc
          exact hl (h3.2 (by omega))
        rw [h1, SplitN_all, List.any_eq_true]
        simp only [beq_iff_eq, exists_eq_right, hl2, true_and]
    · have hpre : ¬ gostr "venti-" <+: s := fun h => hp ((HasPrefix_iff _ _).2 h)
      simp [hp, hpre]
  · intro s
    unfold CheckBanner
    by_cases hp : HasPrefix s (gostr "venti-") = true
    · simp [hp]
    · simp [hp]

/-! ## Clear -/

/-- C20 (amended): after `Clear` the fields `Id`, `Crypto`, `Codec`, `Score`,
`Data` and `Pkt` of a call are zero or nil, and the fields `Tag`, `Ename`,
`Version`, `Uid`, `Strength`, `Sid`, `Rcrypto`, `Rcodec`, `Btype` and `Count`
have the values they had before. -/
theorem Clear_fields (c : Call) :
    (c.Clear.Id = 0 ∧ c.Clear.Crypto = none ∧ c.Clear.Codec = none ∧ c.Clear.Score = none ∧
      c.Clear.Data = none ∧ c.Clear.Pkt = none) ∧
    (c.Clear.Tag = c.Tag ∧ c.Clear.Ename = c.Ename ∧ c.Clear.Version = c.Version ∧
      c.Clear.Uid = c.Uid ∧ c.Clear.Strength = c.Strength ∧ c.Clear.Sid = c.Sid ∧
      c.Clear.Rcrypto = c.Rcrypto ∧ c.Clear.Rcodec = c.Rcodec ∧ c.Clear.Btype = c.Btype ∧
      c.Clear.Count = c.Count) :=
  ⟨⟨rfl, rfl, rfl, rfl, rfl, rfl⟩, ⟨rfl, rfl, rfl, rfl, rfl, rfl, rfl, rfl, rfl, rfl⟩⟩

/-- C20, counterexample: after `Clear` an Rerror reply still carries its error
string, and its strength, block type and count are not zero. -/
theorem Clear_keeps_ename :
    staleCall.Clear.Ename = gostr "not found" ∧ staleCall.Clear.Ename ≠ [] ∧
    staleCall.Clear.Strength ≠ 0 ∧ staleCall.Clear.Btype ≠ 0 ∧ staleCall.Clear.Count ≠ 0 :=
  ⟨rfl, by decide, by decide, by decide, by decide⟩

/-! ## The primitive codecs -/

theorem lor_shiftLeft (a b k : Nat) (hb : b < 2 ^ k) : b ||| (a <<< k) = a * 2 ^ k + b := by
  rw [Nat.shiftLeft_eq, Nat.lor_comm, Nat.mul_comm]
  exact (Nat.mul_add_lt_is_or hb a).symm

theorem netBytes_length (k v : Nat) : (netBytes k v).length = k := by
  induction k with
  | zero => rfl
  | succ k ih => simp [netBytes, ih]

theorem netBytes_two (v : Nat) : netBytes 2 v = enc16 v := by
  simp [netBytes, enc16, Nat.shiftRight_eq_div_pow]

theorem Pint8_net (v : Nat) (c : Cur) (h : 1 ≤ c.rest.length) :
    Pint8 (Fin.ofNat v) c = some (c.put (netBytes 1 v)) := by
  rw [Pint8_put _ _ h]
  simp [netBytes]

theorem Gint8_net (v : Nat) (hv : v < 2 ^ 8) (r : List Byte) :
    (Gint8 (some (netBytes 1 v ++ r))).map (fun x => (x.1.val, x.2)) = some (v, some r) := by
  simp only [netBytes, Gint8, List.cons_append, List.nil_append, Option.map_some',
    byte_val_ofNat]
  have e : v / 256 ^ 0 % 256 = v := by norm_num; omega
  rw [e]

theorem Pint16_net (v : Nat) (c : Cur) (h : 2 ≤ c.rest.length) :
    Pint16 v c = some (c.put (netBytes 2 v)) := by
  rw [Pint16_put _ _ h, netBytes_two]

theorem Gint16_net (v : Nat) (hv : v < 2 ^ 16) (r : List Byte) :
    Gint16 (some (netBytes 2 v ++ r)) = some (v, some r) := by
  rw [netBytes_two, Gint16_enc16 _ (by omega)]

theorem Pint32_net (v : Nat) (c : Cur) (h : 4 ≤ c.rest.length) :
    Pint32 v c = some (c.put (netBytes 4 v)) := by
  obtain ⟨d, r⟩ := c
  match r, h with
  | a :: b :: c :: e :: r, _ =>
    simp [Pint32, Cur.put, netBytes, Nat.shiftRight_eq_div_pow]

theorem Gint32_net (v : Nat) (hv : v < 2 ^ 32) (r : List Byte) :
    Gint32 (some (netBytes 4 v ++ r)) = some (v, some r) := by
  simp only [netBytes, List.cons_append, List.nil_append, Gint32, byte_val_ofNat]
  rw [lor_shiftLeft _ _ 8 (by omega), lor_shiftLeft _ _ 16 (by omega),
    lor_shiftLeft _ _ 24 (by omega)]
  norm_num
  omega

theorem Pint48_net (v : Nat) (c : Cur) (h : 6 ≤ c.rest.length) :
    Pint48 v c = some (c.put (netBytes 6 v)) := by
  obtain ⟨d, r⟩ := c
  match r, h with
  | _ :: _ :: _ :: _ :: _ :: _ :: r, _ =>
    simp [Pint48, Cur.put, netBytes, Nat.shiftRight_eq_div_pow]

theorem Gint48_net (v : Nat) (hv : v < 2 ^ 48) (r : List Byte) :
    Gint48 (some (netBytes 6 v ++ r)) = some (v, some r) := by
  simp only [netBytes, List.cons_append, List.nil_append, Gint48, byte_val_ofNat]
  rw [lor_shiftLeft _ _ 8 (by omega), lor_shiftLeft _ _ 16 (by omega),
    lor_shiftLeft _ _ 24 (by omega), lor_shiftLeft _ _ 32 (by omega),
    lor_shiftLeft _ _ 40 (by omega)]
  norm_num
  omega

theorem Pint64_net (v : Nat) (c : Cur) (h : 8 ≤ c.rest.length) :
    Pint64 v c = some (c.put (netBytes 8 v)) := by
  obtain ⟨d, r⟩ := c
  match r, h with
  | _ :: _ :: _ :: _ :: _ :: _ :: _ :: _ :: r, _ =>
    simp [Pint64, Cur.put, netBytes, Nat.shiftRight_eq_div_pow]

theorem Gint64_net (v : Nat) (hv : v < 2 ^ 64) (r : List Byte) :
    Gint64 (some (netBytes 8 v ++ r)) = some (v, some r) := by
  simp only [netBytes, List.cons_append, List.nil_append, Gint64, byte_val_ofNat]
  rw [lor_shiftLeft _ _ 8 (by omega), lor_shiftLeft _ _ 16 (by omega),
    lor_shiftLeft _ _ 24 (by omega), lor_shiftLeft _ _ 32 (by omega),
    lor_shiftLeft _ _ 40 (by omega), lor_shiftLeft _ _ 48 (by omega),
    lor_shiftLeft _ _ 56 (by omega)]
  norm_num
  omega

theorem after_put (c : Cur) (bs : List Byte) :
    c.after (c.put bs) = some (bs ++ (c.put bs).rest) := by
  simp [Cur.after, Cur.put, Cur.all]

/-- C21: for each width of 8, 16, 32, 48 and 64 bits, every value `v` below
`2^w` and every buffer with room for it, `Pint_w` writes the bytes of `v` most
significant first and steps over them, and `Gint_w` on the buffer as written
returns `v` and the rest of the buffer; for a string `s` of at most 65535
bytes `Pstr` writes the 16-bit length and the bytes of `s`, and `Gstr` on what
was written returns `s` and the rest; for a byte string `b` of at most 255
bytes `Pvar` writes the 8-bit length and the bytes of `b`, and `Gvar` on what
was written returns `b` and the rest. -/
theorem primitive_codecs_round_trip (v : Nat) (s b : List Byte) (c : Cur) :
    (v < 2 ^ 8 → 1 ≤ c.rest.length →
      Pint8 (Fin.ofNat v) c = some (c.put (netBytes 1 v)) ∧
      (Gint8 (c.after (c.put (netBytes 1 v)))).map (fun x => (x.1.val, x.2))
        = some (v, some (c.put (netBytes 1 v)).rest)) ∧
    (v < 2 ^ 16 → 2 ≤ c.rest.length →
      Pint16 v c = some (c.put (netBytes 2 v)) ∧
      Gint16 (c.after (c.put (netBytes 2 v))) = some (v, some (c.put (netBytes 2 v)).rest)) ∧
    (v < 2 ^ 32 → 4 ≤ c.rest.length →
      Pint32 v c = some (c.put (netBytes 4 v)) ∧
      Gint32 (c.after (c.put (netBytes 4 v))) = some (v, some (c.put (netBytes 4 v)).rest)) ∧
    (v < 2 ^ 48 → 6 ≤ c.rest.length →
      Pint48 v c = some (c.put (netBytes 6 v)) ∧
      Gint48 (c.after (c.put (netBytes 6 v))) = some (v, some (c.put (netBytes 6 v)).rest)) ∧
    (v < 2 ^ 64 → 8 ≤ c.rest.length →
      Pint64 v c = some (c.put (netBytes 8 v)) ∧
      Gint64 (c.after (c.put (netBytes 8 v))) = some (v, some (c.put (netBytes 8 v)).rest)) ∧
    (s.length ≤ 65535 → 2 + s.length ≤ c.rest.length →
      Pstr s c = some (c.put (netBytes 2 s.length ++ s)) ∧
      Gstr (c.after (c.put (netBytes 2 s.length ++ s)))
        = some (s, some (c.put (netBytes 2 s.length ++ s)).rest)) ∧
    (b.length ≤ 255 → 1 + b.length ≤ c.rest.length →
      Pvar b c = some (c.put (netBytes 1 b.length ++ b)) ∧
      Gvar (c.after (c.put (netBytes 1 b.length ++ b)))
        = some (some b, some (c.put (netBytes 1 b.length ++ b)).rest)) := by
  refine ⟨?_, ?_, ?_, ?_, ?_, ?_, ?_⟩
  · intro hv h
    exact ⟨Pint8_net v c h, by rw [after_put]; exact Gint8_net v hv _⟩
  · intro hv h
    exact ⟨Pint16_net v c h, by rw [after_put]; exact Gint16_net v hv _⟩
  · intro hv h
    exact ⟨Pint32_net v c h, by rw [after_put]; exact Gint32_net v hv _⟩
  · intro hv h
    exact ⟨Pint48_net v c h, by rw [after_put]; exact Gint48_net v hv _⟩
  · intro hv h
    exact ⟨Pint64_net v c h, by rw [after_put]; exact Gint64_net v hv _⟩
  · intro hs h
    have e : netBytes 2 s.length ++ s = encStr s := by rw [netBytes_two]; rfl
    rw [e]
    exact ⟨Pstr_put s c (by omega) (by omega), by rw [after_put]; exact Gstr_encStr s _ (by omega)⟩
  · intro hb h
    have e : netBytes 1 b.length ++ b = encVar b := by simp [netBytes, encVar]
    rw [e]
    exact ⟨Pvar_put b c (by omega) (by omega), by rw [after_put]; exact Gvar_encVar b _ (by omega)⟩

/-- C21, witness: the value 200, the string "hello" and the byte string
"hello" written at a cursor with 30 bytes of room. -/
theorem primitive_codecs_round_trip_witness :
    (Pint8 (Fin.ofNat 200) cur30 = some (cur30.put (netBytes 1 200)) ∧
      (Gint8 (cur30.after (cur30.put (netBytes 1 200)))).map (fun x => (x.1.val, x.2))
        = some (200, some (cur30.put (netBytes 1 200)).rest)) ∧
    (Pint64 200 cur30 = some (cur30.put (netBytes 8 200)) ∧
      Gint64 (cur30.after (cur30.put (netBytes 8 200)))
        = some (200, some (cur30.put (netBytes 8 200)).rest)) ∧
    (Pstr (gostr "hello") cur30
        = some (cur30.put (netBytes 2 (gostr "hello").length ++ gostr "hello")) ∧
      Gstr (cur30.after (cur30.put (netBytes 2 (gostr "hello").length ++ gostr "hello")))
        = some (gostr "hello",
            some (cur30.put (netBytes 2 (gostr "hello").length ++ gostr "hello")).rest)) :=
  ⟨(primitive_codecs_round_trip 200 (gostr "hello") (gostr "hello") cur30).1
      (by decide) (by decide),
   (primitive_codecs_round_trip 200 (gostr "hello") (gostr "hello") cur30).2.2.2.2.1
      (by decide) (by decide),
   (primitive_codecs_round_trip 200 (gostr "hello") (gostr "hello") cur30).2.2.2.2.2.1
      (by decide) (by decide)⟩

/-! ## Zeroscore and the text form of a score -/

/-- C22: `Zeroscore` is the SHA-1 digest of the empty byte sequence, and has
the 20 bytes of a score. -/
theorem Zeroscore_is_sha1_of_empty :
    Zeroscore = some (Vtmm.sha1 []) ∧ Zeroscore.len = Scoresize :=
  ⟨by rfl, by rfl⟩

/-- C29, on the code: the two distinct 20-byte scores 01 23 00 .. 00 and
12 03 00 .. 00 both format to "123" followed by eighteen "0", a string of 21
characters and not of 40: `%x` prints a byte below 16 as one digit. -/
theorem Score_String_drops_leading_zero :
    scoreA.length = 20 ∧ scoreB.length = 20 ∧ scoreA ≠ scoreB ∧
    Score.String (some scoreA) = some (gostr "123000000000000000000") ∧
    Score.String (some scoreB) = some (gostr "123000000000000000000") ∧
    (gostr "123000000000000000000").length = 21 :=
  ⟨by rfl, by rfl, by decide, by rfl, by rfl, by rfl⟩

end Vt

/-! ## Client engine -/

namespace Vtclnt
open Vt


theorem seg_congr (h h2 : Ptr → Req) (xs : List Ptr)
    (hx : ∀ x ∈ xs, (h2 x).prev = (h x).prev ∧ (h2 x).next = (h x).next) :
    ∀ p f l n, Seg h p f xs l n → Seg h2 p f xs l n := by
  induction xs with
  | nil => intro p f l n hs; exact hs
  | cons x xs ih =>
    intro p f l n hs
    obtain ⟨h1, h3, h4⟩ := hs
    have hxx := hx x (List.mem_cons_self _ _)
    refine ⟨h1, by rw [hxx.1]; exact h3, ?_⟩
    rw [hxx.2]
    exact ih (fun y hy => hx y (List.mem_cons_of_mem _ hy)) _ _ _ _ h4

theorem seg_append (h : Ptr → Req) (l1 l2 : List Ptr) :
    ∀ p f l n, Seg h p f (l1 ++ l2) l n ↔ ∃ m k, Seg h p f l1 m k ∧ Seg h m k l2 l n := by
  induction l1 with
  | nil =>
    intro p f l n
    constructor
    · intro hs; exact ⟨p, f, ⟨rfl, rfl⟩, hs⟩
    · rintro ⟨m, k, ⟨h1, h2⟩, hs⟩
      subst h1 h2
      exact hs
  | cons x l1 ih =>
    intro p f l n
    constructor
    · rintro ⟨h1, h2, h3⟩
      obtain ⟨m, k, ha, hb⟩ := (ih _ _ _ _).1 h3
      exact ⟨m, k, ⟨h1, h2, ha⟩, hb⟩
    · rintro ⟨m, k, ⟨h1, h2, ha⟩, hb⟩
      exact ⟨h1, h2, (ih _ _ _ _).2 ⟨m, k, ha, hb⟩⟩

/-- The scan stops at the first envelope carrying the tag. -/
theorem findReq_hit (h : Ptr → Req) (t : Byte) (l1 : List Ptr) (r : Ptr) (l2 : List Ptr)
    (ht : (h r).tag = t) :
    ∀ p f l n fuel, Seg h p f (l1 ++ r :: l2) l n → (∀ x ∈ l1, (h x).tag ≠ t) →
      l1.length + 1 ≤ fuel → findReq h t fuel f = some (some r) := by
  induction l1 with
  | nil =>
    intro p f l n fuel hs _ hf
    obtain ⟨h1, _, _⟩ := hs
    subst h1
    cases fuel with
    | zero => omega
    | succ k => simp [findReq, ht]
  | cons x l1 ih =>
    intro p f l n fuel hs hne hf
    obtain ⟨h1, _, h3⟩ := hs
    subst h1
    cases fuel with
    | zero => simp at hf
    | succ k =>
      have hx : (h x).tag ≠ t := hne x (List.mem_cons_self _ _)
      simp only [findReq, if_neg hx]
      exact ih _ _ _ _ k h3 (fun y hy => hne y (List.mem_cons_of_mem _ hy))
        (by simp at hf; omega)

/-- The scan ends at nil when no envelope carries the tag. -/
theorem findReq_miss (h : Ptr → Req) (t : Byte) (xs : List Ptr) :
    ∀ p f l fuel, Seg h p f xs l none → (∀ x ∈ xs, (h x).tag ≠ t) →
      xs.length ≤ fuel → findReq h t fuel f = some none := by
  induction xs with
  | nil =>
    intro p f l fuel hs _ _
    obtain ⟨h1, _⟩ := hs
    subst h1
    cases fuel <;> rfl
  | cons x xs ih =>
    intro p f l fuel hs hne hf
    obtain ⟨h1, _, h3⟩ := hs
    subst h1
    cases fuel with
    | zero => simp at hf
    | succ k =>
      have hx : (h x).tag ≠ t := hne x (List.mem_cons_self _ _)
      simp only [findReq, if_neg hx]
      exact ih _ _ _ k h3 (fun y hy => hne y (List.mem_cons_of_mem _ hy))
        (by simp at hf; omega)

theorem seg_snoc (h : Ptr → Req) (l : List Ptr) (q : Ptr) (p f m k : Option Ptr) :
    Seg h p f (l ++ [q]) m k ↔
      ∃ m2, Seg h p f l m2 (some q) ∧ (h q).prev = m2 ∧ (h q).next = k ∧ m = some q := by
  rw [seg_append]
  constructor
  · rintro ⟨m2, k2, ha, hk, hp, hn, hm⟩
    subst hk
    exact ⟨m2, ha, hp, hn, hm⟩
  · rintro ⟨m2, ha, hp, hn, hm⟩
    exact ⟨m2, some q, ha, rfl, hp, hn, hm⟩

@[simp] theorem setReq_heap_same (s : Clnt) (r : Ptr) (q : Req) : (s.setReq r q).heap r = q := by
  simp [Clnt.setReq]

theorem setReq_heap_ne (s : Clnt) (r x : Ptr) (q : Req) (hx : x ≠ r) :
    (s.setReq r q).heap x = s.heap x := by
  simp [Clnt.setReq, Function.update_noteq hx]

/-- Unlinking an envelope of the pending list leaves the list without it. -/
theorem unlink_pending (s : Clnt) (l1 : List Ptr) (r : Ptr) (l2 : List Ptr)
    (hp : Pending s (l1 ++ r :: l2)) (hnd : (l1 ++ r :: l2).Nodup) :
    Pending (unlink s r) (l1 ++ l2) := by
  unfold Pending at hp ⊢
  rw [seg_append] at hp
  obtain ⟨m, k, ha, hk, hprev, hb⟩ := hp
  subst hk
  have hr1 : r ∉ l1 := by
    intro hmem
    have := List.nodup_append.1 hnd
    exact this.2.2 hmem (List.mem_cons_self _ _)
  have hr2 : r ∉ l2 := by
    have := (List.nodup_append.1 hnd).2.1
    exact (List.nodup_cons.1 this).1
  have hd12 : ∀ x ∈ l1, x ∉ l2 := by
    intro x hx1 hx2
    exact (List.nodup_append.1 hnd).2.2 hx1 (List.mem_cons_of_mem _ hx2)
  rcases List.eq_nil_or_concat l1 with hl1 | ⟨l1b, q, hl1⟩
  · -- the envelope is the head of the list
    subst hl1
    obtain ⟨hf, hm⟩ := ha
    subst hm
    cases l2 with
    | nil =>
      obtain ⟨hn, hl⟩ := hb
      simp only [unlink, hprev, hn, List.append_nil]
      exact ⟨rfl, rfl⟩
    | cons n l2b =>
      obtain ⟨hn, hnp, hb2⟩ := hb
      have hnr : n ≠ r := by
        intro e; exact hr2 (e ▸ List.mem_cons_self _ _)
      have hn2 : n ∉ l2b := by
        have := (List.nodup_append.1 hnd).2.1
        exact (List.nodup_cons.1 (List.nodup_cons.1 this).2).1
      simp only [unlink, hprev, hn, List.nil_append]
      refine ⟨rfl, by simp, ?_⟩
      simp only [setReq_heap_same]
      refine seg_congr s.heap _ l2b ?_ _ _ _ _ hb2
      intro x hx
      have hxn : x ≠ n := fun e => hn2 (e ▸ hx)
      simp [Clnt.setReq, Function.update_noteq hxn]
  · -- the envelope has a predecessor `q`
    subst hl1
    rw [List.concat_eq_append] at ha hr1 hd12 ⊢
    rw [seg_snoc] at ha
    obtain ⟨m2, ha1, hqp, hqn, hm⟩ := ha
    subst hm
    have hqr : q ≠ r := fun e => hr1 (by simp [e])
    have hrq : r ≠ q := fun e => hqr e.symm
    have hq1 : q ∉ l1b := by
      have := (List.nodup_append.1 hnd).1
      rw [List.concat_eq_append] at this
      have h3 := (List.nodup_append.1 this).2.2
      intro hq
      exact h3 hq (List.mem_singleton_self q)
    have hseg1 : ∀ (h2 : Ptr → Req), (∀ x ∈ l1b, h2 x = s.heap x) →
        Seg h2 none s.reqfirst l1b m2 (some q) := by
      intro h2 hh
      exact seg_congr s.heap h2 l1b (fun x hx => by rw [hh x hx]; exact ⟨rfl, rfl⟩) _ _ _ _ ha1
    cases l2 with
    | nil =>
      obtain ⟨hn, hl⟩ := hb
      simp only [unlink, hprev, hn, List.append_nil, setReq_heap_ne _ _ _ _ hrq]
      rw [seg_snoc]
      refine ⟨m2, ?_, by simp [hqp], by simp, rfl⟩
      exact hseg1 _ (fun x hx => setReq_heap_ne _ _ _ _ (fun (e : x = q) => hq1 (e ▸ hx)))
    | cons n l2b =>
      obtain ⟨hn, hnp, hb2⟩ := hb
      have hnr : n ≠ r := fun e => hr2 (e ▸ List.mem_cons_self _ _)
      have hnq : n ≠ q := by
        intro e
        exact hd12 q (by simp) (e ▸ List.mem_cons_self _ _)
      have hqn2 : q ≠ n := fun e => hnq e.symm
      have hn2 : n ∉ l2b := by
        have := (List.nodup_append.1 hnd).2.1
        exact (List.nodup_cons.1 (List.nodup_cons.1 this).2).1
      have hn1 : n ∉ l1b := by
        intro hx
        exact hd12 n (by simp [hx]) (List.mem_cons_self _ _)
      have hq2 : q ∉ l2b := by
        intro hx
        exact hd12 q (by simp) (List.mem_cons_of_mem _ hx)
      simp only [unlink, hprev, hn, setReq_heap_ne _ _ _ _ hrq]
      rw [seg_append]
      refine ⟨some q, some n, ?_, rfl, ?_, ?_⟩
      · rw [seg_snoc]
        refine ⟨m2, ?_, ?_, ?_, rfl⟩
        · refine hseg1 _ (fun x hx => ?_)
          rw [setReq_heap_ne _ _ _ _ (fun (e : x = n) => hn1 (e ▸ hx)),
            setReq_heap_ne _ _ _ _ (fun (e : x = q) => hq1 (e ▸ hx))]
        · rw [setReq_heap_ne _ _ _ _ hqn2]; simp [hqp]
        · rw [setReq_heap_ne _ _ _ _ hqn2]; simp
      · simp
      · simp only [setReq_heap_same]
        rw [setReq_heap_ne _ _ _ _ hnq]
        refine seg_congr s.heap _ l2b ?_ _ _ _ _ hb2
        intro x hx
        rw [setReq_heap_ne _ _ _ _ (fun (e : x = n) => hn2 (e ▸ hx)),
          setReq_heap_ne _ _ _ _ (fun (e : x = q) => hq2 (e ▸ hx))]
        exact ⟨rfl, rfl⟩

theorem unlink_payload (s : Clnt) (r x : Ptr) :
    { (unlink s r).heap x with next := none, prev := none }
      = { s.heap x with next := none, prev := none } := by
  unfold unlink
  cases hp : (s.heap r).prev with
  | none =>
    simp only []
    cases hn : (s.heap r).next with
    | none => rfl
    | some n =>
      simp only []
      by_cases hx : x = n
      · subst hx; simp
      · simp [setReq_heap_ne _ _ _ _ hx]
  | some p =>
    simp only []
    cases hn : ((s.setReq p { s.heap p with next := (s.heap r).next }).heap r).next with
    | none =>
      simp only []
      by_cases hx : x = p
      · subst hx; simp
      · simp [setReq_heap_ne _ _ _ _ hx]
    | some n =>
      simp only []
      by_cases hx : x = n
      · subst hx
        simp only [setReq_heap_same]
        by_cases hx2 : x = p
        · subst hx2; simp
        · simp [setReq_heap_ne _ _ _ _ hx2]
      · rw [setReq_heap_ne _ _ _ _ hx]
        by_cases hx2 : x = p
        · subst hx2; simp
        · simp [setReq_heap_ne _ _ _ _ hx2]

theorem unlink_fields (s : Clnt) (r : Ptr) :
    (unlink s r).sent = s.sent ∧ (unlink s r).err = s.err ∧
    (unlink s r).reqchan = s.reqchan ∧ (unlink s r).tagpool = s.tagpool := by
  unfold unlink
  cases (s.heap r).prev <;> simp only [] <;>
    split <;> simp [Clnt.setReq]

theorem pending_setReq (s : Clnt) (ys : List Ptr) (r : Ptr) (q : Req)
    (hp : Pending s ys) (hr : r ∉ ys) : Pending (s.setReq r q) ys := by
  unfold Pending at hp ⊢
  refine seg_congr s.heap _ ys ?_ _ _ _ _ hp
  intro x hx
  rw [setReq_heap_ne _ _ _ _ (fun (e : x = r) => hr (e ▸ hx))]
  exact ⟨rfl, rfl⟩

theorem pending_ReqFree (s : Clnt) (ys : List Ptr) (r : Ptr)
    (hp : Pending s ys) (hr : r ∉ ys) : Pending (ReqFree s r) ys := by
  have := pending_setReq s ys r
    { s.heap r with Tc := (s.heap r).Tc.Clear, Rc := (s.heap r).Rc.Clear, Err := none,
                    Done := none, next := none, prev := none } hp hr
  unfold ReqFree
  simp only []
  split_ifs <;> exact this

/-- Where the envelope with tag `t` sits in a list with distinct tags. -/
theorem split_at_tag (s : Clnt) (xs : List Ptr) (t : Byte) (r : Ptr)
    (hd : (tagsOf s xs).Nodup) (hr : r ∈ xs) (ht : (s.heap r).tag = t) :
    ∃ l1 l2, xs = l1 ++ r :: l2 ∧ (∀ x ∈ l1, (s.heap x).tag ≠ t) ∧ xs.erase r = l1 ++ l2 ∧
      r ∉ l1 ++ l2 := by
  obtain ⟨l1, l2, hx⟩ := List.append_of_mem hr
  subst hx
  have hnd : (l1 ++ r :: l2).Nodup := List.Nodup.of_map _ hd
  have hr1 : r ∉ l1 := fun hm => (List.nodup_append.1 hnd).2.2 hm (List.mem_cons_self _ _)
  have hr2 : r ∉ l2 := (List.nodup_cons.1 (List.nodup_append.1 hnd).2.1).1
  refine ⟨l1, l2, rfl, ?_, ?_, ?_⟩
  · intro x hx hxt
    unfold tagsOf at hd
    rw [List.map_append, List.map_cons] at hd
    have hdis := (List.nodup_append.1 hd).2.2
    exact hdis (List.mem_map.2 ⟨x, hx, rfl⟩) (by rw [hxt, ht]; exact List.mem_cons_self _ _)
  · rw [List.erase_append_right _ hr1, List.erase_cons_head]
  · simp [hr1, hr2]

theorem matchReq_hit (s : Clnt) (xs : List Ptr) (t : Byte) (fuel : Nat) (r : Ptr)
    (hp : Pending s xs) (hd : (tagsOf s xs).Nodup) (hfuel : xs.length ≤ fuel)
    (hr : r ∈ xs) (ht : (s.heap r).tag = t) :
    matchReq fuel s t = some (unlink s r, some r) ∧ Pending (unlink s r) (xs.erase r) := by
  obtain ⟨l1, l2, hx, hne, he, _⟩ := split_at_tag s xs t r hd hr ht
  have hnd : xs.Nodup := List.Nodup.of_map _ hd
  subst hx
  have hf := findReq_hit s.heap t l1 r l2 ht _ _ _ _ fuel hp hne
    (by simp at hfuel; omega)
  refine ⟨by simp [matchReq, hf], ?_⟩
  rw [he]
  exact unlink_pending s l1 r l2 hp hnd

theorem matchReq_miss (s : Clnt) (xs : List Ptr) (t : Byte) (fuel : Nat)
    (hp : Pending s xs) (hfuel : xs.length ≤ fuel) (hne : ∀ r ∈ xs, (s.heap r).tag ≠ t) :
    matchReq fuel s t = some (s, none) := by
  have hf := findReq_miss s.heap t xs _ _ _ fuel hp hne hfuel
  simp [matchReq, hf]


theorem pairReply_Rc (q : Req) : (pairReply q).Rc = q.Rc := by
  unfold pairReply
  split_ifs <;> rfl

theorem pairReply_Done (q : Req) : (pairReply q).Done = q.Done := by
  unfold pairReply
  split_ifs <;> rfl

theorem pairReply_tag (q : Req) : (pairReply q).tag = q.tag := by
  unfold pairReply
  split_ifs <;> rfl

theorem unlink_done_tag (s : Clnt) (r x : Ptr) :
    ((unlink s r).heap x).Done = (s.heap x).Done ∧ ((unlink s r).heap x).tag = (s.heap x).tag := by
  have h := unlink_payload s r x
  have h1 := congrArg Req.Done h
  have h2 := congrArg Req.tag h
  exact ⟨h1, h2⟩

theorem ReqFree_heap_ne (s : Clnt) (r x : Ptr) (hx : x ≠ r) : (ReqFree s r).heap x = s.heap x := by
  unfold ReqFree
  simp only []
  split_ifs <;> exact setReq_heap_ne _ _ _ _ hx

/-- The tags of envelopes that keep their payload stay the same. -/
theorem tagsOf_congr (s s2 : Clnt) (ys : List Ptr)
    (h : ∀ x ∈ ys, { s2.heap x with next := none, prev := none }
                    = { s.heap x with next := none, prev := none }) :
    tagsOf s2 ys = tagsOf s ys := by
  unfold tagsOf
  apply List.map_congr_left
  intro x hx
  have e := congrArg Req.tag (h x hx)
  exact e

theorem pairReply_Tc (q : Req) : (pairReply q).Tc = q.Tc := by
  unfold pairReply
  split_ifs <;> rfl

/-- The pairing rule reads the request, the reply and the error slot only. -/
theorem pairReply_Err_congr (q q2 : Req) (h1 : q.Tc = q2.Tc) (h2 : q.Rc = q2.Rc)
    (h3 : q.Err = q2.Err) : (pairReply q).Err = (pairReply q2).Err := by
  unfold pairReply
  rw [h1, h2, h3]
  split_ifs <;> simp only [h2, h3]

theorem unlink_err (s : Clnt) (r x : Ptr) : ((unlink s r).heap x).Err = (s.heap x).Err := by
  have e := congrArg Req.Err (unlink_payload s r x)
  exact e

/-- The receive step on a frame that decodes without error and carries the tag
of a pending envelope: the reply is delivered to that envelope. -/
theorem recvReply_delivers (s : Clnt) (xs : List Ptr) (fuel : Nat) (b0 b1 b2 t : Byte)
    (rest : List Byte) (hp : Pending s xs) (hd : (tagsOf s xs).Nodup) (hfuel : xs.length ≤ fuel)
    (r : Ptr) (hr : r ∈ xs) (ht : (s.heap r).tag = t) (n : Nat) (rc : Call)
    (hu : Unpack (some (b0 :: b1 :: b2 :: t :: rest)) (s.heap r).Rc = some (n, none, rc)) :
    ∃ s2, recvReply fuel s (b0 :: b1 :: b2 :: t :: rest) = some (.next s2 n) ∧
      Pending s2 (xs.erase r) ∧ (tagsOf s2 (xs.erase r)).Nodup ∧
      (∀ x, x ≠ r → { s2.heap x with next := none, prev := none }
                      = { s.heap x with next := none, prev := none }) ∧
      ∀ ch, (s.heap r).Done = some ch →
        s2.sent = s.sent ++ [(ch, r)] ∧ (s2.heap r).Rc = rc ∧ (s2.heap r).tag = t ∧
        (s2.heap r).Tc = (s.heap r).Tc ∧ (s2.heap r).Done = some ch ∧
        (s2.heap r).Err = (pairReply { s.heap r with Rc := rc }).Err := by
  have hslice : Slice.sliceFrom (some (b0 :: b1 :: b2 :: t :: rest)) 3 = some (some (t :: rest)) := by
    simp [Slice.sliceFrom, Slice.len]
  obtain ⟨hm, hpend⟩ := matchReq_hit s xs t fuel r hp hd hfuel hr ht
  have hrn2 : r ∉ xs.erase r := by
    intro hmem
    exact (List.Nodup.mem_erase_iff (List.Nodup.of_map _ hd)).1 hmem |>.1 rfl
  have hpay := unlink_payload s r r
  have hrc : ((unlink s r).heap r).Rc = (s.heap r).Rc := by
    have e := congrArg Req.Rc hpay
    exact e
  have htc : ((unlink s r).heap r).Tc = (s.heap r).Tc := by
    have e := congrArg Req.Tc hpay
    exact e
  obtain ⟨hd1, ht1⟩ := unlink_done_tag s r r
  have hsub : (tagsOf s (xs.erase r)).Nodup :=
    List.Nodup.sublist ((List.erase_sublist r xs).map _) hd
  have hoth : ∀ s2 : Clnt, (∀ x, x ≠ r → s2.heap x = (unlink s r).heap x) →
      ∀ x, x ≠ r → { s2.heap x with next := none, prev := none }
                     = { s.heap x with next := none, prev := none } := by
    intro s2 h x hx
    rw [h x hx]
    exact unlink_payload s r x
  have hnodup : ∀ s2 : Clnt, (∀ x, x ≠ r → s2.heap x = (unlink s r).heap x) →
      (tagsOf s2 (xs.erase r)).Nodup := by
    intro s2 h
    rw [tagsOf_congr s s2 _ (fun x hx => hoth s2 h x (fun e => by subst e; exact hrn2 hx))]
    exact hsub
  simp only [recvReply, hslice, Gint8, hm, Option.bind_eq_bind, Option.some_bind, hrc, hu,
    ne_eq, not_true_eq_false, if_false, setReq_heap_same, pairReply_Done, hd1]
  cases hdone : (s.heap r).Done with
  | none =>
    simp only []
    have hheap : ∀ (q1 q2 : Req) (x : Ptr), x ≠ r →
        (ReqFree (((unlink s r).setReq r q1).setReq r q2) r).heap x = (unlink s r).heap x := by
      intro q1 q2 x hx
      rw [ReqFree_heap_ne _ _ _ hx, setReq_heap_ne _ _ _ _ hx, setReq_heap_ne _ _ _ _ hx]
    refine ⟨_, rfl, ?_, hnodup _ (hheap _ _), hoth _ (hheap _ _), fun ch hch => by simp at hch⟩
    exact pending_ReqFree _ _ _
      (pending_setReq _ _ _ _ (pending_setReq _ _ _ _ hpend hrn2) hrn2) hrn2
  | some ch =>
    simp only []
    have hheap : ∀ (q1 q2 : Req) (x : Ptr), x ≠ r →
        (((unlink s r).setReq r q1).setReq r q2).heap x = (unlink s r).heap x := by
      intro q1 q2 x hx
      rw [setReq_heap_ne _ _ _ _ hx, setReq_heap_ne _ _ _ _ hx]
    refine ⟨_, rfl, ?_, hnodup _ (hheap _ _), hoth _ (hheap _ _), ?_⟩
    · exact pending_setReq _ _ _ _ (pending_setReq _ _ _ _ hpend hrn2) hrn2
    · intro ch2 hch2
      have : ch2 = ch := (Option.some.inj hch2).symm
      subst this
      refine ⟨?_, ?_, ?_, ?_, ?_, ?_⟩
      · simp [Clnt.setReq, (unlink_fields s r).1]
      · simp only [setReq_heap_same, pairReply_Rc]
      · simp only [setReq_heap_same, pairReply_tag]
        rw [ht1, ht]
      · simp only [setReq_heap_same, pairReply_Tc]
        exact htc
      · simp only [setReq_heap_same, pairReply_Done]
      · simp only [setReq_heap_same]
        exact pairReply_Err_congr _ _ htc rfl (unlink_err s r r)

/-- C2: on a pending list with pairwise distinct tags, the receive step (with
fuel for the scan at least the length of the list) selects the envelope whose
tag is the tag `t` of the reply frame, unlinks it and leaves the others linked
in their order, with everything but the links of the envelopes untouched; if no
pending envelope has the tag, the state is unchanged and the connection fails
with "unexpected response"; whenever the step delivers a reply of a whole
frame, it is to the pending envelope with tag `t`, whose `Rc` then carries `t`;
and when an envelope with tag `t` is pending and the frame decodes without
error to the call `rc`, the step does deliver: it consumes the frame, leaves
the other envelopes pending in their order with their tags distinct and their
contents untouched, and sends the envelope, with its request, `rc` as its
reply, the tag `t` and the error that the pairing rule gives for the request
and `rc`, on its completion channel. -/
theorem recv_matches_reply_by_tag (s : Clnt) (xs : List Ptr) (fuel : Nat)
    (b0 b1 b2 t : Byte) (rest : List Byte)
    (hp : Pending s xs) (hd : (tagsOf s xs).Nodup) (hfuel : xs.length ≤ fuel) :
    (∀ r ∈ xs, (s.heap r).tag = t →
        matchReq fuel s t = some (unlink s r, some r) ∧
        Pending (unlink s r) (xs.erase r) ∧
        ∀ x, { (unlink s r).heap x with next := none, prev := none }
              = { s.heap x with next := none, prev := none }) ∧
    ((∀ r ∈ xs, (s.heap r).tag ≠ t) →
        matchReq fuel s t = some (s, none) ∧
        recvReply fuel s (b0 :: b1 :: b2 :: t :: rest)
          = some (.closed { s with connClosed := true }
              (some ⟨gostr "unexpected response"⟩))) ∧
    (b0.val * 256 + b1.val ≤ rest.length + 2 →
      ∀ s2 csz, recvReply fuel s (b0 :: b1 :: b2 :: t :: rest) = some (.next s2 csz) →
        ∃ r ∈ xs, (s.heap r).tag = t ∧ Pending s2 (xs.erase r) ∧
          ∀ ch, (s.heap r).Done = some ch →
            s2.sent = s.sent ++ [(ch, r)] ∧ (s2.heap r).Rc.Tag = t ∧ (s2.heap r).tag = t) ∧
    (∀ r ∈ xs, (s.heap r).tag = t → ∀ n rc,
      Unpack (some (b0 :: b1 :: b2 :: t :: rest)) (s.heap r).Rc = some (n, none, rc) →
        ∃ s2, recvReply fuel s (b0 :: b1 :: b2 :: t :: rest) = some (.next s2 n) ∧
          Pending s2 (xs.erase r) ∧ (tagsOf s2 (xs.erase r)).Nodup ∧
          (∀ x, x ≠ r → { s2.heap x with next := none, prev := none }
                          = { s.heap x with next := none, prev := none }) ∧
          ∀ ch, (s.heap r).Done = some ch →
            s2.sent = s.sent ++ [(ch, r)] ∧ (s2.heap r).Rc = rc ∧ (s2.heap r).tag = t ∧
            (s2.heap r).Tc = (s.heap r).Tc ∧ (s2.heap r).Done = some ch ∧
            (s2.heap r).Err = (pairReply { s.heap r with Rc := rc }).Err) := by
  have hslice : Slice.sliceFrom (some (b0 :: b1 :: b2 :: t :: rest)) 3 = some (some (t :: rest)) := by
    simp [Slice.sliceFrom, Slice.len]
  refine ⟨?_, ?_, ?_, ?_⟩
  · intro r hr ht
    obtain ⟨h1, h2⟩ := matchReq_hit s xs t fuel r hp hd hfuel hr ht
    exact ⟨h1, h2, unlink_payload s r⟩
  · intro hne
    have hm := matchReq_miss s xs t fuel hp hfuel hne
    refine ⟨hm, ?_⟩
    simp [recvReply, hslice, Gint8, hm]
  · intro hsz s2 csz hrecv
    by_cases hex : ∃ r ∈ xs, (s.heap r).tag = t
    · obtain ⟨r, hr, ht⟩ := hex
      obtain ⟨hm, hpend⟩ := matchReq_hit s xs t fuel r hp hd hfuel hr ht
      obtain ⟨_, _, _, _, _, hrn⟩ := split_at_tag s xs t r hd hr ht
      have hrn2 : r ∉ xs.erase r := by
        intro hmem
        exact (List.Nodup.mem_erase_iff (List.Nodup.of_map _ hd)).1 hmem |>.1 rfl
      refine ⟨r, hr, ht, ?_⟩
      simp only [recvReply, hslice, Gint8, hm, Option.bind_eq_bind, Option.some_bind] at hrecv
      cases hu : Unpack (some (b0 :: b1 :: b2 :: t :: rest)) ((unlink s r).heap r).Rc with
      | none => rw [hu] at hrecv; simp at hrecv
      | some res =>
        obtain ⟨n, err, rc⟩ := res
        rw [hu] at hrecv
        simp only [Option.some_bind] at hrecv
        cases err with
        | some e => simp at hrecv
        | none =>
          have htag := Unpack_tag b0 b1 b2 t rest _ rc n hsz hu
          simp only [ne_eq, not_true_eq_false, if_false, setReq_heap_same] at hrecv
          obtain ⟨hd1, ht1⟩ := unlink_done_tag s r r
          cases hdone : (s.heap r).Done with
          | none =>
            simp only [pairReply_Done, hd1, hdone] at hrecv
            have hs2 := (Step.next.inj (Option.some.inj hrecv)).1
            refine ⟨?_, fun ch hch => by simp at hch⟩
            rw [← hs2]
            exact pending_ReqFree _ _ _
              (pending_setReq _ _ _ _ (pending_setReq _ _ _ _ hpend hrn2) hrn2) hrn2
          | some ch =>
            simp only [pairReply_Done, hd1, hdone] at hrecv
            have hs2 := (Step.next.inj (Option.some.inj hrecv)).1
            refine ⟨?_, ?_⟩
            · rw [← hs2]
              exact pending_setReq _ _ _ _ (pending_setReq _ _ _ _ hpend hrn2) hrn2
            · intro ch2 hch2
              have : ch2 = ch := (Option.some.inj hch2).symm
              subst this
              rw [← hs2]
              refine ⟨?_, ?_, ?_⟩
              · simp [Clnt.setReq, (unlink_fields s r).1]
              · simp only [setReq_heap_same, pairReply_Rc]
                exact htag
              · simp only [setReq_heap_same, pairReply_tag]
                rw [ht1, ht]
    · have hne : ∀ r ∈ xs, (s.heap r).tag ≠ t := fun r hr ht => hex ⟨r, hr, ht⟩
      have hm := matchReq_miss s xs t fuel hp hfuel hne
      simp [recvReply, hslice, Gint8, hm] at hrecv
  · intro r hr ht n rc hu
    exact recvReply_delivers s xs fuel b0 b1 b2 t rest hp hd hfuel r hr ht n rc hu

/-- C2, witness: with the envelopes 0, 1, 2 (Tping requests with the tags 5,
6, 7, completion channel 0) pending, the frame 00 02 03 06, an Rping with tag
6, selects envelope 1, leaves 0 and 2 linked, and is delivered: envelope 1 is
sent on channel 0 with an Rping of tag 6 as its reply and no error. -/
theorem recv_matches_reply_by_tag_witness :
    Pending clnt3 [0, 1, 2] ∧ (tagsOf clnt3 [0, 1, 2]).Nodup ∧ [0, 1, 2].length ≤ 3 ∧
    (clnt3.heap 1).tag = 6 ∧ (clnt3.heap 1).Done = some 0 ∧
    Unpack (some [0, 2, Rping, 6]) (clnt3.heap 1).Rc
      = some (4, none, { Pkt := some [0, 2, Rping, 6], Id := Rping, Tag := 6 }) ∧
    matchReq 3 clnt3 6 = some (unlink clnt3 1, some 1) ∧
    Pending (unlink clnt3 1) [0, 2] ∧
    ∃ s2, recvReply 3 clnt3 [0, 2, Rping, 6] = some (.next s2 4) ∧
      Pending s2 [0, 2] ∧ s2.sent = [(0, 1)] ∧
      (s2.heap 1).Rc = { Pkt := some [0, 2, Rping, 6], Id := Rping, Tag := 6 } ∧
      (s2.heap 1).tag = 6 ∧ (s2.heap 1).Tc.Id = Tping ∧ (s2.heap 1).Err = none := by
  have hp : Pending clnt3 [0, 1, 2] := ⟨rfl, rfl, rfl, rfl, rfl, rfl, rfl, rfl⟩
  have hd : (tagsOf clnt3 [0, 1, 2]).Nodup := by decide
  have hu : Unpack (some [0, 2, Rping, 6]) (clnt3.heap 1).Rc
      = some (4, none, { Pkt := some [0, 2, Rping, 6], Id := Rping, Tag := 6 }) := by rfl
  have h := recv_matches_reply_by_tag clnt3 [0, 1, 2] 3 0 2 Rping 6 [] hp hd (by decide)
  obtain ⟨s2, h1, h2, _, _, h3⟩ := h.2.2.2 1 (by decide) rfl 4 _ hu
  obtain ⟨h4, h5, h6, h7, _, h8⟩ := h3 0 rfl
  exact ⟨hp, hd, by decide, rfl, rfl, hu, (h.1 1 (by decide) rfl).1, (h.1 1 (by decide) rfl).2.1,
    s2, h1, h2, h4, h5, h6, by rw [h7]; rfl, by rw [h8]; rfl⟩

/-- Replies out of order: with the same three envelopes pending, the Rping
frames with the tags 6, 7 and 5, received in that order, are each delivered to
the envelope with their tag: the envelopes are sent on the completion channel
in the order 1, 2, 0, each with the reply that has its tag and no error, and
the pending list is empty afterwards. -/
theorem recvReply_out_of_order :
    ∃ s2 s3 s4, recvReply 3 clnt3 [0, 2, Rping, 6] = some (.next s2 4) ∧
      recvReply 3 s2 [0, 2, Rping, 7] = some (.next s3 4) ∧
      recvReply 3 s3 [0, 2, Rping, 5] = some (.next s4 4) ∧
      s4.sent = [(0, 1), (0, 2), (0, 0)] ∧
      (s4.heap 0).Rc = { Pkt := some [0, 2, Rping, 5], Id := Rping, Tag := 5 } ∧
      (s4.heap 1).Rc = { Pkt := some [0, 2, Rping, 6], Id := Rping, Tag := 6 } ∧
      (s4.heap 2).Rc = { Pkt := some [0, 2, Rping, 7], Id := Rping, Tag := 7 } ∧
      ((s4.heap 0).tag, (s4.heap 1).tag, (s4.heap 2).tag) = (5, 6, 7) ∧
      ((s4.heap 0).Err, (s4.heap 1).Err, (s4.heap 2).Err) = (none, none, none) ∧
      Pending s4 [] :=
  ⟨_, _, _, rfl, rfl, rfl, rfl, rfl, rfl, rfl, rfl, rfl, ⟨rfl, rfl⟩⟩

/-- The pairing rule, where it does what the specification says: a reply that
is neither the answer to the request nor an Rerror fails the envelope with
"invalid response", and an Rerror overwrites an error already in the slot. -/
theorem pairReply_spec (q : Req) (h : q.Tc.Id ≠ q.Rc.Id - 1) :
    (q.Rc.Id ≠ Rerror → (pairReply q).Err = some ⟨gostr "invalid response"⟩) ∧
    (q.Rc.Id = Rerror → q.Err ≠ none → (pairReply q).Err = some ⟨q.Rc.Ename⟩) ∧
    (q.Rc.Id = Rerror → q.Err = none → (pairReply q).Err = none) := by
  refine ⟨fun h1 => ?_, fun h1 h2 => ?_, fun h1 h2 => ?_⟩
  · simp only [pairReply, if_pos h, if_pos h1]
  · have h3 : ¬ (q.Rc.Id ≠ Rerror) := fun hn => hn h1
    simp only [pairReply, if_pos h, if_neg h3, if_pos h2]
  · have h3 : ¬ (q.Rc.Id ≠ Rerror) := fun hn => hn h1
    have h4 : ¬ (q.Err ≠ none) := fun hn => hn h2
    simp only [pairReply, if_pos h, if_neg h3, if_neg h4]
    exact h2

/-- C7, on the code: pairing an Rerror reply ("not found") with a Tread whose
error slot is empty leaves the slot empty: the test `req.Err != nil` guards the
assignment of the reply's ename. -/
theorem pairReply_drops_ename_of_Rerror : (pairReply reqNotFound).Err = none := by
  decide

/-- The wait loop of `Sync` started with no error ends with no error, whatever
the envelopes it receives carry. -/
theorem syncWait_nil (n : Nat) (arrivals : List Req) (e : Option Error)
    (h : syncWait none n arrivals = some e) : e = none := by
  induction n generalizing arrivals with
  | zero => simpa [syncWait] using h.symm
  | succ k ih =>
    cases arrivals with
    | nil => simp [syncWait] at h
    | cons a rest =>
      simp only [syncWait, ne_eq, not_true_eq_false, and_false, if_false] at h
      exact ih rest h

/-- C8, on the code: `Sync` on a healthy connection with nothing pending, whose
Tsync completes with the error "arena full", returns no error. -/
theorem Sync_returns_nil_despite_error :
    (Sync 1 clnt0 0 [reqFailed]).map Prod.snd = some none := by
  rfl

/-- C9, on the code: tearing down a connection that has no terminal error yet,
with envelope 0 pending, on the error EOF: the pending list is emptied and the
envelope gets the error, but the terminal error of the connection stays nil, so
a later `Rpcnb` returns no error and links its request. -/
theorem teardown_leaves_err_nil :
    (teardown 1 (Rpcnb clnt0 0).1 (some eEOF)).map afterTeardown
      = some (none, some eEOF, none, none, some 3) := by
  rfl

/-! ## The receive and send loops -/

theorem take_two (n : Nat) (a b : Byte) (l : List Byte) :
    (a :: b :: l).take (n + 2) = a :: b :: l.take n := by
  simp [List.take_succ_cons]

/-- `Unpack` on a buffer of at least 65536 bytes that begins with the size
field 65534 and the id Rread: no error, the count 0 and an empty `Pkt`. -/
theorem Unpack_wraps_long (tag : Byte) (rest : List Byte) (c0 : Call)
    (h : 65532 ≤ rest.length) :
    Unpack (some (255 :: 254 :: Rread :: tag :: rest)) c0
      = some (0, none, { c0 with Pkt := some [], Id := Rread, Tag := tag,
                                 Data := some (rest.take 65532) }) := by
  have hsz : (254 : Byte).val ||| ((255 : Byte).val <<< 8) = 65534 := by decide
  unfold Unpack
  rw [if_neg (by simp only [Slice.len, List.length_cons]; omega)]
  simp only [Gint16, hsz, Option.bind_eq_bind, Option.some_bind]
  rw [if_neg (by simp only [Slice.len, List.length_cons]; omega)]
  simp only [Slice.sliceTo]
  rw [if_pos (by simp only [Slice.len, List.length_cons]; omega),
    if_pos (by simp only [Slice.len, List.length_cons]; omega)]
  simp only [Option.some_bind, Option.map_some']
  have e2 : (65534 : Nat) = 65532 + 2 := by norm_num
  have e0 : (65534 + 2) % 65536 = 0 := by decide
  rw [e0, List.take_zero]
  conv_lhs => rw [e2, take_two]
  simp [Gint8, unpackBody, Rerror, Thello, Rhello, Tread, Rread, Slice.sliceFrom, Slice.len]


theorem clntPing_heap : clntPing.heap 0 = { tag := 5, Tc := { Id := Tping }, Done := some 0 } := by
  simp [clntPing, Rpcnb, Clnt.setReq]

theorem clntPing_first : clntPing.reqfirst = some 0 := rfl

theorem matchReq_clntPing (fuel : Nat) :
    matchReq (fuel + 1) clntPing 5 = some (unlink clntPing 0, some 0) := by
  simp [matchReq, findReq, clntPing_first, clntPing_heap]

/-- The state after the delivery of the reply decoded from a buffer that
begins with the size field 65534. -/
theorem recvReply_wrapped (fuel : Nat) (rest : List Byte) (h : 65532 ≤ rest.length) :
    recvReply (fuel + 1) clntPing (255 :: 254 :: Rread :: 5 :: rest)
      = some (.next
          (let s := unlink clntPing 0
           let s := s.setReq 0 { s.heap 0 with Rc := { (s.heap 0).Rc with
              Pkt := some [], Id := Rread, Tag := 5, Data := some (rest.take 65532) } }
           let s := s.setReq 0 (pairReply (s.heap 0))
           { s with sent := s.sent ++ [(0, 0)] }) 0) := by
  unfold recvReply
  simp only [Slice.sliceFrom, Slice.len, List.length_cons, Option.bind_eq_bind]
  rw [if_pos (by omega)]
  simp only [Option.map_some', Option.some_bind, List.drop_succ_cons, List.drop_zero, Gint8,
    matchReq_clntPing, Unpack_wraps_long _ _ _ h]
  simp [unlink, clntPing_heap, Clnt.setReq, pairReply, Rread, Rerror, Tping]

/-- A pass of `recv` that finds a whole frame within the limit goes on to
match, decode and deliver the reply. -/
theorem recvPass_decode (fuel : Nat) (id : GoString) (s : Clnt) (buf : List Byte) (pos : Int)
    (sz : Nat) (p : Slice) (hpos : pos > 4) (hg : Gint16 (some buf) = some (sz, p))
    (h1 : ¬ (sz + 2) % 65536 > Maxblock) (h2 : ¬ pos < (((sz + 2) % 65536 : Nat) : Int)) :
    recvPass fuel id s buf pos = (recvReply fuel s buf).bind (fun st =>
      match st with
      | .closed s err => some (.closed s err)
      | .next s csz =>
        (Slice.sliceFrom (some buf) csz).bind (fun rest =>
          some (.next s rest.bytes (pos - csz)))) := by
  unfold recvPass
  rw [if_neg (not_not.2 hpos), hg]
  simp only [Option.bind_eq_bind, Option.some_bind]
  rw [if_neg h1, if_neg h2]

theorem Gint16_wrapped (rest : List Byte) :
    Gint16 (some (255 :: 254 :: rest)) = some (65534, some rest) := by
  have hsz : (254 : Byte).val ||| ((255 : Byte).val <<< 8) = 65534 := by decide
  simp only [Gint16, hsz]

/-- A pass of `recv` on a buffer of at least 65536 bytes that begins with the
size field 65534, the id Rread and the pending tag 5. -/
theorem recvPass_wrapped (fuel : Nat) (id : GoString) (rest : List Byte)
    (h : 65532 ≤ rest.length) :
    (recvPass (fuel + 1) id clntPing (255 :: 254 :: Rread :: 5 :: rest) 5).map Pass.observe
      = some ("next", [(0, 0)], false, none, some ⟨gostr "invalid response"⟩, Rread) := by
  rw [recvPass_decode (fuel + 1) id clntPing _ 5 65534 _ (by decide) (Gint16_wrapped _)
    (by decide) (by decide), recvReply_wrapped fuel rest h]
  simp [Slice.sliceFrom, Pass.observe, unlink, clntPing_heap, Clnt.setReq, pairReply, Rread,
    Rerror, Tping, clntPing, Rpcnb]

/-- C26, on the code: on the buffer of a new client that has received the
five bytes ff fe 0d 05 00 (size field 65534, above Maxblock), with a request
pending under the tag 5, the decode step does not fail the connection: it
decodes an Rread reply, completes the pending request (with the error "invalid
response") and goes on. -/
theorem recv_accepts_size_65534 :
    (recvPass 1 (gostr "venti") clntPing oversized 5).map Pass.observe
      = some ("next", [(0, 0)], false, none, some ⟨gostr "invalid response"⟩, Rread) :=
  recvPass_wrapped 0 _ _ (by rw [List.length_replicate]; decide)

theorem recvPass_four (fuel : Nat) (id : GoString) (s : Clnt) (buf : List Byte) :
    recvPass fuel id s buf 4 = some (.read buf) := by
  unfold recvPass
  rw [if_pos (by decide)]

theorem Unpack_rping (c0 : Call) (t : Byte) (rest : List Byte) :
    Unpack (some (0 :: 2 :: Rping :: t :: rest)) c0
      = some (4, none, { c0 with Pkt := some [0, 2, Rping, t], Id := Rping, Tag := t }) := by
  have hsz : (2 : Byte).val ||| ((0 : Byte).val <<< 8) = 2 := by decide
  unfold Unpack
  rw [if_neg (by simp [Slice.len])]
  simp only [Gint16, hsz, Option.bind_eq_bind, Option.some_bind]
  rw [if_neg (by simp [Slice.len])]
  simp only [Slice.sliceTo, Slice.len, List.length_cons]
  rw [if_pos (by omega), if_pos (by omega)]
  simp [Gint8, unpackBody, Rerror, Thello, Rhello, Tread, Rread, Twrite, Rwrite, Tping, Rping,
    Slice.len]

theorem Gint16_two (rest : List Byte) : Gint16 (some (0 :: 2 :: rest)) = some (2, some rest) := by
  have hsz : (2 : Byte).val ||| ((0 : Byte).val <<< 8) = 2 := by decide
  simp only [Gint16, hsz]

/-- With a fifth byte received, the pass delivers the Rping reply. -/
theorem recvPass_rping (fuel : Nat) (id : GoString) (rest : List Byte) :
    (recvPass (fuel + 1) id clntPing (0 :: 2 :: Rping :: 5 :: rest) 5).map Pass.observe
      = some ("next", [(0, 0)], false, none, none, Rping) := by
  have hr : recvReply (fuel + 1) clntPing (0 :: 2 :: Rping :: 5 :: rest)
      = some (.next
          (let s := unlink clntPing 0
           let s := s.setReq 0 { s.heap 0 with Rc := { (s.heap 0).Rc with
              Pkt := some [0, 2, Rping, 5], Id := Rping, Tag := 5 } }
           let s := s.setReq 0 (pairReply (s.heap 0))
           { s with sent := s.sent ++ [(0, 0)] }) 4) := by
    unfold recvReply
    simp only [Slice.sliceFrom, Slice.len, List.length_cons, Option.bind_eq_bind]
    rw [if_pos (by omega)]
    simp only [Option.map_some', Option.some_bind, List.drop_succ_cons, List.drop_zero, Gint8,
      matchReq_clntPing, Unpack_rping]
    simp [unlink, clntPing_heap, Clnt.setReq, pairReply, Rping, Rerror, Tping]
  rw [recvPass_decode (fuel + 1) id clntPing _ 5 2 _ (by decide) (Gint16_two _)
    (by decide) (by decide), hr]
  simp [Slice.sliceFrom, Slice.len, Pass.observe, unlink, clntPing_heap, Clnt.setReq, pairReply,
    Rping, Rerror, Tping, clntPing, Rpcnb]

/-- C27, on the code: on the buffer of a new client that has received exactly
the four bytes of an Rping reply to the pending request (tag 5), the inner
loop stops without decoding it (`pos = 4` fails the test `pos > 4`); the same
frame is decoded and the request completed once a fifth byte has arrived. -/
theorem recv_waits_on_complete_reply :
    recvPass 1 (gostr "venti") clntPing pingReply 4 = some (.read pingReply) ∧
    (recvPass 1 (gostr "venti") clntPing pingReply 5).map Pass.observe
      = some ("next", [(0, 0)], false, none, none, Rping) :=
  ⟨recvPass_four _ _ _ _, recvPass_rping 0 _ _⟩

/-- After the pass of `send` the envelope is the head of the pending list and
is in the reuse pool. -/
theorem sentPing_observe (buf : List Byte) (h : 4 ≤ buf.length) :
    (sentPing buf).map Clnt.observe = some (some 0, [0], [0], none, some 0) := by
  have hp : ∀ t : Byte, Pack buf { Id := Tping, Tag := t }
      = some (4, enc16 2 ++ [Tping, t] ++ buf.drop 4,
          { Id := Tping, Tag := t,
            Pkt := some ((enc16 2 ++ [Tping, t] ++ buf.drop 4).take 4) }) := by
    intro t
    simp [Pack, packSwitch, PackTping, PackEmpty_eq _ _ _ h, Tping, Rerror]
  have hg : getId 255 [] = some 0 := by rfl
  have hg1 : getId 255 [0] = some 1 := by rfl
  simp [sentPing, ReqAlloc, clntNew, hg, hg1, Clnt.setReq, Rpcnb, takeReqout, sendPass,
    Slice.sliceFrom, Slice.len, Slice.bytes, hp, ReqFree, Clnt.observe]

/-- C24, on the code: after `ReqAlloc`, `Rpcnb` and one pass of the loop of
`send` on a new client, envelope 0 is linked in the pending list (it is
`reqfirst`) and has been returned to the reuse pool `reqchan` with its
completion channel cleared; the next `ReqAlloc` hands out the same envelope,
with the same tag, while it is pending. -/
theorem send_frees_pending_envelope :
    (sentPing (List.replicate (8 * Maxblock) 0)).map Clnt.observe
      = some (some 0, [0], [0], none, some 0) :=
  sentPing_observe _ (by rw [List.length_replicate]; decide)

/-- A size field from 57343 to 65533 fails the connection: the pass goes to
`closed` with the error "bad client connection" and leaves the pending list
and the envelopes as they are. -/
theorem recvPass_rejects (fuel : Nat) (id : GoString) (s : Clnt) (b0 b1 : Byte)
    (rest : List Byte) (pos : Int) (hpos : pos > 4)
    (hlo : 57343 ≤ b0.val * 256 + b1.val) (hhi : b0.val * 256 + b1.val ≤ 65533) :
    recvPass fuel id s (b0 :: b1 :: rest) pos
      = some (.closed { s with connClosed := true }
          (some ⟨gostr "bad client connection: " ++ id⟩)) := by
  have e : (b0.val * 256 + b1.val + 2) % 65536 = b0.val * 256 + b1.val + 2 :=
    Nat.mod_eq_of_lt (by omega)
  unfold recvPass
  rw [if_neg (not_not.2 hpos), Gint16_cons]
  simp only [Option.bind_eq_bind, Option.some_bind, e]
  rw [if_pos (by simp only [Maxblock]; omega)]

end Vtclnt

/-! ## Server engine -/

namespace Vtsrv
open Vt

theorem Respond_reqout (ops : Ops) (c : Conn) (r : Req) :
    ∃ q, (Respond ops c r).1.reqout = c.reqout ++ [q] ∧ q = (Respond ops c r).2 ∧
      (Respond ops c r).1.invoked = c.invoked ∧
      ((Respond ops c r).1.status = c.status ∨
        ((Respond ops c r).1.status = Chello ∧ q.Rc.Id = Rhello)) := by
  unfold Respond
  simp only []
  split_ifs with h
  · exact ⟨_, rfl, rfl, rfl, Or.inr ⟨rfl, h⟩⟩
  · exact ⟨_, rfl, rfl, rfl, Or.inl rfl⟩

/-- Whatever a handler does, the status changes only by a reply with id Rhello
sent through `Respond`. -/
theorem run_status (ops : Ops) (acts : List Act) :
    ∀ (c : Conn) (r : Req), ∃ new, (run ops acts (c, r)).1.reqout = c.reqout ++ new ∧
      ((run ops acts (c, r)).1.status = c.status ∨
        ((run ops acts (c, r)).1.status = Chello ∧ ∃ q ∈ new, q.Rc.Id = Rhello)) := by
  induction acts with
  | nil => intro c r; exact ⟨[], by simp [run], Or.inl rfl⟩
  | cons a rest ih =>
    intro c r
    cases a with
    | setTc f => exact ih c _
    | setRc f => exact ih c _
    | respond =>
      obtain ⟨q, hq, _, _, hst⟩ := Respond_reqout ops c r
      obtain ⟨new, hnew, hs2⟩ := ih (Respond ops c r).1 (Respond ops c r).2
      refine ⟨q :: new, ?_, ?_⟩
      · simp only [run]
        rw [hnew, hq]; simp
      · simp only [run]
        rcases hs2 with h2 | ⟨h2, q2, hq2, hid2⟩
        · rcases hst with h1 | ⟨h1, hid1⟩
          · exact Or.inl (h2.trans h1)
          · exact Or.inr ⟨h2.trans h1, q, List.mem_cons_self _ _, hid1⟩
        · exact Or.inr ⟨h2, q2, List.mem_cons_of_mem _ hq2, hid2⟩

theorem Process_status (ops : Ops) (c : Conn) (r : Req) :
    ∃ new, (Process ops c r).1.reqout = c.reqout ++ new ∧
      ((Process ops c r).1.status = c.status ∨ (Process ops c r).1.status = Cnew ∨
        ((Process ops c r).1.status = Chello ∧ ∃ q ∈ new, q.Rc.Id = Rhello)) := by
  have hresp : ∀ r2, ∃ new, (Respond ops c r2).1.reqout = c.reqout ++ new ∧
      ((Respond ops c r2).1.status = c.status ∨ (Respond ops c r2).1.status = Cnew ∨
        ((Respond ops c r2).1.status = Chello ∧ ∃ q ∈ new, q.Rc.Id = Rhello)) := by
    intro r2
    obtain ⟨q, hq, _, _, hst⟩ := Respond_reqout ops c r2
    refine ⟨[q], hq, ?_⟩
    rcases hst with h | ⟨h, hid⟩
    · exact Or.inl h
    · exact Or.inr (Or.inr ⟨h, q, List.mem_singleton_self q, hid⟩)
  have hinv : ∀ op h, ∃ new, (invoke ops op h c r).1.reqout = c.reqout ++ new ∧
      ((invoke ops op h c r).1.status = c.status ∨ (invoke ops op h c r).1.status = Cnew ∨
        ((invoke ops op h c r).1.status = Chello ∧ ∃ q ∈ new, q.Rc.Id = Rhello)) := by
    intro op h
    obtain ⟨new, hnew, hst⟩ := run_status ops (h r) { c with invoked := c.invoked ++ [op] } r
    refine ⟨new, hnew, ?_⟩
    rcases hst with h1 | h1
    · exact Or.inl h1
    · exact Or.inr (Or.inr h1)
  unfold Process
  split_ifs
  · exact hresp _
  · cases ops.Ping with
    | none => exact hresp _
    | some h => exact hinv _ h
  · cases ops.Hello with
    | none => exact hresp _
    | some h => exact hinv _ h
  · exact ⟨[], by simp, Or.inr (Or.inl rfl)⟩
  · cases ops.Read with
    | none => exact hresp _
    | some h => exact hinv _ h
  · cases ops.Write with
    | none => exact hresp _
    | some h => exact hinv _ h
  · cases ops.Sync with
    | none => exact hresp _
    | some h => exact hinv _ h
  · exact hresp _

/-- C10 (amended): for every handler set whose `ReqRespond` hook, if it has
one, leaves the request as it is, and every request whose id is not Thello,
processed on a connection in state NEW, `Process` sends exactly one reply, the
Rerror "expecting hello message", invokes no handler and leaves the connection
in state NEW; and for every handler set, with any hook or none, every state
and every request, a connection that is ESTABLISHED after `Process` was so
before, or a reply with id Rhello was sent through `Respond`. -/
theorem process_before_hello (ops : Ops) (c : Conn) (r : Req) :
    ((∀ o, ops.ReqOps = some o → ∀ q, o.ReqRespond q = q) →
      c.status = Cnew → r.Tc.Id ≠ Thello →
      (Process ops c r).1.reqout = c.reqout ++ [helloExpected r] ∧
      (Process ops c r).1.invoked = c.invoked ∧
      (Process ops c r).1.status = Cnew) ∧
    ((Process ops c r).1.status = Chello →
      c.status = Chello ∨
      ∃ new, (Process ops c r).1.reqout = c.reqout ++ new ∧ ∃ q ∈ new, q.Rc.Id = Rhello) := by
  constructor
  · intro hhook hnew hid
    have hp : Process ops c r = RespondError ops c r (gostr "expecting hello message") := by
      unfold Process
      rw [if_pos ⟨hnew, hid⟩]
    rw [hp]
    have hne : ¬ (Rerror = Rhello) := by decide
    unfold RespondError Respond
    cases ho : ops.ReqOps with
    | none =>
      simp only []
      rw [if_neg hne]
      exact ⟨rfl, rfl, hnew⟩
    | some o =>
      simp only [hhook o ho]
      rw [if_neg hne]
      exact ⟨rfl, rfl, hnew⟩
  · intro hst
    obtain ⟨new, hnew, h⟩ := Process_status ops c r
    rcases h with h | h | ⟨_, h⟩
    · exact Or.inl (h ▸ hst)
    · rw [h] at hst; exact absurd hst (by decide)
    · exact Or.inr ⟨new, hnew, h⟩

/-- C10, witness: a Tping on a new connection of a server with Ping and Hello
handlers and no hook is answered with "expecting hello message"; and on a new
connection of a server whose hook rewrites every reply into an Rhello, the
connection that is ESTABLISHED after the Tping has sent a reply with id
Rhello. -/
theorem process_before_hello_witness :
    ((∀ o, helloOps.ReqOps = some o → ∀ q, o.ReqRespond q = q) ∧
      ({} : Conn).status = Cnew ∧ reqPing.Tc.Id ≠ Thello ∧
      (Process helloOps {} reqPing).1.reqout = [helloExpected reqPing] ∧
      (Process helloOps {} reqPing).1.invoked = [] ∧
      (Process helloOps {} reqPing).1.status = Cnew) ∧
    ((Process rewritingOps {} reqPing).1.status = Chello ∧
      (({} : Conn).status = Chello ∨
        ∃ new, (Process rewritingOps {} reqPing).1.reqout = ({} : Conn).reqout ++ new ∧
          ∃ q ∈ new, q.Rc.Id = Rhello)) :=
  ⟨⟨fun o ho => by simp [helloOps] at ho, rfl, by decide,
    (process_before_hello helloOps {} reqPing).1
      (fun o ho => by simp [helloOps] at ho) rfl (by decide)⟩,
   ⟨rfl, (process_before_hello rewritingOps {} reqPing).2 rfl⟩⟩

/-- C10, as stated, fails: with a handler set whose `ReqRespond` hook rewrites
the reply, a Tping on a connection in state NEW is answered with an Rhello and
the connection becomes ESTABLISHED. -/
theorem process_before_hello_fails_with_hook :
    ({} : Conn).status = Cnew ∧ reqPing.Tc.Id ≠ Thello ∧
    ((Process rewritingOps {} reqPing).1.reqout.map (fun q => q.Rc.Id) = [Rhello]) ∧
    (Process rewritingOps {} reqPing).1.status = Chello := by
  decide

/-! ## Tgoodbye -/

/-- C19 (amended): for every connection in state ESTABLISHED and every handler
set, processing a Tgoodbye request sends no reply, invokes no handler, leaves
the request as it is and puts the connection in state NEW. -/
theorem process_goodbye (ops : Ops) (c : Conn) (r : Req)
    (hs : c.status = Chello) (hid : r.Tc.Id = Tgoodbye) :
    Process ops c r = ({ c with status := Cnew }, r) ∧
    (Process ops c r).1.reqout = c.reqout ∧ (Process ops c r).1.status = Cnew := by
  have h : Process ops c r = ({ c with status := Cnew }, r) := by
    unfold Process
    rw [if_neg (by rw [hs]; simp [Chello, Cnew]), if_neg (by rw [hid]; decide),
      if_neg (by rw [hid]; decide), if_pos hid]
  rw [h]
  exact ⟨rfl, rfl, rfl⟩

/-- C19, witness: a Tgoodbye on an established connection that has sent one
reply. -/
theorem process_goodbye_witness :
    ({ status := Chello, reqout := [reqPing] } : Conn).status = Chello ∧
    reqGoodbye.Tc.Id = Tgoodbye ∧
    Process helloOps { status := Chello, reqout := [reqPing] } reqGoodbye
      = ({ status := Cnew, reqout := [reqPing] }, reqGoodbye) ∧
    (Process helloOps { status := Chello, reqout := [reqPing] } reqGoodbye).1.reqout
      = [reqPing] ∧
    (Process helloOps { status := Chello, reqout := [reqPing] } reqGoodbye).1.status = Cnew :=
  ⟨rfl, rfl, process_goodbye helloOps { status := Chello, reqout := [reqPing] } reqGoodbye rfl rfl⟩

/-- C19, counterexample: in state NEW, with a handler set that implements no
interface, a Tgoodbye request is answered: the reply Rerror "expecting hello
message" is sent. -/
theorem process_goodbye_replies_when_new :
    reqGoodbye.Tc.Id = Tgoodbye ∧ ({} : Conn).status = Cnew ∧
    (Process {} {} reqGoodbye).1.reqout = [helloExpected reqGoodbye] ∧
    (helloExpected reqGoodbye).Rc.Id = Rerror :=
  ⟨rfl, rfl, rfl, rfl⟩

/-! ## The receive loop -/

theorem Unpack_tping (tc0 : Call) (t : Byte) (rest : List Byte) :
    Unpack (some (0 :: 2 :: Tping :: t :: rest)) tc0
      = some (4, none, { tc0 with Pkt := some [0, 2, Tping, t], Id := Tping, Tag := t }) := by
  have hsz : (2 : Byte).val ||| ((0 : Byte).val <<< 8) = 2 := by decide
  unfold Unpack
  rw [if_neg (by simp [Slice.len])]
  simp only [Gint16, hsz, Option.bind_eq_bind, Option.some_bind]
  rw [if_neg (by simp [Slice.len])]
  simp only [Slice.sliceTo, Slice.len, List.length_cons]
  rw [if_pos (by omega), if_pos (by omega)]
  simp [Gint8, unpackBody, Rerror, Thello, Rhello, Tread, Rread, Twrite, Rwrite, Tping,
    Slice.len]

/-- With three bytes of a four-byte frame received the frame is decoded, with
the byte after them as its tag, and `pos` becomes -1. -/
theorem recvPass_early (tc0 : Call) (t : Byte) (rest : List Byte) :
    recvPass tc0 (0 :: 2 :: Tping :: t :: rest) 3
      = some (.dispatched { tc0 with Pkt := some [0, 2, Tping, t], Id := Tping, Tag := t }
          rest (-1)) := by
  have hsz : (2 : Byte).val ||| ((0 : Byte).val <<< 8) = 2 := by decide
  unfold recvPass
  rw [if_neg (by decide)]
  simp only [Gint16, hsz, Option.bind_eq_bind, Option.some_bind]
  rw [if_neg (by decide), if_neg (by decide), Unpack_tping]
  simp [Slice.sliceFrom, Slice.len, Slice.bytes]
/-- C25, on the code: with only the three bytes 00 02 02 of a Tping frame
received (`pos = 3`, frame of `size + 2 = 4` bytes) the decode step unpacks and
dispatches a Tping whose tag is byte 3 of the buffer, which has not been
received, and leaves `pos = -1`. -/
theorem recv_dispatches_incomplete_frame :
    recvPass {} partialTping 3
      = some (.dispatched { Id := Tping, Tag := 0, Pkt := some [0, 2, Tping, 0] }
          (List.replicate (8 * 8 * Maxblock - 4) 0) (-1)) :=
  recvPass_early {} 0 _

end Vtsrv

/-! ## Arena -/

namespace Vtmm
open Vt


theorem Htbl.get_set_self (h : Htbl) (k : List Byte) (v : View) : (h.set k v).get k = some v := by
  simp [Htbl.get, Htbl.set]

theorem Htbl.get_set_ne (h : Htbl) (k k2 : List Byte) (v : View) (hk : k ≠ k2) :
    (h.set k v).get k2 = h.get k2 := by
  simp only [Htbl.get, Htbl.set, List.find?_cons, decide_eq_true_eq, hk, decide_False]
  congr 1
  induction h with
  | nil => rfl
  | cons e rest ih =>
    by_cases h1 : e.1 = k
    · have h2 : e.1 ≠ k2 := fun h3 => hk (h1 ▸ h3)
      simp [List.filter, h1, List.find?, h2, hk, ih]
      simpa [h1] using ih
    · simp only [List.filter, h1, ne_eq, not_false_eq_true, decide_True, List.find?]
      by_cases h2 : e.1 = k2
      · simp [h2]
      · simp only [h2, decide_False]; exact ih

/-- C4: when a first `Write` of a payload is answered with Rwrite, the score
in the reply is the hash of the payload and a second `Write` of the same
payload is answered with the same score and leaves the arena (tip, synctip,
lastip, the mapped bytes) and the score index as they are. -/
theorem Write_idempotent (H : List Byte → List Byte) (align : Int) (srv srv1 : Vtmap)
    (p : List Byte) (r : Call)
    (h1 : Write H align srv p = some (srv1, r)) (hr : r.Id = Rwrite) :
    r.Score = some (H p) ∧ Write H align srv1 p = some (srv1, r) := by
  unfold Write at h1
  simp only [] at h1
  split_ifs at h1 with hget
  · cases hw : WriteBlock align srv.f p with
    | none => rw [hw] at h1; simp at h1
    | some res =>
      obtain ⟨f, e | block⟩ := res
      · rw [hw] at h1
        simp only [Option.some.injEq, Prod.mk.injEq] at h1
        rw [← h1.2] at hr
        exact absurd hr (show ¬ (Rerror = Rwrite) by decide)
      · rw [hw] at h1
        simp only [Option.some.injEq, Prod.mk.injEq] at h1
        obtain ⟨hs, hr2⟩ := h1
        subst hs hr2
        refine ⟨rfl, ?_⟩
        unfold Write
        simp [Htbl.get_set_self]
  · simp only [Option.some.injEq, Prod.mk.injEq] at h1
    obtain ⟨hs, hr2⟩ := h1
    subst hs hr2
    refine ⟨rfl, ?_⟩
    unfold Write
    simp only []
    rw [if_neg hget]


/-- C4, witness: two writes of "hello" into a zero-filled arena of 60 bytes. -/
theorem Write_idempotent_witness :
    Write sha1 0 (freshMap 60) hello = some helloWritten ∧ helloWritten.2.Id = Rwrite ∧
    helloWritten.2.Score = some (sha1 hello) ∧
    Write sha1 0 helloWritten.1 hello = some helloWritten :=
  ⟨rfl, rfl, Write_idempotent sha1 0 (freshMap 60) helloWritten.1 hello helloWritten.2 rfl rfl⟩

/-! ## Recovery of the arena -/

theorem Pint32_put (v : Nat) (c : Cur) (h : 4 ≤ c.rest.length) :
    Pint32 v c = some (c.put (enc32 v)) := by
  obtain ⟨d, r⟩ := c
  match r, h with
  | a :: b :: c :: e :: r, _ => simp [Pint32, Cur.put, enc32]

theorem sub64_eq (a b : Nat) (hb : b ≤ a) (ha : a < 2 ^ 64) : sub64 a b = a - b := by
  unfold sub64
  have : b % 2 ^ 64 = b := Nat.mod_eq_of_lt (by omega)
  rw [this]
  omega

theorem u64_eq (a : Nat) (ha : a < 2 ^ 64) : u64 a = a := Nat.mod_eq_of_lt ha

theorem padOf_le (align : Int) (n : Nat) (ha : align < 2 ^ 62) : padOf align n < 2 ^ 62 := by
  unfold padOf
  split_ifs with h
  · have : align.toNat < 2 ^ 62 := by omega
    omega
  · omega

/-- The offset after the block, as `WriteBlock` computes it. -/
theorem nextoff_eq (align : Int) (tip blksz : Nat) (ht : tip + blksz < 2 ^ 62)
    (ha : align < 2 ^ 62) :
    (if align > 0 then
        u64 (u64 (tip + blksz) + sub64 align.toNat (u64 (tip + blksz) % align.toNat))
      else u64 (tip + blksz)) = tip + blksz + padOf align (tip + blksz) := by
  have h1 : u64 (tip + blksz) = tip + blksz := u64_eq _ (by omega)
  rw [h1]
  unfold padOf
  split_ifs with h
  · have hpos : 0 < align.toNat := by omega
    have hlt : align.toNat < 2 ^ 62 := by omega
    have hm : (tip + blksz) % align.toNat < align.toNat := Nat.mod_lt _ hpos
    rw [sub64_eq _ _ (by omega) (by omega), u64_eq _ (by omega)]
  · rfl

theorem header_length (align : Int) (tip : Nat) (p : List Byte) :
    (header align tip p).length = 8 := rfl

theorem cursor_oneChunk (f : File) (c : List Byte) (off : Nat) (hf : OneChunk f c)
    (ho : off ≤ c.length) : f.cursor 0 off = some ⟨c.take off, c.drop off⟩ := by
  simp [File.cursor, hf.2, ho]

/-- `WriteBlock` on a file of one chunk in which the block fits. -/
theorem WriteBlock_fits (align : Int) (f : File) (c p : List Byte) (hf : OneChunk f c)
    (hfit : f.tip + (HeaderSize + p.length) < c.length) (hc : c.length < 2 ^ 30)
    (ha : align < 2 ^ 62) :
    WriteBlock align f p =
      some ({ f with
                chunks := [c.take f.tip ++ (header align f.tip p ++ p)
                            ++ c.drop (f.tip + (HeaderSize + p.length))],
                lastip := f.tip, tip := f.tip + recLen align f.tip p },
            .inr ⟨0, f.tip + HeaderSize, p.length⟩) := by
  obtain ⟨hsz, hch⟩ := hf
  have htip : f.tip < 2 ^ 30 := by omega
  have hidx : f.tip / f.chunksz = 0 := by rw [hsz]; exact Nat.div_eq_of_lt htip
  have hoff : f.tip % f.chunksz = f.tip := by rw [hsz]; exact Nat.mod_eq_of_lt htip
  have hplace : WriteBlock.place f (HeaderSize + p.length) = some (f, .inr (0, f.tip)) := by
    unfold WriteBlock.place
    rw [if_neg (by rw [hsz]; decide)]
    simp only [hidx, hoff, hch, List.getElem?_cons_zero, Option.bind_eq_bind, Option.some_bind]
    rw [if_neg (by omega)]
  have hnext := nextoff_eq align f.tip (HeaderSize + p.length) (by omega) ha
  have hpad := padOf_le align (f.tip + (HeaderSize + p.length)) ha
  unfold WriteBlock
  simp only [hplace, Option.bind_eq_bind, Option.some_bind, hnext]
  rw [cursor_oneChunk f c f.tip ⟨hsz, hch⟩ (by omega)]
  simp only [Option.some_bind]
  have hrest : (c.drop f.tip).length = c.length - f.tip := List.length_drop _ _
  simp only [HeaderSize] at hfit hpad ⊢
  rw [Pint16_put _ _ (by simp only [hrest]; omega)]
  simp only [Option.some_bind]
  rw [Pint16_put _ _ (by simp only [Cur.put_rest_length, hrest, enc16_length]; omega)]
  simp only [Option.some_bind, Cur.put_put]
  rw [Pint32_put _ _ (by
    simp only [Cur.put_rest_length, hrest, List.length_append, enc16_length]; omega)]
  simp only [Option.some_bind, Cur.put_put]
  have hsub : sub64 (f.tip + (8 + p.length) + padOf align (f.tip + (8 + p.length))) f.tip
      = recLen align f.tip p := by
    rw [sub64_eq _ _ (by omega) (by omega)]
    simp only [recLen, HeaderSize]; omega
  rw [hsub]
  have hlen8 : (enc16 Magic ++ enc16 (p.length % 65536) ++ enc32 (recLen align f.tip p % 2 ^ 32)).length
      = 8 := rfl
  have hroom : p.length ≤ ((⟨c.take f.tip, c.drop f.tip⟩ : Cur).put
      (enc16 Magic ++ enc16 (p.length % 65536) ++ enc32 (recLen align f.tip p % 2 ^ 32))).rest.length := by
    simp only [Cur.put_rest_length, hrest, hlen8]; omega
  have hcopylen : ∀ (cu : Cur), p.length ≤ cu.rest.length →
      (cu.copy p).rest.length = cu.rest.length := by
    intro cu h
    simp only [Cur.copy, List.length_append, List.length_take, List.length_drop]
    omega
  rw [if_pos (by rw [hcopylen _ hroom]; exact hroom)]
  rw [copy_all _ _ hroom]
  simp only [hch, List.set_cons_zero, Cur.put_put, Cur.all, Cur.put, header,
    List.length_append, hlen8, List.drop_drop, recLen, HeaderSize, List.append_assoc]
  have e32 : ∀ n, (enc32 n).length = 4 := fun _ => rfl
  simp only [enc16_length, e32]
  have e1 : f.tip + (2 + (2 + 4)) + p.length = f.tip + (8 + p.length) := by omega
  rw [e1, Nat.add_assoc f.tip]

/-- `WriteBlock` on a file of one chunk in which the block does not fit. -/
theorem WriteBlock_full (align : Int) (f : File) (c p : List Byte) (hf : OneChunk f c)
    (hfit : c.length ≤ f.tip + (HeaderSize + p.length)) (htip : f.tip < 2 ^ 30) :
    WriteBlock align f p = some (f, .inl ⟨gostr "arena full"⟩) := by
  obtain ⟨hsz, hch⟩ := hf
  have hidx : f.tip / f.chunksz = 0 := by rw [hsz]; exact Nat.div_eq_of_lt htip
  have hoff : f.tip % f.chunksz = f.tip := by rw [hsz]; exact Nat.mod_eq_of_lt htip
  have hplace : WriteBlock.place f (HeaderSize + p.length)
      = some (f, .inl ⟨gostr "arena full"⟩) := by
    unfold WriteBlock.place
    rw [if_neg (by rw [hsz]; decide)]
    simp only [hidx, hoff, hch, List.getElem?_cons_zero, Option.bind_eq_bind, Option.some_bind]
    rw [if_pos (by omega)]
    simp
  unfold WriteBlock
  simp only [hplace, Option.bind_eq_bind, Option.some_bind]

/-- `WriteBlock` with the tip beyond the only chunk indexes out of range. -/
theorem WriteBlock_beyond (align : Int) (f : File) (c p : List Byte) (hf : OneChunk f c)
    (htip : 2 ^ 30 ≤ f.tip) : WriteBlock align f p = none := by
  obtain ⟨hsz, hch⟩ := hf
  have hidx : 1 ≤ f.tip / f.chunksz := by
    rw [hsz]; exact (Nat.le_div_iff_mul_le (by decide)).2 (by omega)
  have hplace : WriteBlock.place f (HeaderSize + p.length) = none := by
    unfold WriteBlock.place
    rw [if_neg (by rw [hsz]; decide)]
    have : f.chunks[f.tip / f.chunksz]? = none := by
      rw [hch]
      exact List.getElem?_eq_none (by simpa using hidx)
    simp [this]
  unfold WriteBlock
  simp [hplace]

/-- A `Write` answered with Rwrite on a file of one chunk: the payload was in
the index and nothing changed, or the block fitted and was appended. -/
theorem Write_oneChunk (H : List Byte → List Byte) (align : Int) (srv srv1 : Vtmap)
    (c p : List Byte) (r : Call) (hf : OneChunk srv.f c) (hc : c.length < 2 ^ 30)
    (ha : align < 2 ^ 62) (h : Write H align srv p = some (srv1, r)) (hr : r.Id = Rwrite) :
    (srv.htbl.get (H p) ≠ none ∧ srv1 = srv) ∨
    (srv.htbl.get (H p) = none ∧ srv.f.tip + (HeaderSize + p.length) < c.length ∧
      srv1 = { f := { srv.f with
                  chunks := [c.take srv.f.tip ++ (header align srv.f.tip p ++ p)
                              ++ c.drop (srv.f.tip + (HeaderSize + p.length))],
                  lastip := srv.f.tip, tip := srv.f.tip + recLen align srv.f.tip p },
               htbl := srv.htbl.set (H p) ⟨0, srv.f.tip + HeaderSize, p.length⟩ }) := by
  unfold Write at h
  simp only [] at h
  split_ifs at h with hget
  · right
    by_cases hfit : srv.f.tip + (HeaderSize + p.length) < c.length
    · rw [WriteBlock_fits align srv.f c p hf hfit hc ha] at h
      simp only [Option.some.injEq, Prod.mk.injEq] at h
      exact ⟨hget, hfit, h.1.symm⟩
    · by_cases htip : srv.f.tip < 2 ^ 30
      · rw [WriteBlock_full align srv.f c p hf (by omega) htip] at h
        simp only [Option.some.injEq, Prod.mk.injEq] at h
        rw [← h.2] at hr
        exact absurd hr (show ¬ (Rerror = Rwrite) by decide)
      · rw [WriteBlock_beyond align srv.f c p hf (by omega)] at h
        simp at h
  · left
    simp only [Option.some.injEq, Prod.mk.injEq] at h
    exact ⟨hget, h.1.symm⟩

theorem serve_cons (H : List Byte → List Byte) (align : Int) (srv s1 : Vtmap) (p : List Byte)
    (ps : List (List Byte)) (rs : List Call)
    (h : serve H align srv (p :: ps) = some (s1, rs)) :
    ∃ s2 r rs2, Write H align srv p = some (s2, r) ∧ serve H align s2 ps = some (s1, rs2) ∧
      rs = r :: rs2 := by
  simp only [serve] at h
  cases hw : Write H align srv p with
  | none => rw [hw] at h; simp at h
  | some res =>
    obtain ⟨s2, r⟩ := res
    rw [hw] at h
    simp only [] at h
    cases hs : serve H align s2 ps with
    | none => rw [hs] at h; simp at h
    | some res2 =>
      obtain ⟨s3, rs2⟩ := res2
      rw [hs] at h
      simp only [Option.some.injEq, Prod.mk.injEq] at h
      exact ⟨s2, r, rs2, rfl, by rw [← h.1, hs], h.2.symm⟩

/-- Through a run of writes answered with Rwrite the file keeps its one chunk
and its length, and the tip does not go back. -/
theorem serve_mono (H : List Byte → List Byte) (align : Int) (ha : align < 2 ^ 62)
    (ps : List (List Byte)) :
    ∀ (srv s1 : Vtmap) (c : List Byte) (rs : List Call), OneChunk srv.f c → c.length < 2 ^ 30 →
      serve H align srv ps = some (s1, rs) → (∀ r ∈ rs, r.Id = Rwrite) →
      srv.f.tip ≤ s1.f.tip := by
  induction ps with
  | nil =>
    intro srv s1 c rs _ _ h _
    simp only [serve, Option.some.injEq, Prod.mk.injEq] at h
    rw [h.1]
  | cons p ps ih =>
    intro srv s1 c rs hf hc h hrs
    obtain ⟨s2, r, rs2, hw, hs, hrs2⟩ := serve_cons H align srv s1 p ps rs h
    subst hrs2
    have hr : r.Id = Rwrite := hrs r (List.mem_cons_self _ _)
    have hrs3 : ∀ x ∈ rs2, x.Id = Rwrite := fun x hx => hrs x (List.mem_cons_of_mem _ hx)
    rcases Write_oneChunk H align srv s2 c p r hf hc ha hw hr with ⟨_, he⟩ | ⟨_, hfit, he⟩
    · subst he
      exact ih _ _ c _ hf hc hs hrs3
    · have hf2 : OneChunk s2.f (c.take srv.f.tip ++ (header align srv.f.tip p ++ p)
          ++ c.drop (srv.f.tip + (HeaderSize + p.length))) := by
        rw [he]; exact ⟨hf.1, rfl⟩
      have hlen : (c.take srv.f.tip ++ (header align srv.f.tip p ++ p)
          ++ c.drop (srv.f.tip + (HeaderSize + p.length))).length = c.length := by
        simp only [List.length_append, List.length_take, List.length_drop, header_length,
          HeaderSize] at hfit ⊢
        omega
      have := ih s2 s1 _ rs2 hf2 (by rw [hlen]; exact hc) hs hrs3
      have ht : s2.f.tip = srv.f.tip + recLen align srv.f.tip p := by rw [he]
      omega

theorem layout_append (align : Int) (a b : List (List Byte)) :
    ∀ t, layout align t (a ++ b)
      = layout align t a ++ layout align (t + (layout align t a).length) b := by
  induction a with
  | nil => intro t; simp [layout]
  | cons q a ih =>
    intro t
    show layout align t (q :: (a ++ b)) = _
    simp only [layout, ih, List.append_assoc, List.length_append,
      header_length, List.length_replicate, recLen, HeaderSize]
    congr 4
    congr 1
    omega

theorem layout_single (align : Int) (t : Nat) (p : List Byte) :
    layout align t [p]
      = header align t p ++ p ++ List.replicate (padOf align (t + (HeaderSize + p.length))) 0 := by
  simp [layout]

theorem layout_single_length (align : Int) (t : Nat) (p : List Byte) :
    (layout align t [p]).length = recLen align t p := by
  simp only [layout_single, List.length_append, header_length, List.length_replicate, recLen,
    HeaderSize]

theorem Htbl.get_set_iff (h : Htbl) (k k2 : List Byte) (v : View) :
    (h.set k v).get k2 ≠ none ↔ k2 = k ∨ h.get k2 ≠ none := by
  by_cases hk : k = k2
  · subst hk
    simp [Htbl.get_set_self]
  · rw [Htbl.get_set_ne h k k2 v hk]
    constructor
    · intro h1; exact Or.inr h1
    · rintro (h1 | h1)
      · exact absurd h1.symm hk
      · exact h1

theorem chunk_step (L hp : List Byte) (size pad : Nat) (h : L.length + hp.length + pad ≤ size) :
    (L ++ List.replicate (size - L.length) (0 : Byte)).take L.length ++ hp
        ++ (L ++ List.replicate (size - L.length) 0).drop (L.length + hp.length)
      = (L ++ (hp ++ List.replicate pad 0))
        ++ List.replicate (size - (L.length + hp.length + pad)) 0 := by
  rw [List.take_left, List.drop_append_eq_append_drop,
    List.drop_of_length_le (by omega : L.length ≤ L.length + hp.length), List.nil_append,
    List.drop_replicate]
  simp only [List.append_assoc]
  congr 2
  rw [← List.replicate_add]
  congr 1
  omega

/-- A run of writes answered with Rwrite from a state that has written `qs`
ends in a state that has written `qs` and the new payloads among `ps`. -/
theorem serve_written (H : List Byte → List Byte) (align : Int) (size : Nat)
    (ha : align < 2 ^ 62) (hsize : size < 2 ^ 30) (ps : List (List Byte)) :
    ∀ (srv s1 : Vtmap) (qs : List (List Byte)) (rs : List Call),
      Written H align size srv qs → serve H align srv ps = some (s1, rs) →
      (∀ r ∈ rs, r.Id = Rwrite) → s1.f.tip ≤ size →
      (∀ p ∈ qs ++ ps, ∀ q ∈ qs ++ ps, H p = H q → p = q) →
      ∃ qs1, Written H align size s1 qs1 ∧ (∀ x, x ∈ qs1 ↔ x ∈ qs ∨ x ∈ ps) ∧
        qs1.length ≤ qs.length + ps.length := by
  induction ps with
  | nil =>
    intro srv s1 qs rs hw h _ _ _
    simp only [serve, Option.some.injEq, Prod.mk.injEq] at h
    rw [← h.1]
    exact ⟨qs, hw, by simp, by simp⟩
  | cons p ps ih =>
    intro srv s1 qs rs hw h hrs htip hinj
    obtain ⟨s2, r, rs2, hwr, hs, hrs2⟩ := serve_cons H align srv s1 p ps rs h
    subst hrs2
    have hr : r.Id = Rwrite := hrs r (List.mem_cons_self _ _)
    have hrs3 : ∀ x ∈ rs2, x.Id = Rwrite := fun x hx => hrs x (List.mem_cons_of_mem _ hx)
    obtain ⟨hone, htipeq, htiple, hkeys⟩ := hw
    have hclen : (layout align 0 qs ++ List.replicate (size - (layout align 0 qs).length) 0).length
        = size := by
      simp only [List.length_append, List.length_replicate]; omega
    rcases Write_oneChunk H align srv s2 _ p r hone (by rw [hclen]; exact hsize) ha hwr hr with
      ⟨hget, he⟩ | ⟨hget, hfit, he⟩
    · -- the payload is in the index already
      subst he
      obtain ⟨q, hq, hHq⟩ := (hkeys (H p)).1 hget
      have hpq : p = q := hinj p (by simp) q (by simp [hq]) hHq
      have hpqs : p ∈ qs := hpq ▸ hq
      obtain ⟨qs1, hw1, hmem, hlen⟩ := ih s2 s1 qs rs2 ⟨hone, htipeq, htiple, hkeys⟩ hs hrs3 htip
        (fun a ha b hb => hinj a (by
          rcases List.mem_append.1 ha with h1 | h1
          · simp [h1]
          · simp [h1]) b (by
          rcases List.mem_append.1 hb with h1 | h1
          · simp [h1]
          · simp [h1]))
      refine ⟨qs1, hw1, ?_, by simp only [List.length_cons]; omega⟩
      intro x
      rw [hmem x]
      constructor
      · rintro (h1 | h1)
        · exact Or.inl h1
        · exact Or.inr (List.mem_cons_of_mem _ h1)
      · rintro (h1 | h1)
        · exact Or.inl h1
        · rcases List.mem_cons.1 h1 with h2 | h2
          · exact Or.inl (h2 ▸ hpqs)
          · exact Or.inr h2
    · -- the block is appended
      rw [hclen] at hfit
      have hlay : layout align 0 (qs ++ [p])
          = layout align 0 qs ++ (header align srv.f.tip p ++ p
              ++ List.replicate (padOf align (srv.f.tip + (HeaderSize + p.length))) 0) := by
        rw [layout_append, layout_single, Nat.zero_add, ← htipeq]
      have hlaylen : (layout align 0 (qs ++ [p])).length = srv.f.tip + recLen align srv.f.tip p := by
        rw [layout_append, List.length_append, layout_single_length, Nat.zero_add, ← htipeq]
      have ht2 : s2.f.tip = srv.f.tip + recLen align srv.f.tip p := by rw [he]
      have hone2 : OneChunk s2.f (List.take srv.f.tip
            (layout align 0 qs ++ List.replicate (size - (layout align 0 qs).length) 0) ++
          (header align srv.f.tip p ++ p) ++
          List.drop (srv.f.tip + (HeaderSize + p.length))
            (layout align 0 qs ++ List.replicate (size - (layout align 0 qs).length) 0)) := by
        rw [he]; exact ⟨hone.1, rfl⟩
      have hlen2 : (List.take srv.f.tip
            (layout align 0 qs ++ List.replicate (size - (layout align 0 qs).length) 0) ++
          (header align srv.f.tip p ++ p) ++
          List.drop (srv.f.tip + (HeaderSize + p.length))
            (layout align 0 qs ++ List.replicate (size - (layout align 0 qs).length) 0)).length
          = size := by
        simp only [List.length_append, List.length_take, List.length_drop, header_length,
          List.length_replicate, HeaderSize] at hfit ⊢
        omega
      have hmono := serve_mono H align ha ps s2 s1 _ rs2 hone2 (by rw [hlen2]; exact hsize) hs hrs3
      have htip2 : s2.f.tip ≤ size := le_trans hmono htip
      have hw2 : Written H align size s2 (qs ++ [p]) := by
        refine ⟨?_, by rw [ht2, hlaylen], htip2, ?_⟩
        · refine ⟨by rw [he]; exact hone.1, ?_⟩
          rw [he]
          simp only []
          congr 1
          rw [hlaylen, hlay]
          have hrec : recLen align srv.f.tip p
              = (header align srv.f.tip p ++ p).length
                + padOf align (srv.f.tip + (HeaderSize + p.length)) := by
            simp only [recLen, List.length_append, header_length, HeaderSize]
          have hhp : HeaderSize + p.length = (header align srv.f.tip p ++ p).length := by
            simp only [List.length_append, header_length, HeaderSize]
          rw [ht2, hrec] at htip2
          rw [hrec]
          generalize padOf align (srv.f.tip + (HeaderSize + p.length)) = pad at htip2 ⊢
          rw [hhp]
          generalize header align srv.f.tip p ++ p = hp at htip2 ⊢
          rw [htipeq] at htip2 ⊢
          rw [← Nat.add_assoc] at htip2 ⊢
          exact chunk_step _ hp size pad htip2
        · intro k
          rw [he]
          simp only []
          rw [Htbl.get_set_iff, hkeys k]
          constructor
          · rintro (h1 | ⟨q, hq, hk⟩)
            · exact ⟨p, by simp, h1⟩
            · exact ⟨q, by simp [hq], hk⟩
          · rintro ⟨q, hq, hk⟩
            rcases List.mem_append.1 hq with h1 | h1
            · exact Or.inr ⟨q, h1, hk⟩
            · left
              rw [hk, List.mem_singleton.1 h1]
      obtain ⟨qs1, hw1, hmem, hlen⟩ := ih s2 s1 (qs ++ [p]) rs2 hw2 hs hrs3 htip
        (fun a ha b hb => hinj a (by simpa using ha) b (by simpa using hb))
      refine ⟨qs1, hw1, ?_, by simp only [List.length_append, List.length_cons,
        List.length_nil] at hlen ⊢; omega⟩
      intro x
      rw [hmem x]
      simp only [List.mem_append, List.mem_singleton, List.mem_cons]
      tauto

theorem or_shift (a b k : Nat) (hb : b < 2 ^ k) : b ||| (a <<< k) = a * 2 ^ k + b := by
  rw [Nat.shiftLeft_eq, Nat.lor_comm, Nat.mul_comm]
  exact (Nat.mul_add_lt_is_or hb a).symm

theorem Gint32_cons (b0 b1 b2 b3 : Byte) (r : List Byte) :
    Gint32 (some (b0 :: b1 :: b2 :: b3 :: r))
      = some (b0.val * 2 ^ 24 + (b1.val * 2 ^ 16 + (b2.val * 2 ^ 8 + b3.val)), some r) := by
  have h0 := b0.isLt
  have h1 := b1.isLt
  have h2 := b2.isLt
  have h3 := b3.isLt
  simp only [Gint32]
  rw [or_shift b2.val b3.val 8 (by omega), or_shift b1.val _ 16 (by omega),
    or_shift b0.val _ 24 (by omega)]

theorem Gint32_enc32 (n : Nat) (hn : n < 2 ^ 32) (r : List Byte) :
    Gint32 (some (enc32 n ++ r)) = some (n, some r) := by
  simp only [enc32, List.cons_append, List.nil_append, Gint32_cons, byte_val_ofNat,
    Nat.shiftRight_eq_div_pow]
  have e : n / 2 ^ 24 % 256 * 2 ^ 24 + (n / 2 ^ 16 % 256 * 2 ^ 16
      + (n / 2 ^ 8 % 256 * 2 ^ 8 + n % 256)) = n := by omega
  rw [e]

/-- `ReadBlock` on a file of one chunk whose bytes at the tip are a header
followed by `rest`. -/
theorem ReadBlock_header (f : File) (pre rest : List Byte) (m s n : Nat)
    (hf : OneChunk f (pre ++ (enc16 m ++ (enc16 s ++ (enc32 n ++ rest)))))
    (htip : f.tip = pre.length) (hpre : pre.length < 2 ^ 30)
    (hm : m < 65536) (hs : s < 65536) (hn : n < 2 ^ 32) :
    ReadBlock f =
      if m ≠ Magic then
        if m = 0 ∧ s = 0 then some (f, .eof) else some (f, .err ⟨gostr "magic not found"⟩)
      else if s ≤ rest.length then
        some ({ f with lastip := f.tip, tip := f.tip + n }, .blk ⟨0, f.tip + HeaderSize, s⟩)
      else none := by
  obtain ⟨hsz, hch⟩ := hf
  have hidx : f.tip / f.chunksz = 0 := by rw [hsz, htip]; exact Nat.div_eq_of_lt hpre
  have hoff : f.tip % f.chunksz = f.tip := by rw [hsz, htip]; exact Nat.mod_eq_of_lt hpre
  unfold ReadBlock
  rw [if_neg (by rw [hsz]; decide)]
  simp only [hidx, hoff, hch, List.getElem?_cons_zero, Option.bind_eq_bind, Option.some_bind]
  have hsl : Slice.sliceFrom (some (pre ++ (enc16 m ++ (enc16 s ++ (enc32 n ++ rest))))) f.tip
      = some (some (enc16 m ++ (enc16 s ++ (enc32 n ++ rest)))) := by
    simp only [Slice.sliceFrom, Slice.len, List.length_append, htip]
    rw [if_pos (by omega)]
    simp
  rw [hsl]
  simp only [Option.some_bind, Gint16_enc16 m hm, Gint16_enc16 s hs, Gint32_enc32 n hn]
  split_ifs with h1 h2 h3
  · rfl
  · rfl
  · simp only [Slice.sliceTo, Slice.len, if_pos h3, Option.some_bind]
    rw [u64_eq _ (by rw [htip]; omega)]
  · simp only [Slice.sliceTo, Slice.len, if_neg h3, Option.none_bind]

theorem zeros_header (k : Nat) (hk : 8 ≤ k) :
    List.replicate k (0 : Byte)
      = enc16 0 ++ (enc16 0 ++ (enc32 0 ++ List.replicate (k - 8) 0)) := by
  have : k = 8 + (k - 8) := by omega
  rw [this, List.replicate_add]
  simp only [Nat.add_sub_cancel_left]
  rfl

theorem view_bytes (f : File) (pre hd q rest : List Byte) (hch : f.chunks = [pre ++ (hd ++ (q ++ rest))])
    (hhd : hd.length = HeaderSize) :
    (⟨0, pre.length + HeaderSize, q.length⟩ : View).bytes f = q := by
  simp only [View.bytes, hch, List.getD_cons_zero]
  rw [← hhd, ← List.length_append, ← List.append_assoc, List.drop_left, List.take_left]

theorem recLen_lt (align : Int) (tip : Nat) (q : List Byte) (ha : align < 2 ^ 31)
    (hq : q.length ≤ 65535) : recLen align tip q < 2 ^ 32 := by
  unfold recLen padOf HeaderSize
  split_ifs with h
  · have : align.toNat < 2 ^ 31 := by omega
    omega
  · omega

/-- The startup scan over the records of `qs` followed by at least a header of
zero bytes: it ends at the end of the records with the index of `scanIndex`. -/
theorem buildHash_layout (H : List Byte → List Byte) (align : Int) (ha : align < 2 ^ 31)
    (qs : List (List Byte)) :
    ∀ (pre : List Byte) (k fuel : Nat) (srv : Vtmap),
      OneChunk srv.f (pre ++ (layout align pre.length qs ++ List.replicate k 0)) →
      srv.f.tip = pre.length →
      pre.length + (layout align pre.length qs).length + k < 2 ^ 30 → 8 ≤ k →
      (∀ q ∈ qs, q.length ≤ 65535) → qs.length + 1 ≤ fuel →
      ∃ s2, buildHash H fuel srv = some (s2, none) ∧ s2.f.chunks = srv.f.chunks ∧
        s2.f.tip = pre.length + (layout align pre.length qs).length ∧
        s2.f.synctip = s2.f.tip ∧
        s2.htbl = scanIndex H align pre.length qs srv.htbl := by
  induction qs with
  | nil =>
    intro pre k fuel srv hone htip hlen hk _ hfuel
    obtain ⟨n, rfl⟩ : ∃ n, fuel = n + 1 := ⟨fuel - 1, by omega⟩
    simp only [layout, List.nil_append] at hone
    rw [zeros_header k hk] at hone
    have hr := ReadBlock_header srv.f pre _ 0 0 0 hone htip (by omega) (by omega) (by omega)
      (by omega)
    rw [if_pos (by decide), if_pos ⟨rfl, rfl⟩] at hr
    refine ⟨{ srv with f := { srv.f with synctip := srv.f.tip } }, ?_, rfl, ?_, rfl, rfl⟩
    · simp only [buildHash, hr]
    · simp [layout, htip]
  | cons q qs ih =>
    intro pre k fuel srv hone htip hlen hk hq hfuel
    obtain ⟨n, rfl⟩ : ∃ n, fuel = n + 1 := ⟨fuel - 1, by omega⟩
    have hq0 : q.length ≤ 65535 := hq q (List.mem_cons_self _ _)
    have hrl := recLen_lt align pre.length q ha hq0
    have hlaylen : (layout align pre.length (q :: qs)).length
        = recLen align pre.length q
          + (layout align (pre.length + recLen align pre.length q) qs).length := by
      simp only [layout, List.length_append, header_length, List.length_replicate, recLen,
        HeaderSize]
    have hc : pre ++ (layout align pre.length (q :: qs) ++ List.replicate k 0)
        = pre ++ (enc16 Magic ++ (enc16 q.length ++ (enc32 (recLen align pre.length q)
            ++ (q ++ (List.replicate (padOf align (pre.length + (HeaderSize + q.length))) 0
              ++ (layout align (pre.length + recLen align pre.length q) qs
                ++ List.replicate k 0))))))
        := by
      simp only [layout, header, List.append_assoc, Nat.mod_eq_of_lt hrl,
        Nat.mod_eq_of_lt (by omega : q.length < 65536)]
    rw [hc] at hone
    have hr := ReadBlock_header srv.f pre _ Magic q.length (recLen align pre.length q) hone htip
      (by omega) (by decide) (by omega) hrl
    rw [if_neg (by simp), if_pos (by simp)] at hr
    have hbytes : (⟨0, srv.f.tip + HeaderSize, q.length⟩ : View).bytes
        { srv.f with lastip := srv.f.tip, tip := srv.f.tip + recLen align pre.length q } = q := by
      rw [htip]
      exact view_bytes _ pre
          (enc16 Magic ++ (enc16 q.length ++ enc32 (recLen align pre.length q))) q
          (List.replicate (padOf align (pre.length + (HeaderSize + q.length))) 0
              ++ (layout align (pre.length + recLen align pre.length q) qs
                ++ List.replicate k 0))
          (by simp only [hone.2, List.append_assoc]) rfl
    have hpre2 : (pre ++ (header align pre.length q ++ q
        ++ List.replicate (padOf align (pre.length + (HeaderSize + q.length))) 0)).length
        = pre.length + recLen align pre.length q := by
      simp only [List.length_append, header_length, List.length_replicate, recLen, HeaderSize]
    obtain ⟨s2, hb, hch2, htip2, hsync, hh⟩ := ih
      (pre ++ (header align pre.length q ++ q
        ++ List.replicate (padOf align (pre.length + (HeaderSize + q.length))) 0)) k n
      { f := { srv.f with lastip := srv.f.tip, tip := srv.f.tip + recLen align pre.length q },
        htbl := srv.htbl.set (H q) ⟨0, srv.f.tip + HeaderSize, q.length⟩ }
      (by
        refine ⟨hone.1, ?_⟩
        show srv.f.chunks = _
        rw [hpre2, hone.2]
        simp only [header, List.append_assoc, Nat.mod_eq_of_lt hrl,
          Nat.mod_eq_of_lt (by omega : q.length < 65536)])
      (by simp only [hpre2, htip])
      (by rw [hpre2]; rw [hlaylen] at hlen; omega)
      hk (fun x hx => hq x (List.mem_cons_of_mem _ hx))
      (by simp only [List.length_cons] at hfuel; omega)
    refine ⟨s2, ?_, ?_, ?_, hsync, ?_⟩
    · simp only [buildHash, hr, hbytes]
      exact hb
    · rw [hch2]
    · rw [htip2, hpre2, hlaylen]; omega
    · rw [hh, hpre2]
      simp only [scanIndex, htip]

theorem scanIndex_sound (H : List Byte → List Byte) (align : Int) (f : File)
    (qs : List (List Byte)) :
    ∀ (pre rest : List Byte) (h : Htbl),
      f.chunks = [pre ++ (layout align pre.length qs ++ rest)] →
      ∀ k v, (scanIndex H align pre.length qs h).get k = some v →
        (∃ q ∈ qs, k = H q ∧ v.bytes f = q) ∨ h.get k = some v := by
  induction qs with
  | nil => intro pre rest h _ k v hg; exact Or.inr hg
  | cons q qs ih =>
    intro pre rest h hch k v hg
    have hpre2 : (pre ++ (header align pre.length q ++ q
        ++ List.replicate (padOf align (pre.length + (HeaderSize + q.length))) 0)).length
        = pre.length + recLen align pre.length q := by
      simp only [List.length_append, header_length, List.length_replicate, recLen, HeaderSize]
    have hch2 : f.chunks = [(pre ++ (header align pre.length q ++ q
          ++ List.replicate (padOf align (pre.length + (HeaderSize + q.length))) 0))
        ++ (layout align (pre ++ (header align pre.length q ++ q
          ++ List.replicate (padOf align (pre.length + (HeaderSize + q.length))) 0)).length qs
            ++ rest)] := by
      rw [hpre2, hch]
      simp only [layout, List.append_assoc]
    simp only [scanIndex] at hg
    rw [← hpre2] at hg
    rcases ih _ rest _ hch2 k v hg with ⟨q2, hq2, hk, hb⟩ | hold
    · exact Or.inl ⟨q2, List.mem_cons_of_mem _ hq2, hk, hb⟩
    · by_cases hkq : H q = k
      · left
        rw [← hkq, Htbl.get_set_self] at hold
        refine ⟨q, List.mem_cons_self _ _, hkq.symm, ?_⟩
        rw [← Option.some.inj hold]
        exact view_bytes f pre (header align pre.length q) q
          (List.replicate (padOf align (pre.length + (HeaderSize + q.length))) 0
            ++ (layout align (pre.length + recLen align pre.length q) qs ++ rest))
          (by rw [hch]; simp only [layout, List.append_assoc]) (header_length _ _ _)
      · right
        rwa [Htbl.get_set_ne _ _ _ _ hkq] at hold

theorem scanIndex_keep (H : List Byte → List Byte) (align : Int) (qs : List (List Byte)) :
    ∀ (tip : Nat) (h : Htbl) (k : List Byte), h.get k ≠ none →
      (scanIndex H align tip qs h).get k ≠ none := by
  induction qs with
  | nil => intro tip h k hk; exact hk
  | cons q qs ih =>
    intro tip h k hk
    simp only [scanIndex]
    exact ih _ _ k ((Htbl.get_set_iff _ _ _ _).2 (Or.inr hk))

theorem scanIndex_complete (H : List Byte → List Byte) (align : Int) (f : File)
    (qs : List (List Byte)) :
    ∀ (pre rest : List Byte) (h : Htbl),
      f.chunks = [pre ++ (layout align pre.length qs ++ rest)] →
      (∀ p ∈ qs, ∀ q ∈ qs, H p = H q → p = q) →
      ∀ q ∈ qs, ∃ v, (scanIndex H align pre.length qs h).get (H q) = some v ∧ v.bytes f = q := by
  induction qs with
  | nil => intro pre rest h _ _ q hq; simp at hq
  | cons q0 qs ih =>
    intro pre rest h hch hinj q hq
    have hpre2 : (pre ++ (header align pre.length q0 ++ q0
        ++ List.replicate (padOf align (pre.length + (HeaderSize + q0.length))) 0)).length
        = pre.length + recLen align pre.length q0 := by
      simp only [List.length_append, header_length, List.length_replicate, recLen, HeaderSize]
    have hch2 : f.chunks = [(pre ++ (header align pre.length q0 ++ q0
          ++ List.replicate (padOf align (pre.length + (HeaderSize + q0.length))) 0))
        ++ (layout align (pre ++ (header align pre.length q0 ++ q0
          ++ List.replicate (padOf align (pre.length + (HeaderSize + q0.length))) 0)).length qs
            ++ rest)] := by
      rw [hpre2, hch]
      simp only [layout, List.append_assoc]
    by_cases hmem : q ∈ qs
    · have := ih _ rest (h.set (H q0) ⟨0, pre.length + HeaderSize, q0.length⟩) hch2
        (fun a ha b hb => hinj a (List.mem_cons_of_mem _ ha) b (List.mem_cons_of_mem _ hb))
        q hmem
      rw [hpre2] at this
      simpa only [scanIndex] using this
    · have hq0 : q = q0 := by
        rcases List.mem_cons.1 hq with h1 | h1
        · exact h1
        · exact absurd h1 hmem
      subst hq0
      have hne := scanIndex_keep H align qs (pre.length + recLen align pre.length q)
        (h.set (H q) ⟨0, pre.length + HeaderSize, q.length⟩) (H q)
        (by rw [Htbl.get_set_self]; simp)
      obtain ⟨v, hv⟩ := Option.ne_none_iff_exists'.1 hne
      refine ⟨v, by simpa only [scanIndex] using hv, ?_⟩
      rw [← hpre2] at hv
      rcases scanIndex_sound H align f qs _ rest _ hch2 (H q) v hv with ⟨q2, hq2, hk, hb⟩ | hold
      · have : q = q2 := hinj q (List.mem_cons_self _ _) q2 (List.mem_cons_of_mem _ hq2) hk
        rw [this]; exact hb
      · rw [Htbl.get_set_self] at hold
        rw [← Option.some.inj hold]
        exact view_bytes f pre (header align pre.length q) q
          (List.replicate (padOf align (pre.length + (HeaderSize + q.length))) 0
            ++ (layout align (pre.length + recLen align pre.length q) qs ++ rest))
          (by rw [hch]; simp only [layout, List.append_assoc]) (header_length _ _ _)

theorem NewFile_small (contents : List Byte) (h : contents.length < 2 ^ 30) :
    NewFile contents = { size := contents.length, chunksz := 2 ^ 30, chunks := [contents],
                         tip := 0, synctip := 0, lastip := noLast } := by
  have h1 : u64 contents.length = contents.length := u64_eq _ (by omega)
  have h2 : contents.length / (1 * 1024 * 1024 * 1024) = 0 := Nat.div_eq_of_lt (by omega)
  simp only [NewFile, h1, h2]
  have h3 : List.take (1 * 1024 * 1024 * 1024) contents = contents :=
    List.take_of_length_le (by omega)
  simp [List.range_succ, h3]

/-- The recovery round trip on the arenas where the code achieves it: for
every sequence of payloads of at most 65535 bytes each,
no two of which share a score, written through the `Write` handler into a
zero-filled arena of less than one chunk (2^30 bytes), all answered with Rwrite
and leaving room for a header after the last record, and for every alignment
below 2^31, the startup scan of the resulting file bytes (with fuel above the
number of writes) succeeds; the keys of its index are exactly the scores of
the payloads, looking up the score of a payload gives its bytes, the tip is
the tip before the close and synctip equals tip. -/
theorem recovery_round_trip (H : List Byte → List Byte) (align : Int) (size fuel : Nat)
    (ps : List (List Byte)) (s1 : Vtmap) (rs : List Call)
    (hsize : size < 2 ^ 30) (ha : align < 2 ^ 31)
    (hlen : ∀ p ∈ ps, p.length ≤ 65535)
    (hinj : ∀ p ∈ ps, ∀ q ∈ ps, H p = H q → p = q)
    (hrun : serve H align (freshMap size) ps = some (s1, rs))
    (hok : ∀ r ∈ rs, r.Id = Rwrite)
    (hroom : s1.f.tip + HeaderSize ≤ size) (hfuel : ps.length + 1 ≤ fuel) :
    ∃ s2, recover H fuel s1.f.contents = some (s2, none) ∧
      (∀ k, s2.htbl.get k ≠ none ↔ ∃ p ∈ ps, k = H p) ∧
      (∀ p ∈ ps, ∃ v, s2.htbl.get (H p) = some v ∧ v.bytes s2.f = p) ∧
      s2.f.tip = s1.f.tip ∧ s2.f.synctip = s2.f.tip := by
  have hnew := NewFile_small (List.replicate size (0 : Byte)) (by simpa using hsize)
  have hw0 : Written H align size (freshMap size) [] := by
    refine ⟨⟨by simp [freshMap, hnew], by simp [freshMap, hnew, layout]⟩,
      by simp [freshMap, hnew, layout], by simp [freshMap, hnew], ?_⟩
    intro k
    simp [freshMap, Htbl.get]
  obtain ⟨qs, ⟨hone, htip, htiple, _⟩, hmem, hqlen⟩ :=
    serve_written H align size (by omega) hsize ps (freshMap size) s1 [] rs hw0 hrun hok
      (by omega) (by simpa using hinj)
  simp only [List.not_mem_nil, false_or] at hmem
  simp only [List.length_nil, Nat.zero_add] at hqlen
  have hcont : s1.f.contents
      = layout align 0 qs ++ List.replicate (size - (layout align 0 qs).length) 0 := by
    simp [File.contents, hone.2]
  have hclen : (layout align 0 qs ++ List.replicate (size - (layout align 0 qs).length)
      (0 : Byte)).length = size := by
    simp only [List.length_append, List.length_replicate]; omega
  have hnew2 := NewFile_small _ (by rw [hclen]; exact hsize :
    (layout align 0 qs ++ List.replicate (size - (layout align 0 qs).length) (0 : Byte)).length
      < 2 ^ 30)
  obtain ⟨s2, hb, hch2, htip2, hsync, hh⟩ := buildHash_layout H align ha qs []
    (size - (layout align 0 qs).length) fuel
    { f := NewFile (layout align 0 qs ++ List.replicate (size - (layout align 0 qs).length) 0) }
    (by rw [hnew2]; exact ⟨rfl, rfl⟩) (by rw [hnew2]; rfl)
    (by simp only [List.length_nil]; omega) (by simp only [HeaderSize] at hroom; omega)
    (fun q hq => hlen q ((hmem q).1 hq)) (by omega)
  have hchunks : s2.f.chunks
      = [[] ++ (layout align ([] : List Byte).length qs
          ++ List.replicate (size - (layout align 0 qs).length) 0)] := by
    rw [hch2, hnew2]; rfl
  have hinj2 : ∀ p ∈ qs, ∀ q ∈ qs, H p = H q → p = q :=
    fun p hp q hq => hinj p ((hmem p).1 hp) q ((hmem q).1 hq)
  refine ⟨s2, by rw [hcont]; exact hb, ?_, ?_, ?_, hsync⟩
  · intro k
    constructor
    · intro hk
      obtain ⟨v, hv⟩ := Option.ne_none_iff_exists'.1 hk
      rw [hh] at hv
      rcases scanIndex_sound H align s2.f qs [] _ [] hchunks k v hv with ⟨q, hq, hkq, _⟩ | hold
      · exact ⟨q, (hmem q).1 hq, hkq⟩
      · simp [Htbl.get] at hold
    · rintro ⟨p, hp, hk⟩
      obtain ⟨v, hv, _⟩ := scanIndex_complete H align s2.f qs [] _ [] hchunks hinj2 p
        ((hmem p).2 hp)
      rw [hh, hk]
      simp only [List.length_nil] at hv ⊢
      rw [hv]; simp
  · intro p hp
    obtain ⟨v, hv, hbytes⟩ := scanIndex_complete H align s2.f qs [] _ [] hchunks hinj2 p
      ((hmem p).2 hp)
    exact ⟨v, by rw [hh]; exact hv, hbytes⟩
  · rw [htip2, htip]; simp

/-- The startup scan of a log whose first record has the size field 0 and the
next field 65544 and is followed by a zero header: it indexes one empty block. -/
theorem recover_wrapped (H : List Byte → List Byte) (p rest : List Byte)
    (hp : p.length = 65536) (hlen : rest.length + 65552 < 2 ^ 30) :
    ∃ s2, recover H 3 (enc16 Magic ++ (enc16 0 ++ (enc32 65544
        ++ (p ++ (enc16 0 ++ (enc16 0 ++ (enc32 0 ++ rest)))))))
      = some (s2, none) ∧ ∀ k v, s2.htbl.get k = some v → v.len = 0 := by
  have hclen : (enc16 Magic ++ (enc16 0 ++ (enc32 65544
        ++ (p ++ (enc16 0 ++ (enc16 0 ++ (enc32 0 ++ rest))))))).length
      = rest.length + 65552 := by
    have e32 : ∀ n, (enc32 n).length = 4 := fun _ => rfl
    simp only [List.length_append, enc16_length, e32, hp]
    omega
  have hnew2 := NewFile_small _ (by rw [hclen]; exact hlen : (enc16 Magic ++ (enc16 0 ++ (enc32 65544
        ++ (p ++ (enc16 0 ++ (enc16 0 ++ (enc32 0 ++ rest))))))).length < 2 ^ 30)
  generalize hc : (enc16 Magic ++ (enc16 0 ++ (enc32 65544
        ++ (p ++ (enc16 0 ++ (enc16 0 ++ (enc32 0 ++ rest))))))) = c at hnew2 hclen ⊢
  have hone1 : OneChunk (NewFile c) ([] ++ (enc16 Magic ++ (enc16 0 ++ (enc32 65544
        ++ (p ++ (enc16 0 ++ (enc16 0 ++ (enc32 0 ++ rest)))))))) := by
    rw [hnew2, List.nil_append, hc]
    exact ⟨rfl, rfl⟩
  have hr1 := ReadBlock_header _ [] _ Magic 0 65544 hone1 (by rw [hnew2]; rfl) (by decide)
    (by decide) (by decide) (by decide)
  rw [if_neg (by simp), if_pos (by omega)] at hr1
  have hone2 : OneChunk
      { NewFile c with lastip := (NewFile c).tip, tip := (NewFile c).tip + 65544 }
      ((enc16 Magic ++ (enc16 0 ++ (enc32 65544 ++ p)))
        ++ (enc16 0 ++ (enc16 0 ++ (enc32 0 ++ rest)))) := by
    refine ⟨hone1.1, ?_⟩
    show (NewFile c).chunks = _
    rw [hnew2, ← hc]
    simp only [List.append_assoc]
  have hpre : (enc16 Magic ++ (enc16 0 ++ (enc32 65544 ++ p))).length = 65544 := by
    have e32 : ∀ n, (enc32 n).length = 4 := fun _ => rfl
    simp only [List.length_append, enc16_length, e32, hp]
  have hr2 := ReadBlock_header _ (enc16 Magic ++ (enc16 0 ++ (enc32 65544 ++ p))) _ 0 0 0 hone2
    (by simp only [hpre, hnew2, Nat.zero_add]) (by rw [hpre]; decide) (by decide) (by decide)
    (by decide)
  rw [if_pos (by decide), if_pos ⟨rfl, rfl⟩] at hr2
  simp only [recover, buildHash, hr1, hr2]
  refine ⟨_, rfl, ?_⟩
  intro k v hv
  simp only [Htbl.get, Htbl.set, List.filter_nil, List.find?_cons, List.find?_nil] at hv
  split at hv
  · simp only [Option.map_some', Option.some.injEq] at hv
    rw [← hv]
  · simp at hv

/-- A payload of 65536 bytes is written with the size field 0: the startup
scan then indexes an empty block under the score of the empty string, and the
payload is not found under its own score. -/
theorem recover_misses_wrapped_payload (H : List Byte → List Byte) (p : List Byte) (size : Nat)
    (hp : p.length = 65536) (hlo : 65552 ≤ size) (hsize : size < 2 ^ 30) :
    ∃ s1 r, serve H 0 (freshMap size) [p] = some (s1, [r]) ∧ r.Id = Rwrite ∧
      s1.f.tip + HeaderSize ≤ size ∧
      ∃ s2, recover H 3 s1.f.contents = some (s2, none) ∧
        ¬ ∃ v, s2.htbl.get (H p) = some v ∧ v.bytes s2.f = p := by
  have hnew := NewFile_small (List.replicate size (0 : Byte)) (by simpa using hsize)
  have hone : OneChunk (freshMap size).f (List.replicate size 0) := by
    simp [freshMap, hnew, OneChunk]
  have htip0 : (freshMap size).f.tip = 0 := by simp [freshMap, hnew]
  have hrec : recLen 0 0 p = 65544 := by simp [recLen, padOf, HeaderSize, hp]
  have hwb := WriteBlock_fits 0 (freshMap size).f (List.replicate size 0) p hone
    (by simp [htip0, HeaderSize, hp]; omega) (by simpa using hsize) (by decide)
  rw [htip0] at hwb
  have hdrop : List.drop (0 + (HeaderSize + p.length)) (List.replicate size (0 : Byte))
      = enc16 0 ++ (enc16 0 ++ (enc32 0 ++ List.replicate (size - 65552) 0)) := by
    have e : size - (0 + (HeaderSize + p.length)) - 8 = size - 65552 := by
      simp only [HeaderSize, hp]; omega
    rw [List.drop_replicate, zeros_header _ (by simp only [HeaderSize, hp]; omega), e]
  have hhdr : header 0 0 p = enc16 Magic ++ (enc16 0 ++ enc32 65544) := by
    simp [header, hrec, hp]
  rw [hdrop, hhdr, hrec] at hwb
  simp only [List.take_zero, List.nil_append, Nat.zero_add, List.append_assoc] at hwb
  obtain ⟨s1, hwrite, hs1c, hs1t⟩ : ∃ s1, Write H 0 (freshMap size) p
        = some (s1, { Id := Rwrite, Score := some (H p) }) ∧
      s1.f.chunks = [enc16 Magic ++ (enc16 0 ++ (enc32 65544
        ++ (p ++ (enc16 0 ++ (enc16 0 ++ (enc32 0 ++ List.replicate (size - 65552) 0))))))] ∧
      s1.f.tip = 65544 := by
    refine ⟨{ f := { (freshMap size).f with
                  chunks := [enc16 Magic ++ (enc16 0 ++ (enc32 65544
                    ++ (p ++ (enc16 0 ++ (enc16 0 ++ (enc32 0
                      ++ List.replicate (size - 65552) 0))))))],
                  lastip := 0, tip := 65544 },
              htbl := Htbl.set [] (H p) ⟨0, HeaderSize, p.length⟩ }, ?_, rfl, rfl⟩
    · unfold Write
      simp only []
      rw [if_pos (by simp [freshMap, Htbl.get]), hwb]
      rfl
  refine ⟨s1, { Id := Rwrite, Score := some (H p) }, by simp only [serve, hwrite], rfl,
    by simp only [HeaderSize, hs1t]; omega, ?_⟩
  simp only [File.contents, hs1c, List.flatten_cons, List.flatten_nil, List.append_nil]
  obtain ⟨s2, hs2, hzero⟩ := recover_wrapped H p (List.replicate (size - 65552) 0) hp
    (by simp only [List.length_replicate]; omega)
  refine ⟨s2, hs2, ?_⟩
  rintro ⟨v, hv, hb⟩
  have hlen := hzero _ _ hv
  have : p.length = 0 := by
    rw [← hb]
    simp [View.bytes, hlen]
  omega

/-- The 16-bit size field: a payload of 65536 zero bytes, more than a Twrite
can carry, is written into a
zero-filled arena of 65552 bytes and answered with Rwrite, with room left for
a terminating header; the startup scan of the resulting bytes succeeds, and
looking up the score of the payload in the recovered index does not return
the payload. -/
theorem recovery_round_trip_fails_on_65536_byte_payload :
    ∃ s1 r, serve sha1 0 (freshMap 65552) [bigPayload] = some (s1, [r]) ∧ r.Id = Rwrite ∧
      s1.f.tip + HeaderSize ≤ 65552 ∧
      ∃ s2, recover sha1 3 s1.f.contents = some (s2, none) ∧
        ¬ ∃ v, s2.htbl.get (sha1 bigPayload) = some v ∧ v.bytes s2.f = bigPayload :=
  recover_misses_wrapped_payload sha1 bigPayload 65552 (List.length_replicate 65536 (0 : Byte))
    (by decide) (by decide)

set_option maxRecDepth 20000

/-- An instance of the round trip: "hello", "abc" and "hello" again are
written into a zero-filled arena of 60 bytes with 4-byte alignment, and the
arena is recovered from the resulting bytes. -/
theorem recovery_round_trip_witness :
    serve sha1 4 (freshMap 60) [hello, abc, hello] = some served ∧
    (∀ r ∈ served.2, r.Id = Rwrite) ∧ served.1.f.tip + HeaderSize ≤ 60 ∧
    ∃ s2, recover sha1 4 served.1.f.contents = some (s2, none) ∧
      (∀ k, s2.htbl.get k ≠ none ↔ ∃ p ∈ [hello, abc, hello], k = sha1 p) ∧
      (∀ p ∈ [hello, abc, hello], ∃ v, s2.htbl.get (sha1 p) = some v ∧ v.bytes s2.f = p) ∧
      s2.f.tip = served.1.f.tip ∧ s2.f.synctip = s2.f.tip :=
  ⟨rfl, by decide, by decide,
    recovery_round_trip sha1 4 60 4 [hello, abc, hello] served.1 served.2 (by decide) (by decide)
      (by decide) (by decide) rfl (by decide) (by decide) (by decide)⟩

/-! ## Flush -/

theorem Sync_synctip (msync : Nat → Nat → Int → Nat) (f g : File) (e : Option SyncErr)
    (h : File.Sync msync f = some (g, e)) : g.synctip = f.tip ∧ g.tip = f.tip := by
  unfold File.Sync at h
  simp only [] at h
  split_ifs at h
  split at h
  · simp at h
  · simp only [Option.some.injEq, Prod.mk.injEq] at h
    rw [← h.1]
    exact ⟨rfl, rfl⟩

/-- C11, on the code: after a write of "hello" into a fresh arena (synctip 0,
tip 13) a `Sync` whose `msync` fails with EIO returns that error, and synctip
is 13 afterwards, not the 0 it had before the call. -/
theorem Sync_advances_synctip_on_error :
    helloWritten.1.f.synctip = 0 ∧ helloWritten.1.f.tip = 13 ∧
    File.Sync msyncEIO helloWritten.1.f
      = some ({ helloWritten.1.f with synctip := 13 }, some (.errno 5)) := by
  refine ⟨rfl, rfl, rfl⟩

/-! ## The offset invariant -/

/-- C17, on the code: `NewFile` on a zero-filled file of 20 bytes satisfies
the offset invariant; with the alignment 16 a `WriteBlock` of the 11 bytes
"hello world" succeeds and leaves tip = 32 in a file of size 20, so the
invariant does not hold afterwards. -/
theorem WriteBlock_align_moves_tip_past_size :
    OffsetsOk (NewFile (List.replicate 20 0)) ∧
    WriteBlock 16 (NewFile (List.replicate 20 0)) helloWorld = some alignedWrite ∧
    alignedWrite.2 = .inr ⟨0, 8, 11⟩ ∧
    alignedWrite.1.tip = 32 ∧ alignedWrite.1.size = 20 ∧ ¬ OffsetsOk alignedWrite.1 :=
  ⟨by decide, by rfl, by rfl, by rfl, by rfl, by decide⟩

/-! ## Recovery of a log with a bad first header -/

theorem NewFile_chunk0 (contents : List Byte) :
    (NewFile contents).chunks[0]? = some (contents.take (2 ^ 30)) := by
  simp [NewFile, List.range_succ_eq_map]

theorem take_header (n : Nat) (h : 8 ≤ n) (b0 b1 b2 b3 b4 b5 b6 b7 : Byte) (rest : List Byte) :
    (b0 :: b1 :: b2 :: b3 :: b4 :: b5 :: b6 :: b7 :: rest).take n
      = b0 :: b1 :: b2 :: b3 :: b4 :: b5 :: b6 :: b7 :: rest.take (n - 8) := by
  obtain ⟨k, rfl⟩ : ∃ k, n = k + 8 := ⟨n - 8, by omega⟩
  simp [List.take_succ_cons]

/-- `ReadBlock` on a fresh file reads the header at offset 0. -/
theorem ReadBlock_bad_magic (contents : List Byte) (m sz next : Nat)
    (h : headerAt0 contents = some (m, sz, next)) (hm : m ≠ Magic) (ht : ¬ (m = 0 ∧ sz = 0)) :
    ReadBlock (NewFile contents)
      = some (NewFile contents, .err ⟨gostr "magic not found"⟩) := by
  rcases contents with _ | ⟨b0, _ | ⟨b1, _ | ⟨b2, _ | ⟨b3, _ | ⟨b4, _ | ⟨b5, _ | ⟨b6, _ |
    ⟨b7, rest⟩⟩⟩⟩⟩⟩⟩⟩ <;> simp [headerAt0, Gint16, Gint32] at h
  obtain ⟨h1, h2, _⟩ := h
  have hc := NewFile_chunk0 (b0 :: b1 :: b2 :: b3 :: b4 :: b5 :: b6 :: b7 :: rest)
  rw [take_header _ (by norm_num)] at hc
  have hz : (NewFile (b0 :: b1 :: b2 :: b3 :: b4 :: b5 :: b6 :: b7 :: rest)).chunksz
      = 2 ^ 30 := rfl
  have ht0 : (NewFile (b0 :: b1 :: b2 :: b3 :: b4 :: b5 :: b6 :: b7 :: rest)).tip = 0 := rfl
  unfold ReadBlock
  rw [if_neg (by rw [hz]; norm_num), ht0, hz]
  simp only [Nat.zero_div, Nat.zero_mod, hc, Option.bind_eq_bind, Option.some_bind,
    Slice.sliceFrom, Slice.len]
  rw [if_pos (Nat.zero_le _)]
  simp only [Option.map_some', List.drop_zero, Option.some_bind, Gint16, Gint32, h1, h2]
  rw [if_pos hm, if_neg ht]

/-- C18 (amended): for every arena whose header at offset 0 has a magic other
than 0x28b4 and is not the terminator (magic 0 and size 0), and for any
positive fuel, the startup scan returns the error "magic not found"; the
index is empty and tip is 0 when it returns. -/
theorem recover_bad_magic (H : List Byte → List Byte) (fuel : Nat) (contents : List Byte)
    (m sz next : Nat) (h : headerAt0 contents = some (m, sz, next))
    (hm : m ≠ Magic) (ht : ¬ (m = 0 ∧ sz = 0)) (hfuel : 0 < fuel) :
    ∃ srv, recover H fuel contents = some (srv, some ⟨gostr "magic not found"⟩) ∧
      srv.htbl = [] ∧ srv.f.tip = 0 := by
  obtain ⟨k, rfl⟩ : ∃ k, fuel = k + 1 := ⟨fuel - 1, by omega⟩
  refine ⟨{ f := NewFile contents }, ?_, rfl, rfl⟩
  simp only [recover, buildHash, ReadBlock_bad_magic contents m sz next h hm ht]

/-- C18, witness: an arena of 20 bytes that begins with "garbage!". -/
theorem recover_bad_magic_witness :
    headerAt0 badArena = some (26465, 29282, 1634166049) ∧ 26465 ≠ Magic ∧
    ¬ (26465 = 0 ∧ 29282 = 0) ∧ 0 < 1 ∧
    ∃ srv, recover sha1 1 badArena = some (srv, some ⟨gostr "magic not found"⟩) ∧
      srv.htbl = [] ∧ srv.f.tip = 0 :=
  ⟨by rfl, by decide, by decide, by decide,
   recover_bad_magic sha1 1 badArena 26465 29282 1634166049 (by rfl) (by decide)
    (by decide) (by decide)⟩

/-- C18, counterexample: on an arena of 20 bytes that begins with "garbage!"
(magic 0x6761) the startup scan does not succeed: it returns the error "magic
not found". -/
theorem recover_bad_magic_is_an_error :
    headerAt0 badArena = some (0x6761, 29282, 1634166049) ∧ 0x6761 ≠ Magic ∧
    recover sha1 5 badArena
      = some ({ f := NewFile badArena }, some ⟨gostr "magic not found"⟩) :=
  ⟨by rfl, by decide, by rfl⟩

/-! ## The move to the next chunk -/

/-- The first part of `WriteBlock` when the block does not fit the first chunk
of two and fits the second: the tip moves to the second chunk, two bytes of
the header of the last record are overwritten and synctip becomes lastip. -/
theorem place_advance (sz S T L blksz : Nat) (c0 c1 : List Byte)
    (hT : T < 2 ^ 30) (hL : L < 2 ^ 30) (hadv : c0.length ≤ T + blksz)
    (hfit : blksz < c1.length) (hroom : L + 6 ≤ c0.length) :
    WriteBlock.place { size := sz, synctip := S, tip := T, lastip := L, chunksz := 2 ^ 30,
                       chunks := [c0, c1] } blksz
      = some ({ size := sz, synctip := L, tip := 2 ^ 30, lastip := L, chunksz := 2 ^ 30,
                chunks := [c0.take (L + 4) ++ (enc16 ((2 ^ 30 - L) % 65536)
                            ++ c0.drop (L + 4 + 2)), c1] }, .inr (1, 0)) := by
  have hidx : T / 2 ^ 30 = 0 := Nat.div_eq_of_lt hT
  have hoff : T % 2 ^ 30 = T := Nat.mod_eq_of_lt hT
  have hlidx : L / 2 ^ 30 = 0 := Nat.div_eq_of_lt hL
  have hloff : L % 2 ^ 30 = L := Nat.mod_eq_of_lt hL
  have hu : u64 ((0 + 1) * 2 ^ 30) = 2 ^ 30 := by
    unfold u64
    norm_num
  have hno : L ≠ noLast := by
    unfold noLast
    have : (2 : Nat) ^ 30 < 2 ^ 64 - 1 := by norm_num
    omega
  have hsub : sub64 (2 ^ 30) L = 2 ^ 30 - L :=
    sub64_eq _ _ (by omega) (by norm_num)
  unfold WriteBlock.place
  rw [if_neg (by norm_num)]
  simp only [hidx, hoff, List.getElem?_cons_zero, Option.bind_eq_bind, Option.some_bind]
  rw [if_pos (by omega), if_neg (by simp)]
  simp only [List.getElem?_cons_succ, List.getElem?_cons_zero, Option.some_bind, hu]
  rw [if_neg (by omega), if_pos hno]
  simp only [File.cursor, hlidx, hloff, List.getElem?_cons_zero, Option.bind_eq_bind,
    Option.some_bind]
  rw [if_pos (by omega)]
  simp only [Option.some_bind]
  rw [Pint16_put _ _ (by simp only [List.length_drop]; omega)]
  simp only [Option.some_bind, hsub, Cur.put, Cur.all, List.set_cons_zero, enc16_length,
    List.drop_drop, List.append_assoc]

/-- `WriteBlock` without alignment when the block does not fit the first chunk
of two and fits the second. -/
theorem WriteBlock_advance (sz S T L : Nat) (c0 c1 data : List Byte)
    (hT : T < 2 ^ 30) (hL : L < 2 ^ 30) (hadv : c0.length ≤ T + (8 + data.length))
    (hfit : 8 + data.length < c1.length) (hroom : L + 6 ≤ c0.length)
    (hd : data.length < 2 ^ 30) :
    ∃ c1n, WriteBlock 0 { size := sz, synctip := S, tip := T, lastip := L, chunksz := 2 ^ 30,
                          chunks := [c0, c1] } data
      = some ({ size := sz, synctip := L, tip := 2 ^ 30 + (8 + data.length), lastip := 2 ^ 30,
                chunksz := 2 ^ 30,
                chunks := [c0.take (L + 4) ++ (enc16 ((2 ^ 30 - L) % 65536)
                            ++ c0.drop (L + 4 + 2)), c1n] }, .inr ⟨1, 8, data.length⟩) := by
  have hu : u64 (2 ^ 30 + (8 + data.length)) = 2 ^ 30 + (8 + data.length) := by
    unfold u64
    apply Nat.mod_eq_of_lt
    have : (2 : Nat) ^ 30 + (8 + 2 ^ 30) < 2 ^ 64 := by norm_num
    omega
  unfold WriteBlock
  simp only [HeaderSize, place_advance sz S T L (8 + data.length) c0 c1 hT hL hadv hfit hroom,
    Option.bind_eq_bind, Option.some_bind, hu]
  rw [if_neg (by decide)]
  simp only [File.cursor, List.getElem?_cons_succ, List.getElem?_cons_zero, Option.bind_eq_bind,
    Option.some_bind]
  rw [if_pos (Nat.zero_le _)]
  simp only [Option.some_bind, List.take_zero, List.drop_zero]
  rw [Pint16_put _ _ (by simp only []; omega)]
  simp only [Option.some_bind]
  rw [Pint16_put _ _ (by simp only [Cur.put_rest_length, enc16_length]; omega)]
  simp only [Option.some_bind, Cur.put_put]
  rw [Pint32_put _ _ (by
    simp only [Cur.put_rest_length, List.length_append, enc16_length]; omega)]
  simp only [Option.some_bind, Cur.put_put]
  rw [if_pos (by
    simp only [Cur.copy, Cur.put, List.length_append, List.length_take, List.length_drop,
      enc16_length]
    have e32 : ∀ n, (enc32 n).length = 4 := fun _ => rfl
    simp only [e32]
    omega)]
  exact ⟨_, rfl⟩

theorem head20_length : head20.length = 20 := by decide

theorem chunk0_length : chunk0.length = 2 ^ 30 := by
  rw [chunk0, List.length_append, head20_length, List.length_replicate]
  norm_num

/-- The arena after the `WriteBlock` of "hello world" on `twoRecords`. -/
theorem WriteBlock_twoRecords :
    ∃ c1n, WriteBlock 0 twoRecords helloWorld
      = some ({ size := 2 ^ 30 + 64, synctip := 12, tip := 2 ^ 30 + (8 + helloWorld.length),
                lastip := 2 ^ 30, chunksz := 2 ^ 30,
                chunks := [chunk0.take (12 + 4) ++ (enc16 ((2 ^ 30 - 12) % 65536)
                            ++ chunk0.drop (12 + 4 + 2)), c1n] },
              .inr ⟨1, 8, helloWorld.length⟩) :=
  WriteBlock_advance (2 ^ 30 + 64) 0 (2 ^ 30 - 12) 12 chunk0 (List.replicate 64 0) helloWorld
    (by norm_num) (by norm_num)
    (by rw [chunk0_length]; have : helloWorld.length = 11 := by decide
        rw [this]; norm_num)
    (by rw [List.length_replicate]; have : helloWorld.length = 11 := by decide
        rw [this]; norm_num)
    (by rw [chunk0_length]; norm_num)
    (by have : helloWorld.length = 11 := by decide
        rw [this]; norm_num)

/-- The `next` field of a record in the first chunk: the four bytes after the
first four of its header, most significant first. -/
theorem nextField_at (sz S T L at0 : Nat) (pre X c1n : List Byte) (b0 b1 b2 b3 : Byte)
    (hpre : pre.length = at0 + 4) (hat : at0 < 2 ^ 30) :
    nextField { size := sz, synctip := S, tip := T, lastip := L, chunksz := 2 ^ 30,
                chunks := [pre ++ (b0 :: b1 :: b2 :: b3 :: X), c1n] } at0
      = some (b0.val * 2 ^ 24 + (b1.val * 2 ^ 16 + (b2.val * 2 ^ 8 + b3.val))) := by
  have hidx : at0 / 2 ^ 30 = 0 := Nat.div_eq_of_lt hat
  have hoff : at0 % 2 ^ 30 = at0 := Nat.mod_eq_of_lt hat
  unfold nextField
  rw [if_neg (by norm_num)]
  simp only [hidx, hoff, List.getElem?_cons_zero, Option.bind_eq_bind, Option.some_bind,
    Slice.sliceFrom, Slice.len]
  rw [if_pos (by simp only [List.length_append, hpre]; omega)]
  simp only [Option.map_some', Option.some_bind]
  rw [← hpre, List.drop_left, Gint32_cons]
  rfl

/-- The `next` field of the record at offset 12 after the patch. -/
theorem nextField_patched (sz S T L : Nat) (c1n : List Byte) :
    nextField { size := sz, synctip := S, tip := T, lastip := L, chunksz := 2 ^ 30,
                chunks := [chunk0.take (12 + 4) ++ (enc16 ((2 ^ 30 - 12) % 65536)
                            ++ chunk0.drop (12 + 4 + 2)), c1n] } 12
      = some 4294246376 := by
  have h16 : chunk0.take (12 + 4) = head20.take 16 := by
    rw [chunk0, List.take_append_of_le_length (by rw [head20_length]; norm_num)]
  have h18 : chunk0.drop (12 + 4 + 2) = 255 :: 232 :: List.replicate (2 ^ 30 - 20) 0 := by
    rw [chunk0, List.drop_append_of_le_length (by rw [head20_length]; norm_num)]
    rfl
  have hl : (head20.take 16).length = 12 + 4 := by decide
  have he : ∀ X : List Byte, enc16 ((2 ^ 30 - 12) % 65536) ++ (255 :: 232 :: X)
      = 255 :: 244 :: 255 :: 232 :: X := by
    intro X
    have : enc16 ((2 ^ 30 - 12) % 65536) = [255, 244] := by decide
    rw [this]
    rfl
  rw [h16, h18, he, nextField_at sz S T L 12 _ _ c1n 255 244 255 232 hl (by norm_num)]
  rfl

/-- The `next` field of the record at offset 12 before the patch. -/
theorem nextField_twoRecords : nextField twoRecords 12 = some (2 ^ 30 - 24) := by
  have e : chunk0 = head20.take 16 ++ (63 :: 255 :: 255 :: 232 :: List.replicate (2 ^ 30 - 20) 0) := by
    have h : head20 = head20.take 16 ++ [63, 255, 255, 232] := by decide
    rw [chunk0]
    conv_lhs => rw [h]
    rw [List.append_assoc]
    rfl
  have hl : (head20.take 16).length = 12 + 4 := by decide
  unfold twoRecords
  rw [e, nextField_at _ _ _ _ 12 _ _ _ 63 255 255 232 hl (by norm_num)]
  rfl

/-- C23, on the code: on an arena of two chunks whose last record is at
lastip = 12 and whose tip is `2^30 - 12`, a `WriteBlock` of "hello world" moves
the tip to the start of the second chunk (`2^30`) and succeeds; afterwards the
`next` field of the record at 12 decodes to 4294246376 (bytes ff f4 ff e8)
and not to `2^30 - 12 = 1073741812`; synctip is lastip (12). -/
theorem WriteBlock_patch_writes_16_bits :
    twoRecords.lastip = 12 ∧ nextField twoRecords 12 = some (2 ^ 30 - 24) ∧
    ∃ f v, WriteBlock 0 twoRecords helloWorld = some (f, .inr v) ∧
      f.lastip = 2 ^ 30 ∧ f.synctip = 12 ∧ nextField f 12 = some 4294246376 ∧
      (4294246376 : Nat) ≠ 2 ^ 30 - 12 := by
  obtain ⟨c1n, h⟩ := WriteBlock_twoRecords
  exact ⟨rfl, nextField_twoRecords, _, _, h, rfl, rfl, nextField_patched _ _ _ _ _,
    by norm_num⟩

/-- C28, counterexample: on the same arena, not flushed since it was opened
(synctip = 0 ≤ tip), the `WriteBlock` that moves to the second chunk sets
synctip to the lastip before the call, 12: synctip is not less than or equal
to its value before the call. -/
theorem WriteBlock_moves_synctip_forward :
    twoRecords.synctip = 0 ∧ twoRecords.synctip ≤ twoRecords.tip ∧ twoRecords.lastip = 12 ∧
    ∃ f v, WriteBlock 0 twoRecords helloWorld = some (f, .inr v) ∧ f.synctip = 12 ∧
      ¬ f.synctip ≤ twoRecords.synctip := by
  obtain ⟨c1n, h⟩ := WriteBlock_twoRecords
  exact ⟨rfl, Nat.zero_le _, rfl, _, _, h, rfl, show ¬ (12 : Nat) ≤ 0 by decide⟩

/-- The first part of `WriteBlock` leaves synctip as it is, or sets it to
lastip when there is a last record. -/
theorem place_synctip (f g : File) (blksz : Nat) (r : Error ⊕ (Nat × Nat))
    (h : WriteBlock.place f blksz = some (g, r)) :
    g.synctip = f.synctip ∨ (f.lastip ≠ noLast ∧ g.synctip = f.lastip) := by
  unfold WriteBlock.place at h
  split at h
  · exact absurd h (by simp)
  · dsimp only at h
    cases hb : f.chunks[f.tip / f.chunksz]? with
    | none => rw [hb] at h; exact absurd h (by simp)
    | some buf =>
      rw [hb] at h
      simp only [Option.bind_eq_bind, Option.some_bind] at h
      split at h
      · split at h
        · simp only [Option.some.injEq, Prod.mk.injEq] at h
          exact Or.inl (by rw [← h.1])
        · cases hb1 : f.chunks[f.tip / f.chunksz + 1]? with
          | none => rw [hb1] at h; exact absurd h (by simp)
          | some buf1 =>
            rw [hb1] at h
            simp only [Option.some_bind] at h
            split at h
            · simp only [Option.some.injEq, Prod.mk.injEq] at h
              exact Or.inl (by rw [← h.1])
            · split at h
              · rename_i hno
                cases hc : File.cursor { f with tip := u64 ((f.tip / f.chunksz + 1) * f.chunksz) }
                    (f.lastip / f.chunksz) (f.lastip % f.chunksz + 4) with
                | none => rw [hc] at h; exact absurd h (by simp)
                | some c =>
                  rw [hc] at h
                  simp only [Option.some_bind] at h
                  cases hp : Pint16 (sub64 (u64 ((f.tip / f.chunksz + 1) * f.chunksz)) f.lastip % 65536) c with
                  | none => rw [hp] at h; exact absurd h (by simp)
                  | some c2 =>
                    rw [hp] at h
                    simp only [Option.some_bind, Option.some.injEq, Prod.mk.injEq] at h
                    exact Or.inr ⟨hno, by rw [← h.1]⟩
              · simp only [Option.some.injEq, Prod.mk.injEq] at h
                exact Or.inl (by rw [← h.1])
      · simp only [Option.some.injEq, Prod.mk.injEq] at h
        exact Or.inl (by rw [← h.1])

/-- The second part of `WriteBlock` does not touch synctip. -/
theorem WriteBlock_synctip_of_place (align : Int) (f g : File) (data : List Byte)
    (r : Error ⊕ View) (h : WriteBlock align f data = some (g, r)) :
    ∃ f1 r1, WriteBlock.place f (HeaderSize + data.length) = some (f1, r1) ∧
      g.synctip = f1.synctip := by
  unfold WriteBlock at h
  dsimp only at h
  cases hp : WriteBlock.place f (HeaderSize + data.length) with
  | none => rw [hp] at h; exact absurd h (by simp)
  | some p =>
    obtain ⟨f1, r1⟩ := p
    refine ⟨f1, r1, rfl, ?_⟩
    rw [hp] at h
    simp only [Option.bind_eq_bind, Option.some_bind] at h
    cases r1 with
    | inl e =>
      simp only [Option.some.injEq, Prod.mk.injEq] at h
      rw [← h.1]
    | inr io =>
      obtain ⟨idx, off⟩ := io
      simp only [Option.bind_eq_some] at h
      obtain ⟨c, _, c1, _, c2, _, c3, _, h⟩ := h
      split at h
      · simp only [Option.some.injEq, Prod.mk.injEq] at h
        rw [← h.1]
      · exact absurd h (by simp)

/-- C28 (amended): for every arena state, every alignment and every payload,
after a `WriteBlock` that returns, synctip either has the value it had before
the call or, when there was a last record, the value lastip had before the
call; so it is less than or equal to its value before the call whenever
lastip ≤ synctip held before the call. -/
theorem WriteBlock_synctip (align : Int) (f g : File) (data : List Byte) (r : Error ⊕ View)
    (h : WriteBlock align f data = some (g, r)) :
    (g.synctip = f.synctip ∨ (f.lastip ≠ noLast ∧ g.synctip = f.lastip)) ∧
    (f.lastip ≤ f.synctip → g.synctip ≤ f.synctip) := by
  obtain ⟨f1, r1, hp, hs⟩ := WriteBlock_synctip_of_place align f g data r h
  have hq := place_synctip f f1 _ r1 hp
  rw [← hs] at hq
  refine ⟨hq, fun hle => ?_⟩
  rcases hq with e | ⟨_, e⟩
  · exact le_of_eq e
  · rw [e]; exact hle

/-- C28, witness: on the arena `twoRecords` after a flush (synctip = tip =
`2^30 - 12`, lastip = 12), the `WriteBlock` of "hello world" moves to the second
chunk and sets synctip to 12, the lastip before the call, which is below the
synctip before the call. -/
theorem WriteBlock_synctip_witness :
    flushedRecords.synctip ≤ flushedRecords.tip ∧
    flushedRecords.lastip ≤ flushedRecords.synctip ∧
    ∃ g v, WriteBlock 0 flushedRecords helloWorld = some (g, .inr v) ∧ g.synctip = 12 ∧
      (g.synctip = flushedRecords.synctip ∨
        (flushedRecords.lastip ≠ noLast ∧ g.synctip = flushedRecords.lastip)) ∧
      g.synctip ≤ flushedRecords.synctip := by
  obtain ⟨c1n, h⟩ := WriteBlock_advance (2 ^ 30 + 64) (2 ^ 30 - 12) (2 ^ 30 - 12) 12 chunk0
    (List.replicate 64 0) helloWorld
    (by norm_num) (by norm_num)
    (by rw [chunk0_length]; have : helloWorld.length = 11 := by decide
        rw [this]; norm_num)
    (by rw [List.length_replicate]; have : helloWorld.length = 11 := by decide
        rw [this]; norm_num)
    (by rw [chunk0_length]; norm_num)
    (by have : helloWorld.length = 11 := by decide
        rw [this]; norm_num)
  have hle : flushedRecords.lastip ≤ flushedRecords.synctip := by
    show (12 : Nat) ≤ 2 ^ 30 - 12
    norm_num
  have t := WriteBlock_synctip 0 flushedRecords _ helloWorld _ h
  exact ⟨le_refl _, hle, _, _, h, rfl, t.1, t.2 hle⟩

set_option maxRecDepth 20000

/-- C3, on the code: one `Write` of "hello" into a zero-filled arena of 20
bytes is answered with Rwrite and leaves the tip at 13 of 20 bytes.  The
startup scan of the resulting bytes reads the record at offset 0 and moves the
tip to 13; its next `ReadBlock` does not return (the `Gint32` of the header
indexes the 3 bytes left after the two `Gint16`), so the scan returns for no
fuel.  With an arena of 21 bytes the same write is recovered: the scan
succeeds with two `ReadBlock` calls, the score of "hello" maps to its bytes,
and tip and synctip are 13. -/
theorem recover_panics_when_less_than_a_header_is_free :
    Write sha1 0 (freshMap 20) hello = some tightWritten ∧
    tightWritten.2 = { Id := Rwrite, Score := some (sha1 hello) } ∧
    tightWritten.1.f.tip = 13 ∧ tightWritten.1.f.contents.length = 20 ∧
    ReadBlock (NewFile tightWritten.1.f.contents) = some tightScanned ∧
    tightScanned.2 = .blk ⟨0, 8, 5⟩ ∧ tightScanned.1.tip = 13 ∧
    ReadBlock tightScanned.1 = none ∧
    (∀ fuel, recover sha1 fuel tightWritten.1.f.contents = none) ∧
    Write sha1 0 (freshMap 21) hello = some roomyWritten ∧
    roomyWritten.2 = { Id := Rwrite, Score := some (sha1 hello) } ∧
    roomyWritten.1.f.tip = 13 ∧
    ∃ s2 v, recover sha1 2 roomyWritten.1.f.contents = some (s2, none) ∧
      s2.htbl.get (sha1 hello) = some v ∧ v.bytes s2.f = hello ∧
      s2.f.tip = 13 ∧ s2.f.synctip = 13 := by
  have h1 : ReadBlock (NewFile tightWritten.1.f.contents) = some tightScanned := by rfl
  have hb : tightScanned = (tightScanned.1, .blk ⟨0, 8, 5⟩) := by rfl
  have h2 : ReadBlock tightScanned.1 = none := by rfl
  refine ⟨by rfl, by rfl, by rfl, by rfl, h1, by rfl, by rfl, h2, ?_, by rfl, by rfl, by rfl,
    ?_⟩
  · intro fuel
    rw [hb] at h1
    cases fuel with
    | zero => rfl
    | succ n =>
      cases n with
      | zero => simp only [recover, buildHash, h1]
      | succ m => simp only [recover, buildHash, h1, h2]
  · exact ⟨_, _, by rfl, by rfl, by rfl, by rfl, by rfl⟩

end Vtmm
